import Mathlib

/-!
Verification development for the repository's storage-format converter
(`storage-dom`): a shallow embedding, over `List Char`, of the pure
string-rewriting functions of the module, together with theorems about the
documented round-trip, idempotence, rectangularity, balance and
partial-update properties.

Conventions of the embedding:
- Strings are embedded as `List Char`; each JavaScript regular-expression
  replacement is embedded as a bespoke left-to-right scanner with the same
  match semantics (leftmost match, non-overlapping, continue scanning after
  the replaced segment).
- The JavaScript whitespace class is modelled by space and tab (the inputs
  involved contain no other whitespace inside lines; newlines are handled
  explicitly by the line-oriented functions).
- DOM parsing/serialization (the external `linkedom` collaborator) and the
  external generic block converter (`turndown`) are modelled explicitly where
  needed; those models carry doc comments saying what they stand for.
-/

namespace StorageDom

/-- Character lists standing for JavaScript strings. -/
abbrev Str := List Char

/-! ## Core scanning utilities -/

/-- Boolean test that `p` is an initial segment of `s`. -/
def beginsWith : Str → Str → Bool
  | [], _ => true
  | _ :: _, [] => false
  | p :: ps, c :: cs => p == c && beginsWith ps cs

/-- Split at the first occurrence of `pat`: `splitSub pat s = some (a, b)`
means `s = a ++ pat ++ b` with no occurrence of `pat` beginning inside `a`.
This is the common core of the scanners for the JavaScript regular
expression replacements. -/
def splitSub (pat : Str) : Str → Option (Str × Str)
  | [] => if pat = [] then some ([], []) else none
  | c :: r =>
    if beginsWith pat (c :: r) then some ([], (c :: r).drop pat.length)
    else (splitSub pat r).map (fun q => (c :: q.1, q.2))

/-- Boolean substring test, via `splitSub`. -/
def containsSub (pat s : Str) : Bool := (splitSub pat s).isSome

/-- Fuelled worker for `replaceSub`: structural recursion on `fuel` so that
the kernel can evaluate it; each step consumes at least one character, so
`fuel = s.length` always suffices. -/
def replaceSubF (pat repl : Str) : Nat → Str → Str
  | 0, s => s
  | fuel + 1, s =>
    match s with
    | [] => []
    | c :: r =>
      if beginsWith pat (c :: r) = true ∧ pat ≠ [] then
        repl ++ replaceSubF pat repl fuel ((c :: r).drop pat.length)
      else c :: replaceSubF pat repl fuel r

/-- Global replacement of every occurrence of `pat` by `repl`, scanning left
to right and continuing after each replaced segment — the semantics of a
JavaScript `s.replace(/pat/g, repl)` with a fixed pattern and replacement. -/
def replaceSub (pat repl : Str) (s : Str) : Str := replaceSubF pat repl s.length s

/-! ## Skip lemmas: scanners pass over regions that cannot start a match -/

/-! ## The escaping normalizer
(`unescapeMarkdownUnderscores` and `unescapeAsterisksInsideCode`) -/

/-- Step 1 of `unescapeMarkdownUnderscores` (`md.replace(/\\_/g, "_")`):
remove each backslash escape immediately before an underscore. -/
def unescUnd (s : Str) : Str := replaceSub ['\\', '_'] ['_'] s

/-- The replacement `body.replace(/\\\*/g, "*")` used inside code regions by
`unescapeAsterisksInsideCode`. -/
def removeEscStar (s : Str) : Str := replaceSub ['\\', '*'] ['*'] s

/-- One scanning step of `collapseBefore` (steps 2-3 of the normalizer,
`out.replace(/\\{2,}_/g, "\\_")` resp. `out.replace(/\\{2,}\*/g, "\\*")`):
on a backslash, read the whole run; a run of two or more backslashes
immediately followed by the marker character collapses to a single backslash
before the marker; runs not followed by the marker are emitted unchanged;
`go` continues the scan after the consumed segment. -/
def collapseStep (mark : Char) (go : Str → Str) : Str → Str
  | [] => []
  | '\\' :: r =>
    let run := r.takeWhile (fun c => c == '\\')
    let r2 := r.dropWhile (fun c => c == '\\')
    match r2 with
    | [] => '\\' :: run
    | c :: r3 =>
      if 2 ≤ run.length + 1 ∧ c = mark then '\\' :: mark :: go r3
      else ('\\' :: run) ++ c :: go r3
  | c :: r => c :: go r

/-- Fuelled worker of `collapseBefore`; each step consumes at least one
character, so `fuel = s.length` always suffices. -/
def collapseBeforeF (mark : Char) : Nat → Str → Str
  | 0, s => s
  | fuel + 1, s => collapseStep mark (collapseBeforeF mark fuel) s

/-- Steps 2-3 of `unescapeMarkdownUnderscores`. -/
def collapseBefore (mark : Char) (s : Str) : Str := collapseBeforeF mark s.length s

/-- Whitespace inside a line, as used by the `\s` class of the multiline
regular expressions of steps 4-5 (the inputs contain no exotic whitespace). -/
def isWsC (c : Char) : Bool := c == ' ' || c == '\t'

/-- Decimal digit test (`\d`). -/
def isDigitC (c : Char) : Bool := '0' ≤ c && c ≤ '9'

/-- Step 4 of `unescapeMarkdownUnderscores`, one line of the multiline
replacement `out.replace(/^(\s*\d+)\\\./gm, "$1.")`: at the start of a line,
optional whitespace, then digits, then an escaped dot loses the backslash. -/
def lineStep4 (l : Str) : Str :=
  let ws := l.takeWhile isWsC
  let r1 := l.dropWhile isWsC
  let ds := r1.takeWhile isDigitC
  let r2 := r1.dropWhile isDigitC
  match r2 with
  | '\\' :: '.' :: rest => if ds.isEmpty then l else ws ++ ds ++ '.' :: rest
  | _ => l

/-- Step 5 of `unescapeMarkdownUnderscores`, one line of the multiline
replacement `out.replace(/^(#{1,6}\s+\d+)\\\./gm, "$1.")`. -/
def lineStep5 (l : Str) : Str :=
  let hs := l.takeWhile (· == '#')
  let r1 := l.dropWhile (· == '#')
  if hs.length = 0 ∨ 6 < hs.length then l
  else
    let ws := r1.takeWhile isWsC
    let r2 := r1.dropWhile isWsC
    if ws.isEmpty then l
    else
      let ds := r2.takeWhile isDigitC
      let r3 := r2.dropWhile isDigitC
      if ds.isEmpty then l
      else
        match r3 with
        | '\\' :: '.' :: rest => hs ++ ws ++ ds ++ '.' :: rest
        | _ => l

/-- Split into lines at newline characters (the line decomposition used by
the `m` flag of steps 4-5; the result always has one more entry than the
number of newlines). -/
def splitNl : Str → List Str
  | [] => [[]]
  | '\n' :: r => [] :: splitNl r
  | c :: r =>
    match splitNl r with
    | [] => [[c]]
    | l :: ls => (c :: l) :: ls

/-- Rejoin lines with newline characters; inverse of `splitNl`. -/
def joinNl : List Str → Str
  | [] => []
  | [l] => l
  | l :: l2 :: ls => l ++ '\n' :: joinNl (l2 :: ls)

/-- Fuelled worker for the fenced code block scanner of
`unescapeAsterisksInsideCode`
(`processed.replace(/```[^\n]*\n[\s\S]*?```/g, ...)`): find the next triple
backtick, the rest of its line, and the nearest closing triple backtick, and
remove backslash escapes before asterisks inside the enclosed body. -/
def fencedPassF : Nat → Str → Str
  | 0, s => s
  | fuel + 1, s =>
    match splitSub ['`', '`', '`'] s with
    | none => s
    | some (pre, rest) =>
      match splitSub ['\n'] rest with
      | none => s
      | some (lineRest, afterNl) =>
        match splitSub ['`', '`', '`'] afterNl with
        | none => s
        | some (mid, rest2) =>
          pre ++ '`' :: '`' :: '`' :: (lineRest ++ '\n' ::
            (removeEscStar mid ++ '`' :: '`' :: '`' :: fencedPassF fuel rest2))

/-- Step 6, first pass, of the normalizer. -/
def fencedPass (s : Str) : Str := fencedPassF s.length s

/-- Fuelled worker for the inline code span scanner
(`processed.replace(/`[^`]*`/g, ...)`). -/
def inlinePassF : Nat → Str → Str
  | 0, s => s
  | fuel + 1, s =>
    match splitSub ['`'] s with
    | none => s
    | some (pre, rest) =>
      match splitSub ['`'] rest with
      | none => s
      | some (sp, rest2) => pre ++ '`' :: (removeEscStar sp ++ '`' :: inlinePassF fuel rest2)

/-- Step 6, second pass, of the normalizer. -/
def inlinePass (s : Str) : Str := inlinePassF s.length s

/-- Remove escapes for asterisks inside markdown code regions (fenced blocks
first, then inline code spans), as `unescapeAsterisksInsideCode` does. -/
def unescapeAsterisksInsideCode (s : Str) : Str := inlinePass (fencedPass s)

/-- The escaping normalizer `unescapeMarkdownUnderscores`: the ordered
composition of its six replacement steps. -/
def unescapeMarkdownUnderscores (md : Str) : Str :=
  let s1 := unescUnd md
  let s2 := collapseBefore '_' s1
  let s3 := collapseBefore '*' s2
  let s4 := joinNl ((splitNl s3).map lineStep4)
  let s5 := joinNl ((splitNl s4).map lineStep5)
  unescapeAsterisksInsideCode s5

/-- Fuelled worker listing the contents of the inline code spans of a
markdown string, in the order and with the pairing used by the
`/`[^`]*`/g` scanner of the module. -/
def inlineCodeSpansF : Nat → Str → List Str
  | 0, _ => []
  | fuel + 1, s =>
    match splitSub ['`'] s with
    | none => []
    | some (_, rest) =>
      match splitSub ['`'] rest with
      | none => []
      | some (sp, rest2) => sp :: inlineCodeSpansF fuel rest2

/-- Contents of the inline code spans of a markdown string. -/
def inlineCodeSpans (s : Str) : List Str := inlineCodeSpansF s.length s

/-! ## Identity of the normalizer steps on escape-free input -/

/-- Escape-free strings: no backslash at all. -/
abbrev noBS (s : Str) : Prop := ∀ c ∈ s, c ≠ '\\'

/-! ## Claim C3: what the normalizer does to code regions -/

/-! ## Claim C2: idempotence of the normalizer -/

/-! ## The node-identity tracker (`replaceNodesById`) -/

/-- Model of a top-level storage node for the node-identity tracker: the
optional `data-node-id` attribute and the node's serialized markup. The
external DOM facility (linkedom) is modelled at the level of the spec's
data model — a StorageDocument is the ordered sequence of its top-level
nodes, and parsing/serialization is the identity on nodes that are not
replaced. -/
structure DomNode where
  nodeId : Option Str
  html : Str
deriving DecidableEq

/-- Replace the first node bearing `data-node-id = nid` — the behaviour of
`document.querySelector('[data-node-id="…"]')` followed by
`parent.replaceChild` — or `none` when no node bears it. -/
def replaceFirstById (nid : Str) (newNode : DomNode) : List DomNode → Option (List DomNode)
  | [] => none
  | n :: rest =>
    if n.nodeId = some nid then some (newNode :: rest)
    else (replaceFirstById nid newNode rest).map (n :: ·)

/-- The partial-update routine `replaceNodesById` (source lines 260-275):
for each requested identifier in order, replace the node bearing it by the
parsed first child of the replacement markup (`parseFirst` models
`placeholder.innerHTML = html; placeholder.firstChild`), collecting the
identifiers for which no node is found into `missing`. Top-level nodes of
the body always have a parent, so the source's `parent == null` branch
cannot fire in this model. -/
def replaceNodesById (parseFirst : Str → DomNode) :
    List (Str × Str) → List DomNode → List DomNode × List Str
  | [], doc => (doc, [])
  | (nid, html) :: rest, doc =>
    match replaceFirstById nid (parseFirst html) doc with
    | some doc2 =>
      let out := replaceNodesById parseFirst rest doc2
      (out.1, out.2)
    | none =>
      let out := replaceNodesById parseFirst rest doc
      (out.1, nid :: out.2)

/-! ## Tables: GFM rendering and the reverse parser's cell handling -/

/-- JavaScript whitespace for `String.prototype.trim` (the inputs use only
blanks, tabs and line terminators). -/
def isJsWs (c : Char) : Bool := c == ' ' || c == '\t' || c == '\n' || c == '\r'

/-- JavaScript `s.trim()`. -/
def trimL (s : Str) : Str := ((s.dropWhile isJsWs).reverse.dropWhile isJsWs).reverse

/-- JavaScript `s.split(sep)` for a single-character separator: the list of
separated segments; an empty string gives one empty segment. -/
def splitOnChar (t : Char) : Str → List Str
  | [] => [[]]
  | c :: r =>
    if c = t then [] :: splitOnChar t r
    else
      match splitOnChar t r with
      | [] => [[c]]
      | l :: ls => (c :: l) :: ls

/-- `splitRow` (source lines 562-566): trim the row, strip one leading and
one trailing pipe, split at pipes and trim each cell. -/
def splitRow (row : Str) : List Str :=
  let t := trimL row
  let t1 := if t.head? = some '|' then t.tail else t
  let t2 := if t1.getLast? = some '|' then t1.dropLast else t1
  (splitOnChar '|' t2).map trimL

/-- Maximum of a starting value and a list — `Math.max(n, ...xs)`. -/
def listMax (n : Nat) (xs : List Nat) : Nat := xs.foldl max n

/-- Row padding and line assembly of `renderTableMarkdown` (source lines
949-968), at the level of the cell matrix extracted from the table element:
the header row, the `---` separator row, and each body row are padded on
the right with empty cells to the maximal row length
(`Math.max(0, ...matrix.map(r => r.length))`); an empty table renders
nothing. -/
def renderTableRows (matrix : List (List Str)) : List (List Str) :=
  match matrix with
  | [] => []
  | first :: rest =>
    let colCount := listMax 0 (matrix.map List.length)
    let header := first ++ List.replicate (colCount - first.length) []
    let sep := List.replicate colCount ['-', '-', '-']
    let body := rest.map (fun r => r ++ List.replicate (colCount - r.length) [])
    header :: sep :: body

/-- The reverse parser's column count for a GFM table (source line 542):
`Math.max(headerCells.length, ...rows.map(r => r.length))`; `header` is the
header line, `rest` the lines following the separator line. -/
def tableColCount (header : Str) (rest : List Str) : Nat :=
  listMax (splitRow header).length
    ((rest.takeWhile (fun l => l.contains '|' && !l.all isJsWs)).map
      (fun l => (splitRow l).length))

/-- The normalized header and body cell rows built by `consumeTable`
(source lines 531-545): body rows are the following lines while they
contain a pipe and are not blank; each row is right-padded with empty cells
to the column count. -/
def consumeTableCells (header : Str) (rest : List Str) : List Str × List (List Str) :=
  let headerCells := splitRow header
  let rows := (rest.takeWhile (fun l => l.contains '|' && !l.all isJsWs)).map splitRow
  let colCount := tableColCount header rest
  (headerCells ++ List.replicate (colCount - headerCells.length) [],
   rows.map (fun r => r ++ List.replicate (colCount - r.length) []))

/-! ## A generic rewriting scanner for the token-replacement passes -/

/-- Fuelled generic rewriting scanner: at each position `step` either
matches a prefix, giving the replacement text and the input after the
match, or fails, and one character is emitted — the semantics of a
JavaScript global replace whose pattern cannot match the empty string.
Every concrete `step` consumes at least one character, so `fuel = s.length`
always suffices. -/
def scanRewriteF (step : Str → Option (Str × Str)) : Nat → Str → Str
  | 0, s => s
  | _ + 1, [] => []
  | fuel + 1, c :: r =>
    match step (c :: r) with
    | some (out, rest) => out ++ scanRewriteF step fuel rest
    | none => c :: scanRewriteF step fuel r

/-- The wrapper used by all token-replacement passes. -/
def scanRewrite (step : Str → Option (Str × Str)) (s : Str) : Str :=
  scanRewriteF step s.length s

/-- Matchers that consume at least one character of the input. -/
def Consuming (step : Str → Option (Str × Str)) : Prop :=
  ∀ t out rest, step t = some (out, rest) → rest.length < t.length

/-! ## HTML escaping and URI encoding -/

/-- `escapeHtml` (source lines 758-760): the ordered replacement of `&`,
`<` and `>` by their entities. -/
def escapeHtml (s : Str) : Str :=
  replaceSub ['>'] "&gt;".toList
    (replaceSub ['<'] "&lt;".toList
      (replaceSub ['&'] "&amp;".toList s))

/-- Characters `encodeURIComponent` leaves unescaped. -/
def isUriUnreserved (c : Char) : Bool :=
  ('A' ≤ c && c ≤ 'Z') || ('a' ≤ c && c ≤ 'z') || ('0' ≤ c && c ≤ '9') ||
  c == '-' || c == '_' || c == '.' || c == '!' || c == '~' || c == '*' ||
  c == '\'' || c == '(' || c == ')'

/-- Upper-case hexadecimal digit of a value below 16. -/
def hexDigitU (n : Nat) : Char :=
  if n < 10 then Char.ofNat ('0'.toNat + n) else Char.ofNat ('A'.toNat + n - 10)

/-- `encodeURIComponent` over the code points the converter meets (the
inputs are ASCII; multi-byte UTF-8 percent-encoding is out of scope of the
claims). -/
def encodeURIComponentL (s : Str) : Str :=
  s.foldr
    (fun c acc =>
      if isUriUnreserved c then c :: acc
      else '%' :: hexDigitU (c.toNat / 16) :: hexDigitU (c.toNat % 16) :: acc)
    []

/-- Value of one hexadecimal digit. -/
def hexVal (c : Char) : Option Nat :=
  let n := c.toNat
  if 48 ≤ n ∧ n ≤ 57 then some (n - 48)
  else if 97 ≤ n ∧ n ≤ 102 then some (n - 87)
  else if 65 ≤ n ∧ n ≤ 70 then some (n - 55)
  else none

/-- `decodeURIComponent` over ASCII percent-escapes. The library function
raises `URIError` on a malformed escape; the theorems only meet well-formed
input, where this model leaves a stray `%` in place instead. -/
def decodeURIComponentL : Str → Str
  | '%' :: c1 :: c2 :: r =>
    match hexVal c1, hexVal c2 with
    | some hi, some lo => Char.ofNat (16 * hi + lo) :: decodeURIComponentL r
    | _, _ => '%' :: decodeURIComponentL (c1 :: c2 :: r)
  | c :: r => c :: decodeURIComponentL r
  | [] => []

/-! ## Mention and comment-range token machinery (source lines 663-756) -/

/-- Strip a literal text from the head of the input. -/
def stripHead (p : Str) (s : Str) : Option Str :=
  if beginsWith p s then some (s.drop p.length) else none

/-- Hexadecimal character (`[0-9a-f]` with the `i` flag). -/
def isHexC (c : Char) : Bool :=
  isDigitC c || ('a' ≤ c && c ≤ 'f') || ('A' ≤ c && c ≤ 'F')

/-- Consume exactly `n` hexadecimal characters. -/
def hexRun : Nat → Str → Option Str
  | 0, s => some s
  | _ + 1, [] => none
  | n + 1, c :: r => if isHexC c then hexRun n r else none

/-- UUID shape at the head of the input
(`[0-9a-f]{8}-[0-9a-f]{4}-[0-9a-f]{4}-[0-9a-f]{4}-[0-9a-f]{12}` with `i`). -/
def uuidAtHead (s : Str) : Bool :=
  (do
    let s1 ← hexRun 8 s
    let s2 ← stripHead ['-'] s1
    let s3 ← hexRun 4 s2
    let s4 ← stripHead ['-'] s3
    let s5 ← hexRun 4 s4
    let s6 ← stripHead ['-'] s5
    let s7 ← hexRun 4 s6
    let s8 ← stripHead ['-'] s7
    hexRun 12 s8).isSome

/-- Substring test for the UUID shape (`regex.test`). -/
def hasUuid : Str → Bool
  | [] => uuidAtHead []
  | c :: r => uuidAtHead (c :: r) || hasUuid r

/-- `id.split(':').pop() || id` — the last `:`-separated segment, or the
whole string when that segment is empty. -/
def lastSeg (s : Str) : Str :=
  let p := ((splitOnChar ':' s).getLast?).getD s
  if p = [] then s else p

/-- `selectAccountId` (source lines 744-756): collect the non-empty,
deduplicated candidates, prefer the first that contains a UUID, else the
last segment of the identifier. -/
def selectAccountId (id label : Str) : Str :=
  let add := fun (v : Str) (cs : List Str) => if v = [] ∨ v ∈ cs then cs else cs ++ [v]
  let cs := add (lastSeg label) (add (lastSeg id) (add label (add id [])))
  match cs.find? hasUuid with
  | some u => u
  | none => lastSeg id

/-- Matcher for `/<!--\s*mention:([^\s>]+)\s+([\s\S]*?)\s*-->/g` (source
lines 664-673): the whole comment is replaced by a durable
`MD_MENTION(encodedAccountId)` token. -/
def mentionCommentStep (s : Str) : Option (Str × Str) := do
  let s1 ← stripHead "<!--".toList s
  let s2 := s1.dropWhile isWsC
  let s3 ← stripHead "mention:".toList s2
  let idStr := s3.takeWhile (fun c => !isJsWs c && c != '>')
  if idStr = [] then none
  else
    let s4 := s3.drop idStr.length
    match s4.head? with
    | some w =>
      if isJsWs w then
        match splitSub "-->".toList (s4.dropWhile isJsWs) with
        | some (labelRaw, rest) =>
          let label := (labelRaw.reverse.dropWhile isJsWs).reverse
          some (("MD_MENTION(".toList ++ encodeURIComponentL (selectAccountId idStr label)
            ++ [')']), rest)
        | none => none
      else none
    | none => none

/-- `replaceMentionCommentsWithTokens` (source lines 664-673). -/
def replaceMentionCommentsWithTokens (s : Str) : Str := scanRewrite mentionCommentStep s

/-- Matcher for `/<!--\s*comment:([^\s>]+)\s*-->/g`. -/
def commentWrapStartStep (s : Str) : Option (Str × Str) := do
  let s1 ← stripHead "<!--".toList s
  let s2 := s1.dropWhile isWsC
  let s3 ← stripHead "comment:".toList s2
  let idStr := s3.takeWhile (fun c => !isJsWs c && c != '>')
  if idStr = [] then none
  else
    let s4 := (s3.drop idStr.length).dropWhile isWsC
    let s5 ← stripHead "-->".toList s4
    some ("MD_CMT_START(".toList ++ encodeURIComponentL idStr ++ [')'], s5)

/-- Matcher for `/<!--\s*commend-end:([^\s>]+)\s*-->/g`. -/
def commentWrapEndStep (s : Str) : Option (Str × Str) := do
  let s1 ← stripHead "<!--".toList s
  let s2 := s1.dropWhile isWsC
  let s3 ← stripHead "commend-end:".toList s2
  let idStr := s3.takeWhile (fun c => !isJsWs c && c != '>')
  if idStr = [] then none
  else
    let s4 := (s3.drop idStr.length).dropWhile isWsC
    let s5 ← stripHead "-->".toList s4
    some ("MD_CMT_END(".toList ++ encodeURIComponentL idStr ++ [')'], s5)

/-- `replaceCommentWrapperCommentsWithTokens` (source lines 684-688): the
two sequential global replacements. -/
def replaceCommentWrapperCommentsWithTokens (s : Str) : Str :=
  scanRewrite commentWrapEndStep (scanRewrite commentWrapStartStep s)

/-- The mention macro emitted for an account id (source lines 694-702). -/
def mentionMacro (encId : Str) : Str :=
  "<ac:link><ri:user ri:account-id=\"".toList ++
    escapeHtml (decodeURIComponentL encId) ++ "\"/></ac:link>".toList

/-- Matcher for `/MD(?:\\)?_MENTION\(([^)]+)\)(?:\\)?\[[^\]]*\]/g`. -/
def mentionTokenLabeledStep (s : Str) : Option (Str × Str) := do
  let s1 ←
    match stripHead "MD_MENTION(".toList s with
    | some r => some r
    | none => stripHead "MD\\_MENTION(".toList s
  let encId := s1.takeWhile (fun c => c != ')')
  if encId = [] then none
  else
    let s2 ← stripHead [')'] (s1.drop encId.length)
    let s3 ←
      match stripHead ['['] s2 with
      | some r => some r
      | none => stripHead ['\\', '['] s2
    let label := s3.takeWhile (fun c => c != ']')
    let s4 ← stripHead [']'] (s3.drop label.length)
    some (mentionMacro encId, s4)

/-- Matcher for `/MD(?:\\)?_MENTION\(([^)]+)\)/g`. -/
def mentionTokenBareStep (s : Str) : Option (Str × Str) := do
  let s1 ←
    match stripHead "MD_MENTION(".toList s with
    | some r => some r
    | none => stripHead "MD\\_MENTION(".toList s
  let encId := s1.takeWhile (fun c => c != ')')
  if encId = [] then none
  else
    let s2 ← stripHead [')'] (s1.drop encId.length)
    some (mentionMacro encId, s2)

/-- `replaceMentionTokensWithMacros` (source lines 691-703): labeled tokens
first, then bare ones. -/
def replaceMentionTokensWithMacros (s : Str) : Str :=
  scanRewrite mentionTokenBareStep (scanRewrite mentionTokenLabeledStep s)

/-- Head match of `MD(?:\\)?_CMT_START(` — the comment-range start token
with its optional turndown-escaped underscore. -/
def cmtStartHead (s : Str) : Option Str :=
  match stripHead "MD_CMT_START(".toList s with
  | some r => some r
  | none => stripHead "MD\\_CMT_START(".toList s

/-- Head match of `MD(?:\\)?_CMT_END(`. -/
def cmtEndHead (s : Str) : Option Str :=
  match stripHead "MD_CMT_END(".toList s with
  | some r => some r
  | none => stripHead "MD\\_CMT_END(".toList s

/-- Search for the first end token bearing exactly the identifier `id`
(the back-reference `\1` of the pair pattern): returns the text before it
and the input after it. -/
def findEndTok (id : Str) : Str → Option (Str × Str)
  | [] => none
  | c :: r =>
    match cmtEndHead (c :: r) with
    | some s1 =>
      match stripHead (id ++ [')']) s1 with
      | some s2 => some ([], s2)
      | none => (findEndTok id r).map (fun q => (c :: q.1, q.2))
    | none => (findEndTok id r).map (fun q => (c :: q.1, q.2))

/-- The inline comment marker element built for a balanced pair. -/
def inlineMarker (encId : Str) (inner : Str) : Str :=
  "<ac:inline-comment-marker ac:ref=\"".toList ++
    escapeHtml (decodeURIComponentL encId) ++ "\">".toList ++ inner ++
    "</ac:inline-comment-marker>".toList

/-- Matcher for one balanced pair
`/MD(?:\\)?_CMT_START\(([^)]+)\)([\s\S]*?)MD(?:\\)?_CMT_END\(\1\)/`:
the identifier is whatever stands before the first closing parenthesis, and
the inner text runs to the nearest end token with the same identifier. -/
def cmtPairStep (s : Str) : Option (Str × Str) :=
  match cmtStartHead s with
  | none => none
  | some s1 =>
    let encId := s1.takeWhile (fun c => c != ')')
    if encId = [] then none
    else
      match stripHead [')'] (s1.drop encId.length) with
      | none => none
      | some s2 =>
        match findEndTok encId s2 with
        | none => none
        | some (inner, rest) => some (inlineMarker encId inner, rest)

/-- The do-while loop of `wrapCommentTokenRangesToInlineMarkers` (source
lines 724-736): replace pairs until a pass changes nothing. The source
loop is unbounded; every productive pass consumes token text, so
`s.length + 1` passes always reach the fixed point on the inputs the
theorems meet. -/
def wrapLoopF : Nat → Str → Str
  | 0, s => s
  | fuel + 1, s =>
    let s2 := scanRewrite cmtPairStep s
    if s2 = s then s else wrapLoopF fuel s2

/-- Matcher dropping a stray `MD(?:\\)?_CMT_START\(([^)]+)\)` token. -/
def strayStartStep (s : Str) : Option (Str × Str) :=
  match cmtStartHead s with
  | none => none
  | some s1 =>
    let encId := s1.takeWhile (fun c => c != ')')
    if encId = [] then none
    else
      match stripHead [')'] (s1.drop encId.length) with
      | none => none
      | some s2 => some ([], s2)

/-- Matcher dropping a stray `MD(?:\\)?_CMT_END\(([^)]+)\)` token. -/
def strayEndStep (s : Str) : Option (Str × Str) :=
  match cmtEndHead s with
  | none => none
  | some s1 =>
    let encId := s1.takeWhile (fun c => c != ')')
    if encId = [] then none
    else
      match stripHead [')'] (s1.drop encId.length) with
      | none => none
      | some s2 => some ([], s2)

/-- `wrapCommentTokenRangesToInlineMarkers` (source lines 724-741): wrap
balanced pairs until the fixed point, then drop stray start and end
tokens. -/
def wrapCommentTokenRangesToInlineMarkers (s : Str) : Str :=
  scanRewrite strayEndStep
    (scanRewrite strayStartStep (wrapLoopF (s.length + 1) s))

/-! ## The inline formatting sub-parser (`inlineHtml`, source lines 597-661) -/

/-- Matcher for inline images `/!\[([^\]]*)\]\(([^)\s]+)\)/g`; `recurse`
is `inlineHtml` applied to the alt text used as caption (source line 612). -/
def imgStep (recurse : Str → Str) (s : Str) : Option (Str × Str) := do
  let s1 ← stripHead "![".toList s
  let alt := s1.takeWhile (fun c => c != ']')
  let s2 ← stripHead "](".toList (s1.drop alt.length)
  let srcT := s2.takeWhile (fun c => c != ')' && !isJsWs c)
  if srcT = [] then none
  else
    let s3 ← stripHead [')'] (s2.drop srcT.length)
    let body :=
      if srcT.head? = some '#' then
        "<ri:attachment ri:filename=\"".toList ++ escapeHtml (srcT.drop 1) ++ "\"/>".toList
      else
        "<ri:url ri:value=\"".toList ++ escapeHtml srcT ++ "\"/>".toList
    let widthParam := "<ac:parameter ac:name=\"width\">500</ac:parameter>".toList
    let alignParam := "<ac:parameter ac:name=\"align\">center</ac:parameter>".toList
    let capHtml :=
      if alt = [] then [] else
        "<ac:caption>".toList ++ recurse alt ++ "</ac:caption>".toList
    some ("<ac:image ac:width=\"500\" ac:align=\"center\">".toList ++
      widthParam ++ alignParam ++ body ++ capHtml ++ "</ac:image>".toList, s3)

/-- Matcher for code spans `/`([^`]+)`/g`. -/
def codeSpanStep (s : Str) : Option (Str × Str) := do
  let s1 ← stripHead ['`'] s
  let inner := s1.takeWhile (fun c => c != '`')
  if inner = [] then none
  else
    let s2 ← stripHead ['`'] (s1.drop inner.length)
    some ("<code>".toList ++ inner ++ "</code>".toList, s2)

/-- Matcher for bold `/\*\*([^*]+)\*\*/g`. -/
def boldStep (s : Str) : Option (Str × Str) := do
  let s1 ← stripHead "**".toList s
  let inner := s1.takeWhile (fun c => c != '*')
  if inner = [] then none
  else
    let s2 ← stripHead "**".toList (s1.drop inner.length)
    some ("<strong>".toList ++ inner ++ "</strong>".toList, s2)

/-- The CDATA-bodied link element of the page and attachment branches. -/
def plainTextLinkBody (text : Str) : Str :=
  "<ac:plain-text-link-body><![CDATA[".toList ++ text ++
    "]]></ac:plain-text-link-body>".toList

/-- Matcher for links `/\[([^\]]+)\]\(([^)]+)\)/g` with the `page:`,
`#attachment:` and plain URL branches (source lines 631-657). -/
def linkStep (s : Str) : Option (Str × Str) := do
  let s1 ← stripHead ['['] s
  let text := s1.takeWhile (fun c => c != ']')
  if text = [] then none
  else
    let s2 ← stripHead "](".toList (s1.drop text.length)
    let href := s2.takeWhile (fun c => c != ')')
    if href = [] then none
    else
      let s3 ← stripHead [')'] (s2.drop href.length)
      let out :=
        if beginsWith "page:".toList href then
          let pageRef := href.drop 5
          let parts := splitOnChar ':' pageRef
          if 2 ≤ parts.length ∧ parts.headI ≠ [] then
            "<ac:link><ri:page ri:space-key=\"".toList ++ escapeHtml parts.headI ++
              "\" ri:content-title=\"".toList ++
              escapeHtml (List.intercalate [':'] parts.tail) ++ "\"/>".toList ++
              plainTextLinkBody text ++ "</ac:link>".toList
          else
            "<ac:link><ri:page ri:content-title=\"".toList ++ escapeHtml pageRef ++
              "\"/>".toList ++ plainTextLinkBody text ++ "</ac:link>".toList
        else if beginsWith "#attachment:".toList href then
          "<ac:link><ri:attachment ri:filename=\"".toList ++
            escapeHtml (href.drop 12) ++ "\"/>".toList ++
            plainTextLinkBody text ++ "</ac:link>".toList
        else
          "<a href=\"".toList ++ escapeHtml href ++ "\">".toList ++ text ++ "</a>".toList
      some (out, s3)

/-- Fuelled `inlineHtml` (source lines 597-661): protect escaped asterisks
behind the `MD_ESC_STAR` token, escape raw markup, then rewrite inline
images, code spans, bold and links in that order, and restore the literal
asterisks. The fuel only bounds the recursion through image captions. -/
def inlineHtmlF : Nat → Str → Str
  | 0, s => s
  | fuel + 1, s =>
    let s1 := replaceSub "\\*".toList "MD_ESC_STAR".toList s
    let s2 := escapeHtml s1
    let s3 := scanRewrite (imgStep (inlineHtmlF fuel)) s2
    let s4 := scanRewrite codeSpanStep s3
    let s5 := scanRewrite boldStep s4
    let s6 := scanRewrite linkStep s5
    replaceSub "MD_ESC_STAR".toList ['*'] s6

/-- The inline formatting sub-parser. -/
def inlineHtml (s : Str) : Str := inlineHtmlF (s.length + 1) s

/-! ## The reverse parser (`markdownToStorageHtml`, source lines 318-560) -/

/-- Boolean suffix test. -/
def endsWith (p s : Str) : Bool := beginsWith p.reverse s.reverse

/-- Blank line (`/^\s*$/`). -/
def isBlankL (l : Str) : Bool := l.all isJsWs

/-- Matcher for the status line
`/^\s*<!--\s*status:([^:>]+):\s*([^>]+)\s*-->\s*$/i` (source line 327),
returning the trimmed colour and title. -/
def statusMatchL (line : Str) : Option (Str × Str) := do
  let t := trimL line
  let s1 ← stripHead "<!--".toList t
  let s2 := s1.dropWhile isWsC
  let s3 ← stripHead "status:".toList s2
  let color := s3.takeWhile (fun c => c != ':' && c != '>')
  if color = [] then none
  else
    let s4 ← stripHead [':'] (s3.drop color.length)
    let s5 := s4.dropWhile isWsC
    if endsWith "-->".toList s5 ∧ 4 ≤ s5.length ∧
        (s5.take (s5.length - 3)).all (fun c => c != '>') then
      some (trimL color, trimL (s5.take (s5.length - 3)))
    else none

/-- The status macro emitted for a status line (source line 331). -/
def statusMacro (color title : Str) : Str :=
  "<ac:structured-macro ac:name=\"status\"><ac:parameter ac:name=\"title\">".toList ++
    escapeHtml title ++
    "</ac:parameter><ac:parameter ac:name=\"colour\">".toList ++
    escapeHtml color ++ "</ac:parameter></ac:structured-macro>".toList

/-- Language characters of a fence (`[A-Za-z0-9_+\-]`). -/
def isLangC (c : Char) : Bool := c.isAlphanum || c == '_' || c == '+' || c == '-'

/-- Matcher for an opening fence `/^```([A-Za-z0-9_+\-]*)\s*$/`. -/
def fenceLang (line : Str) : Option Str := do
  let s1 ← stripHead "```".toList line
  let lang := s1.takeWhile isLangC
  if (s1.drop lang.length).all isWsC then some lang else none

/-- Closing fence test `/^```\s*$/`. -/
def isCloseFence (line : Str) : Bool :=
  beginsWith "```".toList line && (line.drop 3).all isWsC

/-- The code macro emitted for a code body (source lines 347-355): CDATA
embedding unless the body contains the CDATA terminator `]]>`, in which
case the body is entity-escaped instead. -/
def codeMacro (lang codeText : Str) : Str :=
  let langParam :=
    if lang = [] then [] else
      "<ac:parameter ac:name=\"language\">".toList ++ escapeHtml lang ++
        "</ac:parameter>".toList
  let codeBody :=
    if containsSub "]]>".toList codeText then
      "<ac:plain-text-body>".toList ++ escapeHtml codeText ++ "</ac:plain-text-body>".toList
    else
      "<ac:plain-text-body><![CDATA[".toList ++ codeText ++ "]]></ac:plain-text-body>".toList
  "<ac:structured-macro ac:name=\"code\">".toList ++ langParam ++ codeBody ++
    "</ac:structured-macro>".toList

/-- Start of an indented code block `/^ {4,}\S/`. -/
def isIndentStart (line : Str) : Bool :=
  4 ≤ (line.takeWhile (fun c => c == ' ')).length &&
    (match (line.dropWhile (fun c => c == ' ')).head? with
     | some c => !isJsWs c
     | none => false)

/-- Continuation of an indented code block (`/^ {4,}/`). -/
def isIndentCont (line : Str) : Bool := 4 ≤ (line.takeWhile (fun c => c == ' ')).length

/-- One body line of an indented code block: blank lines become empty, the
others lose exactly four leading spaces (`raw.replace(/^ {4}/, "")`). -/
def indentBodyLine (raw : Str) : Str :=
  if isBlankL raw then []
  else if beginsWith "    ".toList raw then raw.drop 4 else raw

/-- Matcher for the widget line `/^\s*<!--\s*widget:([A-Za-z0-9_-]+)\s*-->\s*$/i`. -/
def widgetMatchL (line : Str) : Option Str := do
  let t := trimL line
  let s1 ← stripHead "<!--".toList t
  let s2 := s1.dropWhile isWsC
  let s3 ← stripHead "widget:".toList s2
  let name := s3.takeWhile (fun c => c.isAlphanum || c == '_' || c == '-')
  if name = [] then none
  else
    let s4 := (s3.drop name.length).dropWhile isWsC
    match stripHead "-->".toList s4 with
    | some s5 => if s5.all isWsC then some (name.map Char.toLower) else none
    | none => none

/-- The empty-bodied widget macro (source line 380). -/
def widgetMacro (name : Str) : Str :=
  "<ac:structured-macro ac:name=\"".toList ++ name ++
    "\"><ac:rich-text-body/></ac:structured-macro>".toList

/-- Separator-line test of `looksLikeTableHeader`
(`/^\s*\|?\s*:?\s*-{3,}/`, source line 528). -/
def isSepLine (l : Str) : Bool :=
  let t1 := l.dropWhile isWsC
  let t2 := if t1.head? = some '|' then t1.tail else t1
  let t3 := t2.dropWhile isWsC
  let t4 := if t3.head? = some ':' then t3.tail else t3
  let t5 := t4.dropWhile isWsC
  3 ≤ (t5.takeWhile (fun c => c == '-')).length

/-- Matcher for a heading line `/^(#{1,6})\s+(.+)$/`: the level and the
trimmed text. -/
def headingMatchL (line : Str) : Option (Nat × Str) :=
  let hs := line.takeWhile (fun c => c == '#')
  let r1 := line.dropWhile (fun c => c == '#')
  if hs.length = 0 ∨ 6 < hs.length then none
  else
    match r1.head? with
    | some w =>
      if isWsC w then
        let text := r1.dropWhile isWsC
        if text = [] then none else some (hs.length, trimL text)
      else none
    | none => none

/-- Matcher for a list item line `/^\s*[-*]\s+/`, returning the item text
after the marker. -/
def listItemL (line : Str) : Option Str :=
  let s1 := line.dropWhile isWsC
  match s1 with
  | c :: r =>
    if (c = '-' ∨ c = '*') then
      match r.head? with
      | some w => if isWsC w then some (r.dropWhile isWsC) else none
      | none => none
    else none
  | [] => none

/-- Matcher for an image line `/^!\[(.*?)\]\((.*?)\)\s*$/`, returning the
alt text and the source. -/
def imgSrcScan : Str → Option Str
  | [] => none
  | c :: r =>
    if c = ')' ∧ r.all isWsC then some []
    else (imgSrcScan r).map (c :: ·)

/-- Matcher for an image line: alt up to the first `]`, source up to the
first `)` that only whitespace follows. -/
def imgLineMatchL (line : Str) : Option (Str × Str) := do
  let s1 ← stripHead "![".toList line
  let alt := s1.takeWhile (fun c => c != ']')
  let s2 ← stripHead "](".toList (s1.drop alt.length)
  let src ← imgSrcScan s2
  some (alt, src)

/-- The image element of the image-line branch (source lines 434-446);
`capHtml` is built from the caption-or-alt text already run through
`inlineHtml`. -/
def imageElement (src capInner : Str) (hasCap : Bool) : Str :=
  let body :=
    if src.head? = some '#' then
      "<ri:attachment ri:filename=\"".toList ++ escapeHtml (src.drop 1) ++ "\"/>".toList
    else
      "<ri:url ri:value=\"".toList ++ escapeHtml src ++ "\"/>".toList
  let capHtml :=
    if hasCap then "<ac:caption>".toList ++ capInner ++ "</ac:caption>".toList else []
  "<ac:image ac:width=\"500\" ac:align=\"center\">".toList ++
    "<ac:parameter ac:name=\"width\">500</ac:parameter>".toList ++
    "<ac:parameter ac:name=\"align\">center</ac:parameter>".toList ++
    body ++ capHtml ++ "</ac:image>".toList

/-- Matcher for the panel-tagged blockquote head
`/^>\s*<!--\s*panel:([^:>]+):([^>]+)\s*-->/i` (source line 452), returning
the lower-cased trimmed colour and icon. -/
def panelMatchL (line : Str) : Option (Str × Str) := do
  let s1 ← stripHead ['>'] line
  let s2 := s1.dropWhile isWsC
  let s3 ← stripHead "<!--".toList s2
  let s4 := s3.dropWhile isWsC
  let s5 ← stripHead "panel:".toList s4
  let color := s5.takeWhile (fun c => c != ':' && c != '>')
  if color = [] then none
  else
    let s6 ← stripHead [':'] (s5.drop color.length)
    let t := s6.takeWhile (fun c => c != '>')
    if endsWith "--".toList t ∧ 3 ≤ t.length ∧ (s6.drop t.length).head? = some '>' then
      some ((trimL color).map Char.toLower, (trimL (t.take (t.length - 2))).map Char.toLower)
    else none

/-- `line.replace(/^>\s*<!--[^>]+-->\s*/, "")` of the panel branch (source
line 458): strip the quote marker and the panel comment; the line is
returned unchanged when the pattern does not match. -/
def panelTailStrip (line : Str) : Str :=
  match
    (do
      let s1 ← stripHead ['>'] line
      let s2 := s1.dropWhile isWsC
      let s3 ← stripHead "<!--".toList s2
      let t := s3.takeWhile (fun c => c != '>')
      if endsWith "--".toList t ∧ 1 ≤ t.length ∧ (s3.drop t.length).head? = some '>' then
        some ((s3.drop (t.length + 1)).dropWhile isWsC)
      else none : Option Str)
  with
  | some r => r
  | none => line

/-- Quote-line test (`/^>\s*/.test`). -/
def isQuoteLine (l : Str) : Bool := l.head? = some '>'

/-- `l.replace(/^>\s*/, "")`. -/
def stripQuote (l : Str) : Str :=
  match l with
  | '>' :: r => r.dropWhile isWsC
  | _ => l

/-- Inline processing of one panel or blockquote body line (source lines
466-471): mention and comment-wrapper comments become durable tokens, the
line is run through `inlineHtml`, and mention tokens become macros. -/
def panelBodyLine (l : Str) : Str :=
  replaceMentionTokensWithMacros
    (inlineHtml (replaceCommentWrapperCommentsWithTokens (replaceMentionCommentsWithTokens l)))

/-- The known semantic panel macro names (source line 478). -/
def knownPanels : List Str :=
  ["info".toList, "note".toList, "warning".toList, "tip".toList,
   "success".toList, "error".toList]

/-- The panel macro emitted for a colour and processed body (source lines
474-484). -/
def panelMacro (color inner : Str) : Str :=
  if color = "panel".toList then
    "<ac:structured-macro ac:name=\"panel\"><ac:rich-text-body>".toList ++ inner ++
      "</ac:rich-text-body></ac:structured-macro>".toList
  else if color ∈ knownPanels then
    "<ac:structured-macro ac:name=\"".toList ++ color ++
      "\"><ac:rich-text-body>".toList ++ inner ++
      "</ac:rich-text-body></ac:structured-macro>".toList
  else
    "<ac:structured-macro ac:name=\"panel\"><ac:parameter ac:name=\"bgColor\">".toList ++
      escapeHtml color ++ "</ac:parameter><ac:rich-text-body>".toList ++ inner ++
      "</ac:rich-text-body></ac:structured-macro>".toList

/-- Paragraph-style token and inline processing (source lines 512-518),
shared by the heading and paragraph branches. -/
def paraProcess (text : Str) : Str :=
  wrapCommentTokenRangesToInlineMarkers
    (replaceMentionTokensWithMacros
      (inlineHtml (replaceCommentWrapperCommentsWithTokens (replaceMentionCommentsWithTokens text))))

/-- One non-comment segment of a table cell (source lines 576 and 583):
inline formatting, mention macros, and literal `\n` sequences become line
breaks. -/
def procCellSeg (x : Str) : Str :=
  replaceSub "\\n".toList "<br/>".toList (replaceMentionTokensWithMacros (inlineHtml x))

/-- The comment-preserving segment walk of `cellHtml` (source lines
570-584): non-comment segments are processed, HTML comments are kept,
with mention and comment-wrapper comments turned into durable tokens. -/
def cellSegsF : Nat → Str → Str
  | 0, s => if s = [] then [] else procCellSeg s
  | fuel + 1, s =>
    match splitSub "<!--".toList s with
    | none => if s = [] then [] else procCellSeg s
    | some (pre, afterOpen) =>
      match splitSub "-->".toList afterOpen with
      | none => if s = [] then [] else procCellSeg s
      | some (inner, rest) =>
        (if pre = [] then [] else procCellSeg pre) ++
          replaceCommentWrapperCommentsWithTokens
            (replaceMentionCommentsWithTokens
              ("<!--".toList ++ inner ++ "-->".toList)) ++
          cellSegsF fuel rest

/-- `out.replace(/(?:<br\/>\s*)+$/i, "")` (source line 589): peel trailing
groups of a line break followed by whitespace. -/
def trimTrailBrF : Nat → Str → Str
  | 0, s => s
  | fuel + 1, s =>
    let t := (s.reverse.dropWhile isJsWs).reverse
    if endsWith "<br/>".toList t then trimTrailBrF fuel (t.take (t.length - 5))
    else s

/-- `cellHtml` (source lines 568-595). -/
def cellHtml (cell : Str) : Str :=
  let out0 := cellSegsF cell.length cell
  let out1 := wrapCommentTokenRangesToInlineMarkers (replaceMentionTokensWithMacros out0)
  let out2 := trimTrailBrF out1.length out1
  let t := trimL out2
  if t = [] then []
  else if beginsWith "<p".toList t &&
      (match t.drop 2 |>.head? with
       | some c => c = '>' || isJsWs c
       | none => false) then t
  else "<p>".toList ++ out2 ++ "</p>".toList

/-- The table element assembled by `consumeTable` (source lines 546-559)
from the normalized header and body cell rows. -/
def buildTableHtml (header : List Str) (rows : List (List Str)) : Str :=
  "<table><thead><tr>".toList ++
    (header.map (fun c => "<th>".toList ++ cellHtml c ++ "</th>".toList)).join ++
    "</tr></thead><tbody>".toList ++
    (rows.map (fun r =>
      "<tr>".toList ++
        (r.map (fun c => "<td>".toList ++ cellHtml c ++ "</td>".toList)).join ++
        "</tr>".toList)).join ++
    "</tbody></table>".toList

/-- One iteration of the line loop of `markdownToStorageHtml` (source
lines 322-521): given the current line and the remaining lines, the chunks
pushed to `out` for this iteration (none for a blank line, one otherwise)
and the lines left for the next iteration. The thirteen branches appear in
the source's order: blank, status, fenced code, indented code, widget,
horizontal rule, table, heading, unordered list, image, panel blockquote,
plain blockquote, paragraph. -/
def mdStep (line : Str) (rest : List Str) : List Str × List Str :=
  if isBlankL line then ([], rest)
  else
    match statusMatchL line with
    | some (color, title) => ([statusMacro color title], rest)
    | none =>
    match fenceLang line with
    | some lang =>
      let body := rest.takeWhile (fun l => !isCloseFence l)
      let after := rest.dropWhile (fun l => !isCloseFence l)
      let after2 := if after = [] then [] else after.tail
      ([codeMacro lang (List.intercalate ['\n'] body)], after2)
    | none =>
    if isIndentStart line then
      let seg := (line :: rest).takeWhile (fun l => isIndentCont l || isBlankL l)
      let after := (line :: rest).dropWhile (fun l => isIndentCont l || isBlankL l)
      ([codeMacro [] (List.intercalate ['\n'] (seg.map indentBodyLine))], after)
    else
    match widgetMatchL line with
    | some name => ([widgetMacro name], rest)
    | none =>
    if trimL line = "-------".toList then (["<hr/>".toList], rest)
    else
    if line.contains '|' && (match rest.head? with
        | some sep => isSepLine sep
        | none => false) then
      let rest2 := rest.tail
      let after := rest2.dropWhile (fun l => l.contains '|' && !isBlankL l)
      ([buildTableHtml (consumeTableCells line rest2).1 (consumeTableCells line rest2).2],
        after)
    else
    match headingMatchL line with
    | some (level, text) =>
      let d := Char.ofNat ('0'.toNat + level)
      ([('<' :: 'h' :: d :: '>' :: paraProcess text ++ ('<' :: '/' :: 'h' :: d :: '>' :: []))],
        rest)
    | none =>
    if (listItemL line).isSome then
      let items := (line :: rest).takeWhile (fun l => (listItemL l).isSome)
      let after := (line :: rest).dropWhile (fun l => (listItemL l).isSome)
      (["<ul>".toList ++
        (items.map (fun l =>
          "<li>".toList ++ inlineHtml ((listItemL l).getD []) ++ "</li>".toList)).join ++
        "</ul>".toList], after)
    else
    match imgLineMatchL line with
    | some (alt, src) =>
      let next := rest.headI
      let caption := if isBlankL next then [] else trimL next
      let capOrAlt := if caption = [] then alt else caption
      let after := if caption = [] then rest else rest.tail
      ([imageElement src (inlineHtml capOrAlt) (capOrAlt ≠ [])], after)
    | none =>
    match panelMatchL line with
    | some (color, _) =>
      let firstTail := trimL (panelTailStrip line)
      let bodyLines := (if firstTail = [] then [] else [firstTail]) ++
        (rest.takeWhile isQuoteLine).map stripQuote
      let after := rest.dropWhile isQuoteLine
      let inner := List.intercalate "<br/>".toList (bodyLines.map panelBodyLine)
      ([panelMacro color (wrapCommentTokenRangesToInlineMarkers inner)], after)
    | none =>
    if isQuoteLine line then
      let bodyLines := ((line :: rest).takeWhile isQuoteLine).map stripQuote
      let after := (line :: rest).dropWhile isQuoteLine
      let inner := List.intercalate "<br/>".toList (bodyLines.map panelBodyLine)
      (["<blockquote>".toList ++ wrapCommentTokenRangesToInlineMarkers inner ++
        "</blockquote>".toList], after)
    else
      let para := (line :: rest).takeWhile (fun l => !isBlankL l)
      let after := (line :: rest).dropWhile (fun l => !isBlankL l)
      (["<p>".toList ++ paraProcess (trimL (List.intercalate [' '] para)) ++ "</p>".toList],
        after)

/-- The line loop of `markdownToStorageHtml` (source lines 318-522) as a
fuelled recursion over the list of lines, producing the emitted chunks in
order; every iteration consumes at least one line, so `fuel = lines.length`
always suffices. -/
def mdBlocksF : Nat → List Str → List Str
  | 0, _ => []
  | _ + 1, [] => []
  | fuel + 1, line :: rest =>
    (mdStep line rest).1 ++ mdBlocksF fuel (mdStep line rest).2

/-- `markdownToStorageHtml` (source lines 318-522): split into lines, run
the line loop, and concatenate the emitted chunks (`out.join("")`). The
inputs of the claims use `\n` line endings, matching `/\r?\n/`. -/
def markdownToStorageHtml (md : Str) : Str :=
  (mdBlocksF (splitNl md).length (splitNl md)).join

/-! ## Download direction: HTML scanning helpers (source lines 762-1010) -/

/-- `[^>]*>` after a matched tag head: the attribute text and the input
after the closing `>`. -/
def attrsThen (s : Str) : Option (Str × Str) :=
  let a := s.takeWhile (fun c => c != '>')
  match s.drop a.length with
  | '>' :: r => some (a, r)
  | _ => none

/-- `[^>]*\/>` after a matched tag head (a self-closing tag): the attribute
text and the input after `/>`. -/
def attrsSelfClose (s : Str) : Option (Str × Str) :=
  match attrsThen s with
  | some (a, r) => if a.getLast? = some '/' then some (a.dropLast, r) else none
  | none => none

/-- `name=["']([^"']+)["']` in an attribute or fragment text; the
converter's documents use double quotes, which is what the model reads. -/
def attrValue (name : Str) (s : Str) : Option Str :=
  match splitSub (name ++ "=\"".toList) s with
  | none => none
  | some (_, r) =>
    let v := r.takeWhile (fun c => c != '"')
    if v = [] then none
    else match r.drop v.length with
      | '"' :: _ => some v
      | _ => none

/-- One `<ac:parameter ...>...</ac:parameter>` whose attributes carry
`ac:name="pname"`, scanning left to right
(`/<ac:parameter[^>]*\bac:name=["']NAME["'][^>]*>([\s\S]*?)<\/ac:parameter>/i`). -/
def paramValueF (pname : Str) : Nat → Str → Option Str
  | 0, _ => none
  | fuel + 1, s =>
    match splitSub "<ac:parameter".toList s with
    | none => none
    | some (_, r1) =>
      match attrsThen r1 with
      | none => none
      | some (attrs, r2) =>
        if containsSub ("ac:name=\"".toList ++ pname ++ ['"']) attrs then
          (splitSub "</ac:parameter>".toList r2).map (·.1)
        else paramValueF pname fuel r2

def paramValue (pname : Str) (s : Str) : Option Str := paramValueF pname s.length s

/-- Matcher for one HTML tag `/<[^>]+>/`. -/
def tagStep (s : Str) : Option (Str × Str) :=
  match s with
  | '<' :: r =>
    let body := r.takeWhile (fun c => c != '>')
    if body = [] then none
    else match r.drop body.length with
      | '>' :: rest => some ([], rest)
      | _ => none
  | _ => none

/-- `replace(/<[^>]+>/g, "")`: strip all tags. -/
def stripTags (s : Str) : Str := scanRewrite tagStep s

/-- `decodeBasicEntities` (source lines 1012-1018): the ordered entity
decodes for `&lt;`, `&gt;`, `&amp;` and `&nbsp;`. -/
def decodeBasicEntities (s : Str) : Str :=
  replaceSub "&nbsp;".toList [' ']
    (replaceSub "&amp;".toList ['&']
      (replaceSub "&gt;".toList ['>']
        (replaceSub "&lt;".toList ['<'] s)))

/-- Matcher collapsing one whitespace run to a single space (`/\s+/g`). -/
def wsRunStep (s : Str) : Option (Str × Str) :=
  match s with
  | c :: r => if isJsWs c then some ([' '], r.dropWhile isJsWs) else none
  | [] => none

/-- `replace(/\s+/g, " ")`. -/
def collapseWsRuns (s : Str) : Str := scanRewrite wsRunStep s

/-- Matcher collapsing one space-or-tab run to a single space (`/[ \t]+/g`). -/
def spaceTabRunStep (s : Str) : Option (Str × Str) :=
  match s with
  | c :: r => if isWsC c then some ([' '], r.dropWhile isWsC) else none
  | [] => none

/-- `replace(/\r?\n/g, " ")` then `replace(/[ \t]+/g, " ")` (source lines
1003-1005). -/
def newlinesToSpaces (s : Str) : Str :=
  scanRewrite spaceTabRunStep
    (replaceSub ['\n'] [' '] (replaceSub ['\r', '\n'] [' '] s))

/-- The optional turndown escape `(?:\\)?` before a required character. -/
def optBS (s : Str) : Str :=
  match s with
  | '\\' :: r => r
  | _ => s

/-- The lazy token body `([\s\S]*?)(?:\\)?\]`: the text up to the first
`]`, with a directly preceding turndown escape backslash excluded from the
body. -/
def lazyBody (s : Str) : Option (Str × Str) :=
  match splitSub [']'] s with
  | none => none
  | some (b0, rest) =>
    if b0.getLast? = some '\\' then some (b0.dropLast, rest) else some (b0, rest)

/-- Lower-case a string (the `/i`-insensitive captures are stored
lower-cased by the source). -/
def toLowerStr (s : Str) : Str := s.map Char.toLower

def toUpperStr (s : Str) : Str := s.map Char.toUpper

/-! ## `normalizeMacros` (source lines 762-947) -/

/-- Head match for
`/<ac:structured-macro\b[^>]*>([\s\S]*?)<\/ac:structured-macro>/`:
the attribute text, the lazy inner text and the input after the close. -/
def structMacroHead (s : Str) : Option (Str × Str × Str) :=
  match stripHead "<ac:structured-macro".toList s with
  | none => none
  | some r1 =>
    match attrsThen r1 with
    | none => none
    | some (attrs, r2) =>
      match splitSub "</ac:structured-macro>".toList r2 with
      | none => none
      | some (inner, rest) => some (attrs, inner, rest)

/-- `ac:name="name"` among a macro's attributes. -/
def hasMacroName (name : Str) (attrs : Str) : Bool :=
  containsSub ("ac:name=\"".toList ++ name ++ ['"']) attrs

/-- `<ac:rich-text-body[^>]*>([\s\S]*?)<\/ac:rich-text-body>`. -/
def richTextBodyOf (inner : Str) : Option Str :=
  match splitSub "<ac:rich-text-body".toList inner with
  | none => none
  | some (_, r1) =>
    match attrsThen r1 with
    | none => none
    | some (_, r2) => (splitSub "</ac:rich-text-body>".toList r2).map (·.1)

/-- `<ac:plain-text-body[^>]*>([\s\S]*?)<\/ac:plain-text-body>`. -/
def plainTextBodyOf (inner : Str) : Option Str :=
  match splitSub "<ac:plain-text-body".toList inner with
  | none => none
  | some (_, r1) =>
    match attrsThen r1 with
    | none => none
    | some (_, r2) => (splitSub "</ac:plain-text-body>".toList r2).map (·.1)

/-- `<ac:caption[^>]*>([\s\S]*?)<\/ac:caption>`. -/
def captionOf (inner : Str) : Option Str :=
  match splitSub "<ac:caption".toList inner with
  | none => none
  | some (_, r1) =>
    match attrsThen r1 with
    | none => none
    | some (_, r2) => (splitSub "</ac:caption>".toList r2).map (·.1)

/-- The link body of the `ac:link` pass (source lines 806-810): prefer the
plain-text form with its optional CDATA wrapper, falling back to
`ac:link-body`. -/
def linkBodyOf (inner : Str) : Str :=
  let alt :=
    match splitSub "<ac:link-body".toList inner with
    | none => []
    | some (_, r1) =>
      match attrsThen r1 with
      | none => []
      | some (_, r2) => ((splitSub "</ac:link-body>".toList r2).map (·.1)).getD []
  match splitSub "<ac:plain-text-link-body".toList inner with
  | none => alt
  | some (_, r1) =>
    match attrsThen r1 with
    | none => alt
    | some (_, r2) =>
      match splitSub "</ac:plain-text-link-body>".toList r2 with
      | none => alt
      | some (b, _) =>
        let b1 := match stripHead "<![CDATA[".toList b with
          | some z => z
          | none => b
        if endsWith "]]>".toList b1 then b1.take (b1.length - 3) else b1

/-- The status-macro pass (source lines 765-773). -/
def statusNormStep (s : Str) : Option (Str × Str) :=
  match structMacroHead s with
  | none => none
  | some (attrs, inner, rest) =>
    if hasMacroName "status".toList attrs then
      let title := trimL (stripTags ((paramValue "title".toList inner).getD []))
      let colourRaw :=
        match paramValue "colour".toList inner with
        | some v => v
        | none => (paramValue "color".toList inner).getD []
      let color := toLowerStr (trimL (stripTags colourRaw))
      some ("MD_STATUS(".toList ++ encodeURIComponentL color ++ ")[".toList ++
        encodeURIComponentL title ++ [']'], rest)
    else none

/-- The `ac:link` pass (source lines 785-853): mention, page, attachment
and URL resource links become durable tokens; unknown link types are kept
literally. -/
def linkNormStep (s : Str) : Option (Str × Str) :=
  match stripHead "<ac:link".toList s with
  | none => none
  | some r1 =>
    match attrsThen r1 with
    | none => none
    | some (attrsv, r2) =>
      match splitSub "</ac:link>".toList r2 with
      | none => none
      | some (inner, rest) =>
        if containsSub "<ri:user".toList inner then
          let acc :=
            match attrValue "ri:account-id".toList inner with
            | some v => v
            | none =>
              match attrValue "ri:userkey".toList inner with
              | some v => v
              | none => (attrValue "ri:username".toList inner).getD []
          let visible := trimL (stripTags inner)
          some ("MD_MENTION(".toList ++ encodeURIComponentL acc ++ ")[".toList ++
            encodeURIComponentL visible ++ [']'], rest)
        else if containsSub "<ri:page".toList inner then
          let contentTitle := (attrValue "ri:content-title".toList inner).getD []
          let spaceKey := (attrValue "ri:space-key".toList inner).getD []
          let linkText0 := trimL (stripTags (linkBodyOf inner))
          let linkText := if linkText0 = [] then contentTitle else linkText0
          let pageRef :=
            if spaceKey = [] then "page:".toList ++ contentTitle
            else "page:".toList ++ spaceKey ++ [':'] ++ contentTitle
          some ("MD_PAGE_LINK~~".toList ++ encodeURIComponentL pageRef ++ "~~".toList ++
            encodeURIComponentL linkText ++ "~~END".toList, rest)
        else if containsSub "<ri:attachment".toList inner then
          let filename := (attrValue "ri:filename".toList inner).getD []
          let linkText0 := trimL (stripTags (linkBodyOf inner))
          let linkText := if linkText0 = [] then filename else linkText0
          some ("MD_ATTACH_LINK~~".toList ++ encodeURIComponentL filename ++ "~~".toList ++
            encodeURIComponentL linkText ++ "~~END".toList, rest)
        else if containsSub "<ri:url".toList inner then
          let url := (attrValue "ri:value".toList inner).getD []
          let linkText0 := trimL (stripTags (linkBodyOf inner))
          let linkText := if linkText0 = [] then url else linkText0
          some ("MD_URL_LINK~~".toList ++ encodeURIComponentL url ++ "~~".toList ++
            encodeURIComponentL linkText ++ "~~END".toList, rest)
        else
          some ("<ac:link".toList ++ attrsv ++ ['>'] ++ inner ++ "</ac:link>".toList, rest)

/-- The panel-name alternation of the panel pass (source line 856). -/
def panelNormNames : List Str :=
  ["info".toList, "note".toList, "warning".toList, "tip".toList,
   "success".toList, "error".toList, "panel".toList]

/-- The panel-macro pass (source lines 856-874). -/
def panelNormStep (s : Str) : Option (Str × Str) :=
  match structMacroHead s with
  | none => none
  | some (attrs, inner, rest) =>
    match panelNormNames.find? (fun n => hasMacroName n attrs) with
    | none => none
    | some macroName =>
      let body := (richTextBodyOf inner).getD []
      let color :=
        if macroName = "panel".toList then
          let bg := trimL (stripTags ((paramValue "bgColor".toList inner).getD []))
          if bg = [] then "panel".toList else bg
        else macroName
      let icon := if macroName = "panel".toList then "panel".toList else macroName
      some ("MD_PANEL(".toList ++ encodeURIComponentL color ++ [','] ++
        encodeURIComponentL icon ++ ")[".toList ++ encodeURIComponentL body ++ [']'], rest)

/-- The image pass (source lines 877-889). -/
def imageNormStep (s : Str) : Option (Str × Str) :=
  match stripHead "<ac:image".toList s with
  | none => none
  | some r1 =>
    match attrsThen r1 with
    | none => none
    | some (attrsv, r2) =>
      match splitSub "</ac:image>".toList r2 with
      | none => none
      | some (inner, rest) =>
        let url := (attrValue "ri:value".toList inner).getD []
        let filename := (attrValue "ri:filename".toList inner).getD []
        let caption := trimL (stripTags ((captionOf inner).getD []))
        let ref :=
          if url ≠ [] then url
          else if filename ≠ [] then "attach:".toList ++ filename
          else []
        if ref = [] then
          some ("<ac:image".toList ++ attrsv ++ ['>'] ++ inner ++ "</ac:image>".toList, rest)
        else
          some ("MD_IMAGE(".toList ++ encodeURIComponentL ref ++ ")[".toList ++
            encodeURIComponentL caption ++ [']'], rest)

/-- The search for the CDATA terminator of the code pass's
`/^\s*<!\[CDATA\[([\s\S]*?)\]\]>\s*$/` (lazy body, whitespace-only tail). -/
def cdataBodyF : Nat → Str → Str → Option Str
  | 0, _, _ => none
  | fuel + 1, acc, s =>
    match splitSub "]]>".toList s with
    | none => none
    | some (m, rest) =>
      if rest.all isJsWs then some (acc ++ m)
      else cdataBodyF fuel (acc ++ m ++ "]]>".toList) rest

/-- The code-macro pass (source lines 890-909). -/
def codeNormStep (s : Str) : Option (Str × Str) :=
  match structMacroHead s with
  | none => none
  | some (attrs, inner, rest) =>
    if hasMacroName "code".toList attrs then
      let lang := trimL (stripTags ((paramValue "language".toList inner).getD []))
      let bodyRaw := (plainTextBodyOf inner).getD []
      let body :=
        match stripHead "<![CDATA[".toList (bodyRaw.dropWhile isJsWs) with
        | some mid =>
          match cdataBodyF mid.length [] mid with
          | some b => b
          | none => decodeBasicEntities bodyRaw
        | none => decodeBasicEntities bodyRaw
      some ("MD_CODE(".toList ++ encodeURIComponentL lang ++ ")[".toList ++
        encodeURIComponentL body ++ [']'], rest)
    else none

/-- The TOC pass (source line 911). -/
def tocNormStep (s : Str) : Option (Str × Str) :=
  match structMacroHead s with
  | none => none
  | some (attrs, _, rest) =>
    if hasMacroName "toc".toList attrs then some ("MD_WIDGET(toc)".toList, rest) else none

/-- The self-closing TOC pass (source line 913). -/
def tocSelfCloseStep (s : Str) : Option (Str × Str) :=
  match stripHead "<ac:structured-macro".toList s with
  | none => none
  | some r1 =>
    match attrsSelfClose r1 with
    | none => none
    | some (attrs, rest) =>
      if hasMacroName "toc".toList attrs then some ("MD_WIDGET(toc)".toList, rest) else none

/-- The structured inline-comment-marker pass (source lines 915-922). -/
def icmMacroStep (s : Str) : Option (Str × Str) :=
  match structMacroHead s with
  | none => none
  | some (attrs, inner, rest) =>
    if hasMacroName "inline-comment-marker".toList attrs then
      let ref := trimL (stripTags ((paramValue "ref".toList inner).getD []))
      let endRaw :=
        match paramValue "end".toList inner with
        | some v => v
        | none =>
          match paramValue "isEnd".toList inner with
          | some v => v
          | none =>
            match paramValue "endMarker".toList inner with
            | some v => v
            | none => (paramValue "type".toList inner).getD []
      let endParam := toLowerStr (trimL (stripTags endRaw))
      let isEnd := endParam = "true".toList ∨ endParam = "1".toList ∨ endParam = "end".toList
      let enc := encodeURIComponentL ref
      if isEnd then some ("MD_CMT_END(".toList ++ enc ++ [')'], rest)
      else some ("MD_CMT_START(".toList ++ enc ++ [')'], rest)
    else none

/-- The structured inline-comment-end pass (source lines 923-927). -/
def icmEndMacroStep (s : Str) : Option (Str × Str) :=
  match structMacroHead s with
  | none => none
  | some (attrs, inner, rest) =>
    if hasMacroName "inline-comment-end".toList attrs then
      let ref := trimL (stripTags ((paramValue "ref".toList inner).getD []))
      some ("MD_CMT_END(".toList ++ encodeURIComponentL ref ++ [')'], rest)
    else none

/-- The paired inline marker pass (source lines 929-932): the wrapped text
is kept between the two tokens. -/
def icmPairedStep (s : Str) : Option (Str × Str) :=
  match stripHead "<ac:inline-comment-marker".toList s with
  | none => none
  | some r1 =>
    match attrsThen r1 with
    | none => none
    | some (attrs, r2) =>
      match attrValue "ac:ref".toList attrs with
      | none => none
      | some ref =>
        match splitSub "</ac:inline-comment-marker>".toList r2 with
        | none => none
        | some (inner, rest) =>
          let enc := encodeURIComponentL ref
          some ("MD_CMT_START(".toList ++ enc ++ [')'] ++ inner ++
            "MD_CMT_END(".toList ++ enc ++ [')'], rest)

/-- The self-closing or opening inline marker pass (source lines 934-938). -/
def icmSelfStep (s : Str) : Option (Str × Str) :=
  match stripHead "<ac:inline-comment-marker".toList s with
  | none => none
  | some r1 =>
    match attrsThen r1 with
    | none => none
    | some (attrs, r2) =>
      match attrValue "ac:ref".toList attrs with
      | none => none
      | some ref =>
        let rest :=
          match stripHead "</ac:inline-comment-marker>".toList r2 with
          | some q => q
          | none => r2
        let isEnd :=
          containsSub "ac:end=\"true\"".toList attrs ||
          containsSub "ac:end=\"1\"".toList attrs ||
          containsSub "ac:is-end=\"true\"".toList attrs ||
          containsSub "ac:is-end=\"1\"".toList attrs ||
          containsSub "ac:type=\"end\"".toList attrs
        let enc := encodeURIComponentL ref
        if isEnd then some ("MD_CMT_END(".toList ++ enc ++ [')'], rest)
        else some ("MD_CMT_START(".toList ++ enc ++ [')'], rest)

/-- The inline-comment-end element pass (source line 939). -/
def icmEndInlineStep (s : Str) : Option (Str × Str) :=
  match stripHead "<ac:inline-comment-end".toList s with
  | none => none
  | some r1 =>
    match attrsThen r1 with
    | none => none
    | some (attrs, r2) =>
      match attrValue "ac:ref".toList attrs with
      | none => none
      | some ref =>
        let rest :=
          match stripHead "</ac:inline-comment-end>".toList r2 with
          | some q => q
          | none => r2
        some ("MD_CMT_END(".toList ++ encodeURIComponentL ref ++ [')'], rest)

/-- `/<ac:[^>]+>/g → ""` (source line 941). -/
def acOpenStripStep (s : Str) : Option (Str × Str) :=
  match stripHead "<ac:".toList s with
  | none => none
  | some r1 =>
    let body := r1.takeWhile (fun c => c != '>')
    match r1.drop body.length with
    | '>' :: rest => some ([], rest)
    | _ => none

/-- `/<\/ac:[^>]+>/g → ""` (source line 942). -/
def acCloseStripStep (s : Str) : Option (Str × Str) :=
  match stripHead "</ac:".toList s with
  | none => none
  | some r1 =>
    let body := r1.takeWhile (fun c => c != '>')
    match r1.drop body.length with
    | '>' :: rest => some ([], rest)
    | _ => none

/-- The generic structured-macro unwrap pass (source lines 944-947). -/
def macroUnwrapStep (s : Str) : Option (Str × Str) :=
  match structMacroHead s with
  | none => none
  | some (_, inner, rest) =>
    match richTextBodyOf inner with
    | some body => some (body, rest)
    | none => some (inner, rest)

/-- The comment-to-token pass (source line 949):
`/<!--\s*([\s\S]*?)\s*-->/g` keeps the trimmed comment text. -/
def commentNormStep (s : Str) : Option (Str × Str) :=
  match stripHead "<!--".toList s with
  | none => none
  | some r1 =>
    match splitSub "-->".toList r1 with
    | none => none
    | some (inner, rest) =>
      some ("MD_COMMENT(".toList ++ encodeURIComponentL (trimL inner) ++ [')'], rest)

/-- `normalizeMacros` (source lines 762-947): the ordered token passes.
Quoting in the model reads the double-quoted attribute form the converter
itself emits. -/
def normalizeMacros (html : Str) : Str :=
  scanRewrite commentNormStep
    (scanRewrite macroUnwrapStep
      (scanRewrite acCloseStripStep
        (scanRewrite acOpenStripStep
          (scanRewrite icmEndInlineStep
            (scanRewrite icmSelfStep
              (scanRewrite icmPairedStep
                (scanRewrite icmEndMacroStep
                  (scanRewrite icmMacroStep
                    (scanRewrite tocSelfCloseStep
                      (scanRewrite tocNormStep
                        (scanRewrite codeNormStep
                          (scanRewrite imageNormStep
                            (scanRewrite panelNormStep
                              (scanRewrite linkNormStep
                                (scanRewrite statusNormStep html)))))))))))))))

/-! ## Cell text extraction and table rendering (source lines 949-1010) -/

/-- Character class `[#a-z0-9_-]` of the styling comment (with `/i`). -/
def isStyleC (c : Char) : Bool := c == '#' || c.isAlphanum || c == '_' || c == '-'

/-- `/^(?:table|cell):bg:([#a-z0-9_-]+)$/i` on a decoded comment text,
yielding the lower-cased colour. -/
def styleBgMatch (comment : Str) : Option Str :=
  let afterPrefix :=
    match stripHead "table:bg:".toList comment with
    | some r => some r
    | none => stripHead "cell:bg:".toList comment
  match afterPrefix with
  | none => none
  | some r => if r ≠ [] ∧ r.all isStyleC then some (toLowerStr r) else none

/-- The `MD_COMMENT` walk of `getCellTextWithComments` (source lines
978-985): styling comments set the cell colour and disappear; other
comments stay as re-encoded tokens. The second component is the last
styling colour seen. -/
def cellTokenScanF : Nat → Str → Option Str → Str × Option Str
  | 0, s, st => (s, st)
  | fuel + 1, s, st =>
    match splitSub "MD_COMMENT(".toList s with
    | none => (s, st)
    | some (pre, r1) =>
      let enc := r1.takeWhile (fun c => c != ')')
      match r1.drop enc.length with
      | ')' :: rest =>
        if enc = [] then
          let (t, st2) := cellTokenScanF fuel r1 st
          (pre ++ "MD_COMMENT(".toList ++ t, st2)
        else
          let comment := decodeURIComponentL enc
          match styleBgMatch comment with
          | some color =>
            let (t, st2) := cellTokenScanF fuel rest (some color)
            (pre ++ t, st2)
          | none =>
            let keep := "MD_COMMENT(".toList ++ encodeURIComponentL comment ++ [')']
            let (t, st2) := cellTokenScanF fuel rest st
            (pre ++ keep ++ t, st2)
      | _ =>
        let (t, st2) := cellTokenScanF fuel r1 st
        (pre ++ "MD_COMMENT(".toList ++ t, st2)

/-- The raw styling-comment walk of `getCellTextWithComments`
(`/<!--\s*(?:table|cell):bg:([#a-z0-9_-]+)\s*-->/gi`, source lines
986-989). -/
def cellRawScanF : Nat → Str → Option Str → Str × Option Str
  | 0, s, st => (s, st)
  | fuel + 1, s, st =>
    match splitSub "<!--".toList s with
    | none => (s, st)
    | some (pre, r1) =>
      let keep : Str × Option Str :=
        let (t, st2) := cellRawScanF fuel r1 st
        (pre ++ "<!--".toList ++ t, st2)
      let r2 := r1.dropWhile isJsWs
      match
        (match stripHead "table:bg:".toList r2 with
         | some q => some q
         | none => stripHead "cell:bg:".toList r2) with
      | none => keep
      | some r3 =>
        let color := r3.takeWhile isStyleC
        if color = [] then keep
        else
          let r4 := (r3.drop color.length).dropWhile isJsWs
          match stripHead "-->".toList r4 with
          | none => keep
          | some rest =>
            let (t, st2) := cellRawScanF fuel rest (some (toLowerStr color))
            (pre ++ t, st2)

/-- `/<br\s*\/?>/gi → "\n"`. -/
def brStep (s : Str) : Option (Str × Str) :=
  match stripHead "<br".toList s with
  | none => none
  | some r1 =>
    let r2 := r1.dropWhile isJsWs
    let r3 := match r2 with
      | '/' :: q => q
      | _ => r2
    match r3 with
    | '>' :: rest => some (['\n'], rest)
    | _ => none

/-- `/<\/(?:p|div|li|h\d)>/gi → "\n"`. -/
def blockCloseStep (s : Str) : Option (Str × Str) :=
  match stripHead "</".toList s with
  | none => none
  | some r1 =>
    let tryTag (tag : Str) : Option (Str × Str) :=
      match stripHead (tag ++ ['>']) r1 with
      | some rest => some (['\n'], rest)
      | none => none
    match tryTag "p".toList with
    | some q => some q
    | none =>
    match tryTag "div".toList with
    | some q => some q
    | none =>
    match tryTag "li".toList with
    | some q => some q
    | none =>
      match r1 with
      | 'h' :: d :: '>' :: rest => if isDigitC d then some (['\n'], rest) else none
      | _ => none

/-- `getCellTextWithComments` (source lines 973-1010), over the cell's
inner HTML. -/
def getCellTextWithComments (cellHtmlIn : Str) : Str :=
  let p1 := cellTokenScanF cellHtmlIn.length cellHtmlIn none
  let p2 := cellRawScanF p1.1.length p1.1 p1.2
  let h3 := scanRewrite brStep p2.1
  let h4 := scanRewrite blockCloseStep h3
  let text := trimL (newlinesToSpaces (decodeBasicEntities (stripTags h4)))
  match p2.2 with
  | some color =>
    if text = [] then "<!-- cell:bg:".toList ++ color ++ " -->".toList
    else text ++ " <!-- cell:bg:".toList ++ color ++ " -->".toList
  | none => text

/-- The `tr` elements of a table's inner HTML, in order
(`querySelectorAll("tr")`). -/
def tableRowsOf : Nat → Str → List Str
  | 0, _ => []
  | fuel + 1, s =>
    match splitSub "<tr".toList s with
    | none => []
    | some (_, r1) =>
      match attrsThen r1 with
      | none => []
      | some (_, r2) =>
        match splitSub "</tr>".toList r2 with
        | none => []
        | some (row, rest) => row :: tableRowsOf fuel rest

/-- One `th` or `td` cell at the head of the input: its inner HTML and the
input after its close tag. A following `>`, space or `/` keeps `<thead>`
from reading as a cell tag. -/
def cellOpen (s : Str) : Option (Str × Str) :=
  let go (tag : Str) : Option (Str × Str) :=
    match stripHead ('<' :: tag) s with
    | none => none
    | some r1 =>
      match r1.head? with
      | some c =>
        if c = '>' ∨ isJsWs c ∨ c = '/' then
          match attrsThen r1 with
          | none => none
          | some (_, r2) =>
            match splitSub ("</".toList ++ tag ++ ['>']) r2 with
            | none => none
            | some (cell, rest) => some (cell, rest)
        else none
      | none => none
  match go "th".toList with
  | some q => some q
  | none => go "td".toList

/-- The `th`/`td` cells of one row (`querySelectorAll("th,td")`). -/
def rowCellsF : Nat → Str → List Str
  | 0, _ => []
  | _ + 1, [] => []
  | fuel + 1, c :: r =>
    match cellOpen (c :: r) with
    | some (cell, rest) => cell :: rowCellsF fuel rest
    | none => rowCellsF fuel r

/-! ## The generic HTML-to-Markdown converter (turndown), modelled -/

/-- Turndown's text escapes for the characters the converter's dialect
meets; modelled from the spec's description of the generic converter
(backslash-escaping of markdown punctuation such as underscores and
brackets). -/
def mdEscapeChar (c : Char) : Str :=
  if c = '\\' ∨ c = '`' ∨ c = '*' ∨ c = '_' ∨ c = '[' ∨ c = ']' then ['\\', c] else [c]

def mdEscape (s : Str) : Str := s.foldr (fun c acc => mdEscapeChar c ++ acc) []

/-- Block walk of the turndown model: paragraphs become escaped text
blocks, other tags are dropped around their content, text runs are escaped. -/
def turndownBlocksF : Nat → Str → List Str
  | 0, _ => []
  | _ + 1, [] => []
  | fuel + 1, c :: r =>
    let s := c :: r
    match stripHead "<p".toList s with
    | some r0 =>
      match
        (match r0.head? with
         | some c2 => if c2 = '>' ∨ isJsWs c2 then attrsThen r0 else none
         | none => none) with
      | some (_, r1) =>
        (match splitSub "</p>".toList r1 with
         | some (inner, rest) =>
           trimL (mdEscape (stripTags inner)) :: turndownBlocksF fuel rest
         | none => [trimL (mdEscape (stripTags r1))])
      | none =>
        match tagStep s with
        | some (_, rest) => turndownBlocksF fuel rest
        | none =>
          let t := s.takeWhile (fun ch => ch != '<')
          if t = [] then mdEscape ['<'] :: turndownBlocksF fuel r
          else trimL (mdEscape t) :: turndownBlocksF fuel (s.drop t.length)
    | none =>
      match tagStep s with
      | some (_, rest) => turndownBlocksF fuel rest
      | none =>
        let t := s.takeWhile (fun ch => ch != '<')
        if t = [] then mdEscape ['<'] :: turndownBlocksF fuel r
        else trimL (mdEscape t) :: turndownBlocksF fuel (s.drop t.length)

/-- The generic converter (`turndown.turndown`), modelled from the spec:
nonempty blocks separated by blank lines. -/
def turndownModel (h : Str) : Str :=
  List.intercalate "\n\n".toList ((turndownBlocksF h.length h).filter (fun b => b ≠ []))

/-! ## `decodeMdCommentTokens` (source lines 1020-1104) -/

/-- `MD(?:\\)?_COMMENT\(([^)]+)\)` → the decoded comment. -/
def commentTokStep (s : Str) : Option (Str × Str) :=
  match stripHead "MD".toList s with
  | none => none
  | some s1 =>
    match stripHead "_COMMENT(".toList (optBS s1) with
    | none => none
    | some s2 =>
      let enc := s2.takeWhile (fun c => c != ')')
      if enc = [] then none
      else match s2.drop enc.length with
        | ')' :: rest =>
          some ("<!-- ".toList ++ decodeURIComponentL enc ++ " -->".toList, rest)
        | _ => none

/-- `MD(?:\\)?_WIDGET\(([^)]+)\)` → an upper-cased widget comment. -/
def widgetTokStep (s : Str) : Option (Str × Str) :=
  match stripHead "MD".toList s with
  | none => none
  | some s1 =>
    match stripHead "_WIDGET(".toList (optBS s1) with
    | none => none
    | some s2 =>
      let name := s2.takeWhile (fun c => c != ')')
      if name = [] then none
      else match s2.drop name.length with
        | ')' :: rest =>
          some ("<!-- widget:".toList ++ toUpperStr name ++ " -->".toList, rest)
        | _ => none

/-- `MD(?:\\)?_CMT_START\(([^)]+)\)` → the markdown wrapper comment. -/
def cmtStartTokStep (s : Str) : Option (Str × Str) :=
  match stripHead "MD".toList s with
  | none => none
  | some s1 =>
    match stripHead "_CMT_START(".toList (optBS s1) with
    | none => none
    | some s2 =>
      let enc := s2.takeWhile (fun c => c != ')')
      if enc = [] then none
      else match s2.drop enc.length with
        | ')' :: rest =>
          some ("<!-- comment:".toList ++ decodeURIComponentL enc ++ " -->".toList, rest)
        | _ => none

/-- `MD(?:\\)?_CMT_END\(([^)]+)\)` → the markdown end-wrapper comment. -/
def cmtEndTokStep (s : Str) : Option (Str × Str) :=
  match stripHead "MD".toList s with
  | none => none
  | some s1 =>
    match stripHead "_CMT_END(".toList (optBS s1) with
    | none => none
    | some s2 =>
      let enc := s2.takeWhile (fun c => c != ')')
      if enc = [] then none
      else match s2.drop enc.length with
        | ')' :: rest =>
          some ("<!-- commend-end:".toList ++ decodeURIComponentL enc ++ " -->".toList, rest)
        | _ => none

/-- The common `~~seg~~seg~~END` tail of the link tokens. -/
def linkTokTail (s : Str) : Option (Str × Str × Str) :=
  let seg1 := s.takeWhile (fun c => c != '~')
  if seg1 = [] then none
  else match stripHead "~~".toList (s.drop seg1.length) with
    | none => none
    | some r1 =>
      let seg2 := r1.takeWhile (fun c => c != '~')
      if seg2 = [] then none
      else match stripHead "~~END".toList (r1.drop seg2.length) with
        | none => none
        | some rest => some (seg1, seg2, rest)

/-- `MD(?:\\)?_PAGE(?:\\)?_LINK~~ref~~text~~END` → `[text](ref)`. -/
def pageLinkTokStep (s : Str) : Option (Str × Str) :=
  match stripHead "MD".toList s with
  | none => none
  | some s1 =>
    match stripHead "_PAGE".toList (optBS s1) with
    | none => none
    | some s2 =>
      match stripHead "_LINK~~".toList (optBS s2) with
      | none => none
      | some s3 =>
        match linkTokTail s3 with
        | none => none
        | some (refEnc, textEnc, rest) =>
          some ('[' :: decodeURIComponentL textEnc ++ "](".toList ++
            decodeURIComponentL refEnc ++ [')'], rest)

/-- `MD(?:\\)?_ATTACH(?:\\)?_LINK~~filename~~text~~END` →
`[text](#attachment:filename)`. -/
def attachLinkTokStep (s : Str) : Option (Str × Str) :=
  match stripHead "MD".toList s with
  | none => none
  | some s1 =>
    match stripHead "_ATTACH".toList (optBS s1) with
    | none => none
    | some s2 =>
      match stripHead "_LINK~~".toList (optBS s2) with
      | none => none
      | some s3 =>
        match linkTokTail s3 with
        | none => none
        | some (fileEnc, textEnc, rest) =>
          some ('[' :: decodeURIComponentL textEnc ++ "](#attachment:".toList ++
            decodeURIComponentL fileEnc ++ [')'], rest)

/-- `MD(?:\\)?_URL(?:\\)?_LINK~~url~~text~~END` → `[text](url)`. -/
def urlLinkTokStep (s : Str) : Option (Str × Str) :=
  match stripHead "MD".toList s with
  | none => none
  | some s1 =>
    match stripHead "_URL".toList (optBS s1) with
    | none => none
    | some s2 =>
      match stripHead "_LINK~~".toList (optBS s2) with
      | none => none
      | some s3 =>
        match linkTokTail s3 with
        | none => none
        | some (urlEnc, textEnc, rest) =>
          some ('[' :: decodeURIComponentL textEnc ++ "](".toList ++
            decodeURIComponentL urlEnc ++ [')'], rest)

/-- `MD(?:\\)?_PANEL\(([^,)]*),([^)]*)\)(?:\\)?\[...\]` → the quoted panel
block (source lines 1062-1075); `recur` is the token decoder itself applied
to the panel's converted body. -/
def panelTokStep (recur : Str → Str) (s : Str) : Option (Str × Str) :=
  match stripHead "MD".toList s with
  | none => none
  | some s1 =>
    match stripHead "_PANEL(".toList (optBS s1) with
    | none => none
    | some s2 =>
      let colorEnc := s2.takeWhile (fun c => c != ',' && c != ')')
      match s2.drop colorEnc.length with
      | ',' :: s3 =>
        let iconEnc := s3.takeWhile (fun c => c != ')')
        match s3.drop iconEnc.length with
        | ')' :: s4 =>
          (match optBS s4 with
           | '[' :: s5 =>
             match lazyBody s5 with
             | none => none
             | some (bodyEnc, rest) =>
               let color0 := decodeURIComponentL colorEnc
               let color := if color0 = [] then "info".toList else color0
               let icon0 := decodeURIComponentL iconEnc
               let icon := if icon0 = [] then color else icon0
               let innerHtml := decodeURIComponentL bodyEnc
               let innerMd := unescapeMarkdownUnderscores (recur (turndownModel innerHtml))
               let outLines :=
                 ("> <!-- panel:".toList ++ color ++ [':'] ++ icon ++ " -->".toList) ::
                   (splitNl innerMd).map (fun l =>
                     if trimL l = [] then ['>'] else "> ".toList ++ l)
               some (List.intercalate ['\n'] outLines, rest)
           | _ => none)
        | _ => none
      | _ => none

/-- `MD(?:\\)?_STATUS\(([^)]*)\)(?:\\)?\[...\]` → the status comment. -/
def statusTokStep (s : Str) : Option (Str × Str) :=
  match stripHead "MD".toList s with
  | none => none
  | some s1 =>
    match stripHead "_STATUS(".toList (optBS s1) with
    | none => none
    | some s2 =>
      let colorEnc := s2.takeWhile (fun c => c != ')')
      match s2.drop colorEnc.length with
      | ')' :: s3 =>
        (match optBS s3 with
         | '[' :: s4 =>
           match lazyBody s4 with
           | none => none
           | some (titleEnc, rest) =>
             let color0 := decodeURIComponentL colorEnc
             let color := if color0 = [] then "grey".toList else color0
             let title0 := decodeURIComponentL titleEnc
             let title := if title0 = [] then "Status".toList else title0
             some ("<!-- status:".toList ++ color ++ [':'] ++ title ++ " -->".toList, rest)
         | _ => none)
      | _ => none

/-- `MD(?:\\)?_IMAGE\(([^)]*)\)(?:\\)?\[...\]` → a single-line markdown
image with the caption as alt text. -/
def imageTokStep (s : Str) : Option (Str × Str) :=
  match stripHead "MD".toList s with
  | none => none
  | some s1 =>
    match stripHead "_IMAGE(".toList (optBS s1) with
    | none => none
    | some s2 =>
      let refEnc := s2.takeWhile (fun c => c != ')')
      match s2.drop refEnc.length with
      | ')' :: s3 =>
        (match optBS s3 with
         | '[' :: s4 =>
           match lazyBody s4 with
           | none => none
           | some (capEnc, rest) =>
             let ref := decodeURIComponentL refEnc
             let cap := decodeURIComponentL capEnc
             let srcv :=
               if beginsWith "attach:".toList ref then '#' :: ref.drop 7 else ref
             some ("![".toList ++ cap ++ "](".toList ++ srcv ++ [')'], rest)
         | _ => none)
      | _ => none

/-- `MD(?:\\)?_MENTION\(([^)]*)\)(?:\\)?\[...\]` → the mention comment
(source lines 1090-1096). -/
def mentionDownTokStep (s : Str) : Option (Str × Str) :=
  match stripHead "MD".toList s with
  | none => none
  | some s1 =>
    match stripHead "_MENTION(".toList (optBS s1) with
    | none => none
    | some s2 =>
      let idEnc := s2.takeWhile (fun c => c != ')')
      match s2.drop idEnc.length with
      | ')' :: s3 =>
        (match optBS s3 with
         | '[' :: s4 =>
           match lazyBody s4 with
           | none => none
           | some (visEnc, rest) =>
             let idv := decodeURIComponentL idEnc
             let vis := decodeURIComponentL visEnc
             let label := if vis = [] then idv else vis
             some ("<!-- mention:".toList ++ idv ++ [' '] ++ label ++ " -->".toList, rest)
         | _ => none)
      | _ => none

/-- `MD(?:\\)?_CODE\(([^)]*)\)(?:\\)?\[...\]` → a fenced code block. -/
def codeTokStep (s : Str) : Option (Str × Str) :=
  match stripHead "MD".toList s with
  | none => none
  | some s1 =>
    match stripHead "_CODE(".toList (optBS s1) with
    | none => none
    | some s2 =>
      let langEnc := s2.takeWhile (fun c => c != ')')
      match s2.drop langEnc.length with
      | ')' :: s3 =>
        (match optBS s3 with
         | '[' :: s4 =>
           match lazyBody s4 with
           | none => none
           | some (bodyEnc, rest) =>
             let lang := decodeURIComponentL langEnc
             let body := decodeURIComponentL bodyEnc
             some ("```".toList ++ lang ++ ['\n'] ++ body ++ "\n```".toList, rest)
         | _ => none)
      | _ => none

/-- `/(\S)<!--\s*comment:/g → "$1 <!-- comment:"` (source line 1100). -/
def glueFixStartStep (s : Str) : Option (Str × Str) :=
  match s with
  | c :: r =>
    if isJsWs c then none
    else match stripHead "<!--".toList r with
      | none => none
      | some r1 =>
        match stripHead "comment:".toList (r1.dropWhile isJsWs) with
        | none => none
        | some r2 => some (c :: " <!-- comment:".toList, r2)
  | [] => none

/-- `/(\S)<!--\s*commend-end:/g → "$1 <!-- commend-end:"` (source line 1101). -/
def glueFixEndStep (s : Str) : Option (Str × Str) :=
  match s with
  | c :: r =>
    if isJsWs c then none
    else match stripHead "<!--".toList r with
      | none => none
      | some r1 =>
        match stripHead "commend-end:".toList (r1.dropWhile isJsWs) with
        | none => none
        | some r2 => some (c :: " <!-- commend-end:".toList, r2)
  | [] => none

/-- The global replace of `-->\s*(\S)` by `--> $1` (source line 1102) —
the pass that also glues a following line onto a decoded comment, since
`\s*` eats the newline. -/
def glueFixAfterStep (s : Str) : Option (Str × Str) :=
  match stripHead "-->".toList s with
  | none => none
  | some r1 =>
    match r1.dropWhile isJsWs with
    | c :: r2 => if isJsWs c then none else some ("--> ".toList ++ [c], r2)
    | [] => none

/-- `decodeMdCommentTokens` (source lines 1020-1104): the ordered token
passes, then the comment-spacing normalization; the fuel bounds the
nesting depth of panel bodies. -/
def decodeMdCommentTokensF : Nat → Str → Str
  | 0, s => s
  | fuel + 1, s =>
    let o1 := scanRewrite commentTokStep s
    let o2 := scanRewrite widgetTokStep o1
    let o3 := scanRewrite cmtStartTokStep o2
    let o4 := scanRewrite cmtEndTokStep o3
    let o5 := scanRewrite pageLinkTokStep o4
    let o6 := scanRewrite attachLinkTokStep o5
    let o7 := scanRewrite urlLinkTokStep o6
    let o8 := scanRewrite (panelTokStep (decodeMdCommentTokensF fuel)) o7
    let o9 := scanRewrite statusTokStep o8
    let o10 := scanRewrite imageTokStep o9
    let o11 := scanRewrite mentionDownTokStep o10
    let o12 := scanRewrite codeTokStep o11
    let o13 := scanRewrite glueFixStartStep o12
    let o14 := scanRewrite glueFixEndStep o13
    scanRewrite glueFixAfterStep o14

def decodeMdCommentTokens (s : Str) : Str := decodeMdCommentTokensF (s.length + 1) s

/-- `renderTableMarkdown` (source lines 949-971) over the table element's
inner HTML: the cell matrix, padded by `renderTableRows`, formatted as GFM
lines and run through the token decoder. -/
def renderTableMarkdown (tableInner : Str) : Str :=
  let rows := tableRowsOf tableInner.length tableInner
  if rows = [] then []
  else
    let matrix := rows.map (fun row =>
      (rowCellsF row.length row).map (fun cell =>
        collapseWsRuns (trimL (getCellTextWithComments cell))))
    let lines := (renderTableRows matrix).map (fun r =>
      "| ".toList ++ List.intercalate " | ".toList r ++ " |".toList)
    decodeMdCommentTokens (List.intercalate ['\n'] lines)

/-! ## `storageToMarkdownBlocks` (source lines 129-199) -/

/-- A block of the download conversion: the node identifier when present,
and the markdown text. -/
abbrev MappedNode := Option Str × Str

/-- A top-level child node of the parsed body: an element with its tag,
attribute text and inner HTML, or a text node. The linkedom parser is an
external collaborator; this reads the well-formed, non-self-nested
top-level structure the converter's documents have. -/
inductive TopNode where
  | elem (tag attrs inner : Str)
  | text (t : Str)
deriving DecidableEq

/-- The top-level node walk of the parsed document body. -/
def parseTopLevelF : Nat → Str → List TopNode
  | 0, _ => []
  | _ + 1, [] => []
  | fuel + 1, c :: r =>
    if c = '<' then
      let tag := r.takeWhile (fun ch => ch.isAlphanum)
      if tag = [] then TopNode.text ['<'] :: parseTopLevelF fuel r
      else
        match attrsThen (r.drop tag.length) with
        | none => [TopNode.text (c :: r)]
        | some (attrs, r2) =>
          if attrs.getLast? = some '/' then
            TopNode.elem tag attrs.dropLast [] :: parseTopLevelF fuel r2
          else
            match splitSub ("</".toList ++ tag ++ ['>']) r2 with
            | some (inner, rest) => TopNode.elem tag attrs inner :: parseTopLevelF fuel rest
            | none => [TopNode.elem tag attrs r2]
    else
      let t := (c :: r).takeWhile (fun ch => ch != '<')
      TopNode.text t :: parseTopLevelF fuel ((c :: r).drop t.length)

/-- The first descendant `table` element's inner HTML
(`el.querySelector("table")`). -/
def firstTableInner (s : Str) : Option Str :=
  match splitSub "<table".toList s with
  | none => none
  | some (_, r1) =>
    match attrsThen r1 with
    | none => none
    | some (_, r2) => (splitSub "</table>".toList r2).map (·.1)

/-- The blocks pushed for one top-level node (source lines 136-175). -/
def nodeBlock : TopNode → List MappedNode
  | TopNode.elem tag attrs inner =>
    let nodeId := attrValue "data-node-id".toList attrs
    if tag = "table".toList then
      let md := renderTableMarkdown inner
      if trimL md = [] then [] else [(nodeId, trimL md)]
    else
      match firstTableInner inner with
      | some ti =>
        let md := renderTableMarkdown ti
        if trimL md = [] then [] else [(nodeId, trimL md)]
      | none =>
        let outer := '<' :: (tag ++ attrs) ++ '>' :: inner ++ "</".toList ++ tag ++ ['>']
        let md := unescapeMarkdownUnderscores (decodeMdCommentTokens (turndownModel outer))
        if trimL md = [] then [] else [(nodeId, trimL md)]
  | TopNode.text t =>
    let t2 := trimL t
    if t2 = [] then []
    else
      let md := unescapeMarkdownUnderscores (decodeMdCommentTokens t2)
      if trimL md = [] then [] else [(none, trimL md)]

/-- Decimal digits of an index for the `MD_TABLE(i)` tokens. -/
def natDigits (n : Nat) : Str := (toString n).toList

/-- The fallback's table tokenization
(`/<table[\s\S]*?<\/table>/gi` collecting, source lines 181-186). -/
def extractTablesF : Nat → Str → Nat → Str × List Str
  | 0, s, _ => (s, [])
  | fuel + 1, s, idx =>
    match splitSub "<table".toList s with
    | none => (s, [])
    | some (pre, r1) =>
      match splitSub "</table>".toList r1 with
      | none => (s, [])
      | some (mid, rest) =>
        let whole := "<table".toList ++ mid ++ "</table>".toList
        let p := extractTablesF fuel rest (idx + 1)
        (pre ++ "MD_TABLE(".toList ++ natDigits idx ++ [')'] ++ p.1, whole :: p.2)

/-- `MD(?:\\)?_TABLE\((\d+)\)` of `replaceTableTokens`
(source lines 1155-1164). -/
def tableTokStep (tables : List Str) (s : Str) : Option (Str × Str) :=
  match stripHead "MD".toList s with
  | none => none
  | some s1 =>
    match stripHead "_TABLE(".toList (optBS s1) with
    | none => none
    | some s2 =>
      let ds := s2.takeWhile isDigitC
      if ds = [] then none
      else match s2.drop ds.length with
        | ')' :: rest =>
          let i := ds.foldl (fun a c => a * 10 + (c.toNat - '0'.toNat)) 0
          let html := (tables.drop i).headI
          match firstTableInner html with
          | none => some ([], rest)
          | some ti => some ('\n' :: renderTableMarkdown ti ++ ['\n'], rest)
        | _ => none

def replaceTableTokens (md : Str) (tables : List Str) : Str :=
  scanRewrite (tableTokStep tables) md

/-- `/\n{3,}/g → "\n\n"` (source line 194). -/
def tripleNlStep (s : Str) : Option (Str × Str) :=
  match s with
  | '\n' :: '\n' :: '\n' :: r =>
    some (['\n', '\n'], r.dropWhile (fun c => c = '\n'))
  | _ => none

/-- `storageToMarkdownBlocks` (source lines 129-199): normalize macros,
walk the top-level nodes into blocks, and fall back to the page-wide
conversion when no block was produced. -/
def storageToMarkdownBlocks (storageHtml : Str) : List MappedNode :=
  let pre := normalizeMacros storageHtml
  let blocks := (parseTopLevelF pre.length pre).map nodeBlock |>.flatten
  if blocks = [] then
    let p := extractTablesF pre.length pre 0
    let mdRaw := turndownModel p.1
    let decoded := decodeMdCommentTokens mdRaw
    let normalized := unescapeMarkdownUnderscores (replaceTableTokens decoded p.2)
    [(none, scanRewrite tripleNlStep normalized ++ ['\n'])]
  else blocks

/-- The spec's concrete round-trip fragment for claim C1: one mention
paragraph, one table with per-cell styling, one status macro, one fenced
code macro, one info panel, one captioned image, separated by plain
paragraphs. -/
def storageC1 : Str :=
  ("<p>Hi <ac:link><ri:user ri:account-id=\"5f0a2b\"/></ac:link></p>" ++
   "<table><tbody><tr><th>A</th></tr><tr><td>x<!-- cell:bg:red --></td></tr></tbody></table>" ++
   "<ac:structured-macro ac:name=\"status\"><ac:parameter ac:name=\"title\">Done</ac:parameter><ac:parameter ac:name=\"colour\">green</ac:parameter></ac:structured-macro>" ++
   "<p>Alpha</p>" ++
   "<ac:structured-macro ac:name=\"code\"><ac:parameter ac:name=\"language\">js</ac:parameter><ac:plain-text-body><![CDATA[let x = 1;]]></ac:plain-text-body></ac:structured-macro>" ++
   "<p>Beta</p>" ++
   "<ac:structured-macro ac:name=\"info\"><ac:rich-text-body><p>Note this</p></ac:rich-text-body></ac:structured-macro>" ++
   "<p>Gamma</p>" ++
   "<ac:image><ri:url ri:value=\"https://ex.com/p.png\"/><ac:caption>Fig 1</ac:caption></ac:image>").toList

/-- The storage markup produced by uploading claim C1's downloaded text
again. -/
def roundTripC1 : Str :=
  markdownToStorageHtml
    (List.intercalate "\n\n".toList ((storageToMarkdownBlocks storageC1).map (fun b => b.2)))


theorem beginsWith_iff {p s : Str} : beginsWith p s = true ↔ ∃ t, s = p ++ t := by
  induction p generalizing s with
  | nil => simp [beginsWith]
  | cons x xs ih =>
    cases s with
    | nil => simp [beginsWith]
    | cons c cs =>
      simp only [beginsWith, Bool.and_eq_true, beq_iff_eq, ih]
      constructor
      · rintro ⟨rfl, t, rfl⟩; exact ⟨t, rfl⟩
      · rintro ⟨t, ht⟩
        injection ht with h1 h2
        exact ⟨h1.symm, t, h2⟩

theorem beginsWith_append (p t : Str) : beginsWith p (p ++ t) = true :=
  beginsWith_iff.mpr ⟨t, rfl⟩

theorem drop_of_beginsWith {p s : Str} (h : beginsWith p s = true) :
    s = p ++ s.drop p.length := by
  obtain ⟨t, rfl⟩ := beginsWith_iff.mp h
  simp

theorem splitSub_eq {pat s a b : Str} (h : splitSub pat s = some (a, b)) :
    s = a ++ pat ++ b := by
  induction s generalizing a b with
  | nil =>
    rw [splitSub] at h
    by_cases hp : pat = ([] : Str)
    · rw [if_pos hp] at h
      simp only [Option.some.injEq, Prod.mk.injEq] at h
      obtain ⟨ha, hb⟩ := h
      simp [← ha, ← hb, hp]
    · rw [if_neg hp] at h
      exact absurd h (by simp)
  | cons c r ih =>
    rw [splitSub] at h
    by_cases hb : beginsWith pat (c :: r) = true
    · rw [if_pos hb] at h
      simp only [Option.some.injEq, Prod.mk.injEq] at h
      obtain ⟨ha, hb2⟩ := h
      rw [← ha, ← hb2]
      simpa using drop_of_beginsWith hb
    · rw [if_neg hb] at h
      simp only [Option.map_eq_some'] at h
      obtain ⟨⟨x, y⟩, hxy, hpair⟩ := h
      simp only [Prod.mk.injEq] at hpair
      obtain ⟨ha, hb2⟩ := hpair
      rw [← ha, ← hb2]
      simpa using congrArg (c :: ·) (ih hxy)

theorem splitSub_length {pat s a b : Str} (hp : pat ≠ []) (h : splitSub pat s = some (a, b)) :
    b.length < s.length := by
  have := congrArg List.length (splitSub_eq h)
  have hlp : 0 < pat.length := List.length_pos.mpr hp
  simp at this
  omega

theorem containsSub_cons (pat : Str) (c : Char) (r : Str) :
    containsSub pat (c :: r) = (beginsWith pat (c :: r) || containsSub pat r) := by
  by_cases hb : beginsWith pat (c :: r) = true
  · simp [containsSub, splitSub, hb]
  · simp [containsSub, splitSub, hb, Option.isSome_map]

theorem containsSub_nil_iff (pat : Str) : containsSub pat [] = true ↔ pat = [] := by
  by_cases hp : pat = ([] : Str) <;> simp [containsSub, splitSub, hp]

theorem replaceSubF_nil (pat repl : Str) (fuel : Nat) : replaceSubF pat repl fuel [] = [] := by
  cases fuel <;> rfl

theorem replaceSubF_congr {pat repl : Str} :
    ∀ {f1 : Nat} {s : Str} {f2 : Nat}, s.length ≤ f1 → s.length ≤ f2 →
      replaceSubF pat repl f1 s = replaceSubF pat repl f2 s := by
  intro f1
  induction f1 with
  | zero =>
    intro s f2 h1 _
    have : s = [] := List.length_eq_zero.mp (Nat.le_zero.mp h1)
    subst this
    rw [replaceSubF_nil, replaceSubF_nil]
  | succ f ih =>
    intro s f2 h1 h2
    cases s with
    | nil => rw [replaceSubF_nil, replaceSubF_nil]
    | cons c r =>
      cases f2 with
      | zero => simp at h2
      | succ f2' =>
        rw [replaceSubF, replaceSubF]
        by_cases hb : beginsWith pat (c :: r) = true ∧ pat ≠ []
        · rw [if_pos hb, if_pos hb]
          have hp : 0 < pat.length := List.length_pos.mpr hb.2
          have hl : ((c :: r).drop pat.length).length ≤ f := by
            simp only [List.length_drop, List.length_cons]
            simp at h1
            omega
          have hl2 : ((c :: r).drop pat.length).length ≤ f2' := by
            simp only [List.length_drop, List.length_cons]
            simp at h2
            omega
          rw [ih hl hl2]
        · rw [if_neg hb, if_neg hb]
          have hl : r.length ≤ f := by simp at h1; omega
          have hl2 : r.length ≤ f2' := by simp at h2; omega
          rw [ih hl hl2]

theorem replaceSub_nil (pat repl : Str) : replaceSub pat repl [] = [] := rfl

/-- One-step unfolding of `replaceSub` on a nonempty string. -/
theorem replaceSub_cons (pat repl : Str) (c : Char) (r : Str) :
    replaceSub pat repl (c :: r) =
      if beginsWith pat (c :: r) = true ∧ pat ≠ [] then
        repl ++ replaceSub pat repl ((c :: r).drop pat.length)
      else c :: replaceSub pat repl r := by
  rw [replaceSub, show ((c :: r : Str)).length = r.length + 1 from rfl, replaceSubF]
  by_cases hb : beginsWith pat (c :: r) = true ∧ pat ≠ []
  · rw [if_pos hb, if_pos hb]
    have hp : 0 < pat.length := List.length_pos.mpr hb.2
    rw [replaceSub]
    rw [replaceSubF_congr (by simp; omega) (le_refl _)]
  · rw [if_neg hb, if_neg hb, replaceSub]

theorem replaceSub_id {pat repl s : Str} (h : containsSub pat s = false) :
    replaceSub pat repl s = s := by
  induction s with
  | nil => rfl
  | cons c r ih =>
    rw [containsSub_cons] at h
    simp only [Bool.or_eq_false_iff] at h
    rw [replaceSub_cons, if_neg (by simp [h.1]), ih h.2]

/-- Characters of the output of `replaceSub` come from the input or from the
replacement text. -/
theorem replaceSubF_mem {pat repl : Str} :
    ∀ {fuel : Nat} {s : Str} {c : Char}, c ∈ replaceSubF pat repl fuel s → c ∈ s ∨ c ∈ repl := by
  intro fuel
  induction fuel with
  | zero => intro s c h; exact Or.inl h
  | succ f ih =>
    intro s c h
    cases s with
    | nil => rw [replaceSubF_nil] at h; simp at h
    | cons x r =>
      rw [replaceSubF] at h
      by_cases hb : beginsWith pat (x :: r) = true ∧ pat ≠ []
      · rw [if_pos hb] at h
        rcases List.mem_append.mp h with hc | hc
        · exact Or.inr hc
        · rcases ih hc with hc' | hc'
          · exact Or.inl (List.mem_of_mem_drop hc')
          · exact Or.inr hc'
      · rw [if_neg hb] at h
        rcases List.mem_cons.mp h with hc | hc
        · exact Or.inl (hc ▸ List.mem_cons_self x r)
        · rcases ih hc with hc' | hc'
          · exact Or.inl (List.mem_cons_of_mem x hc')
          · exact Or.inr hc'

theorem replaceSub_mem {pat repl s : Str} {c : Char}
    (h : c ∈ replaceSub pat repl s) : c ∈ s ∨ c ∈ repl := replaceSubF_mem h

theorem beginsWith_cons_ne {ph : Char} {pr : Str} {c : Char} {r : Str} (h : c ≠ ph) :
    beginsWith (ph :: pr) (c :: r) = false := by
  have hb : (ph == c) = false := beq_eq_false_iff_ne.mpr (Ne.symm h)
  simp [beginsWith, hb]

theorem splitSub_skip {ph : Char} {pr : Str} {a s : Str} (h : ∀ c ∈ a, c ≠ ph) :
    splitSub (ph :: pr) (a ++ s) =
      (splitSub (ph :: pr) s).map (fun q => (a ++ q.1, q.2)) := by
  induction a with
  | nil =>
    simp only [List.nil_append]
    cases splitSub (ph :: pr) s <;> simp
  | cons c a' ih =>
    have hc : c ≠ ph := h c (by simp)
    have hrest : ∀ x ∈ a', x ≠ ph := fun x hx => h x (by simp [hx])
    rw [List.cons_append, splitSub, if_neg (by simp [beginsWith_cons_ne hc]), ih hrest]
    cases splitSub (ph :: pr) s <;> simp

theorem containsSub_skip_none {ph : Char} {pr : Str} {a : Str} (h : ∀ c ∈ a, c ≠ ph) :
    containsSub (ph :: pr) a = false := by
  have := @splitSub_skip ph pr a [] h
  rw [List.append_nil] at this
  rw [containsSub, this]
  rw [show splitSub (ph :: pr) [] = none by rw [splitSub]; simp]
  simp

theorem replaceSub_skip {ph : Char} {pr repl : Str} {a s : Str} (h : ∀ c ∈ a, c ≠ ph) :
    replaceSub (ph :: pr) repl (a ++ s) = a ++ replaceSub (ph :: pr) repl s := by
  induction a with
  | nil => simp
  | cons c a' ih =>
    have hc : c ≠ ph := h c (by simp)
    have hrest : ∀ x ∈ a', x ≠ ph := fun x hx => h x (by simp [hx])
    rw [List.cons_append, replaceSub_cons, if_neg (by simp [beginsWith_cons_ne hc]), ih hrest]
    simp

theorem collapseStep_cons_ne {mark : Char} {go : Str → Str} {c : Char} {r : Str}
    (h : c ≠ '\\') : collapseStep mark go (c :: r) = c :: go r := by
  rw [collapseStep.eq_def]
  split
  · next heq => exact absurd heq (by simp)
  · next r' heq =>
    injection heq with h1 _
    exact absurd h1 h
  · next c' r' hne heq =>
    injection heq with h1 h2
    rw [h1, h2]

theorem noBS_of_append_left {a b : Str} (h : noBS (a ++ b)) : noBS a :=
  fun c hc => h c (List.mem_append_left b hc)

theorem noBS_of_append_right {a b : Str} (h : noBS (a ++ b)) : noBS b :=
  fun c hc => h c (List.mem_append_right a hc)

theorem unescUnd_id {s : Str} (h : noBS s) : unescUnd s = s :=
  replaceSub_id (containsSub_skip_none h)

theorem removeEscStar_id {s : Str} (h : noBS s) : removeEscStar s = s :=
  replaceSub_id (containsSub_skip_none h)

theorem collapseBeforeF_id {mark : Char} :
    ∀ {fuel : Nat} {s : Str}, noBS s → collapseBeforeF mark fuel s = s := by
  intro fuel
  induction fuel with
  | zero => intro s _; rfl
  | succ f ih =>
    intro s h
    rw [collapseBeforeF]
    cases s with
    | nil => rfl
    | cons c r =>
      have hc : c ≠ '\\' := h c (by simp)
      rw [collapseStep_cons_ne hc, ih (fun x hx => h x (by simp [hx]))]

theorem collapseBefore_id {mark : Char} {s : Str} (h : noBS s) :
    collapseBefore mark s = s := collapseBeforeF_id h

theorem lineStep4_id {l : Str} (h : noBS l) : lineStep4 l = l := by
  rw [lineStep4]
  split
  · next rest heq =>
    exfalso
    have h3 : '\\' ∈ (l.dropWhile isWsC).dropWhile isDigitC := by rw [heq]; simp
    have h2 : '\\' ∈ l.dropWhile isWsC := (List.dropWhile_sublist _).subset h3
    have h1 : '\\' ∈ l := (List.dropWhile_sublist _).subset h2
    exact h '\\' h1 rfl
  · rfl

theorem lineStep5_id {l : Str} (h : noBS l) : lineStep5 l = l := by
  rw [lineStep5]
  split
  · rfl
  · dsimp only
    split
    · rfl
    · split
      · rfl
      · split
        · next rest heq =>
          exfalso
          have h3 : '\\' ∈ ((l.dropWhile (· == '#')).dropWhile isWsC).dropWhile isDigitC := by
            rw [heq]; simp
          have h2 : '\\' ∈ (l.dropWhile (· == '#')).dropWhile isWsC :=
            (List.dropWhile_sublist _).subset h3
          have h1 : '\\' ∈ l.dropWhile (· == '#') := (List.dropWhile_sublist _).subset h2
          exact h '\\' ((List.dropWhile_sublist _).subset h1) rfl
        · rfl

theorem splitNl_ne_nil (s : Str) : splitNl s ≠ [] := by
  induction s with
  | nil => simp [splitNl]
  | cons c r ih =>
    rw [splitNl.eq_def]
    split
    · simp
    · simp
    · next c' r' hne heq =>
      injection heq with h1 h2
      subst h1; subst h2
      cases hsp : splitNl r with
      | nil => exact absurd hsp ih
      | cons l ls => simp

theorem splitNl_cons_ne {c : Char} {r : Str} (h : c ≠ '\n') :
    splitNl (c :: r) = (c :: (splitNl r).headI) :: (splitNl r).tail := by
  rw [splitNl.eq_def]
  split
  · next heq => exact absurd heq (by simp)
  · next r' heq =>
    injection heq with h1 _
    exact absurd h1 h
  · next c' r' hne heq =>
    injection heq with h1 h2
    subst h1; subst h2
    cases hsp : splitNl r with
    | nil => exact absurd hsp (splitNl_ne_nil r)
    | cons l ls => simp

theorem joinNl_cons {l : Str} {ls : List Str} (h : ls ≠ []) :
    joinNl (l :: ls) = l ++ '\n' :: joinNl ls := by
  cases ls with
  | nil => exact absurd rfl h
  | cons a as => rfl

theorem joinNl_splitNl (s : Str) : joinNl (splitNl s) = s := by
  induction s with
  | nil => rfl
  | cons c r ih =>
    by_cases hc : c = '\n'
    · subst hc
      rw [show splitNl ('\n' :: r) = [] :: splitNl r from rfl]
      rw [joinNl_cons (splitNl_ne_nil r), ih]
      simp
    · rw [splitNl_cons_ne hc]
      rcases hsp : splitNl r with _ | ⟨l, ls⟩
      · exact absurd hsp (splitNl_ne_nil r)
      · rw [hsp] at ih
        cases ls with
        | nil =>
          simp only [List.headI, List.tail]
          have hl : l = r := ih
          rw [show joinNl [c :: l] = c :: l from rfl, hl]
        | cons l2 ls2 =>
          rw [joinNl_cons (by simp)] at ih
          simp only [List.headI, List.tail]
          rw [joinNl_cons (by simp), List.cons_append, ih]

theorem noBS_preserved_splitNl {s : Str} (h : noBS s) : ∀ l ∈ splitNl s, noBS l := by
  induction s with
  | nil =>
    intro l hl
    rw [show splitNl [] = [[]] from rfl] at hl
    simp at hl
    simp [hl, noBS]
  | cons c r ih =>
    have hr : noBS r := fun x hx => h x (by simp [hx])
    by_cases hc : c = '\n'
    · subst hc
      intro l hl
      rw [show splitNl ('\n' :: r) = [] :: splitNl r from rfl] at hl
      rcases List.mem_cons.mp hl with rfl | hl'
      · simp [noBS]
      · exact ih hr l hl'
    · intro l hl
      rw [splitNl_cons_ne hc] at hl
      rcases List.mem_cons.mp hl with rfl | hl'
      · intro x hx
        rcases List.mem_cons.mp hx with rfl | hx'
        · exact h x (by simp)
        · rcases hsp : splitNl r with _ | ⟨l0, ls0⟩
          · exact absurd hsp (splitNl_ne_nil r)
          · rw [hsp] at hx'
            exact ih hr l0 (by simp [hsp]) x (by simpa using hx')
      · rcases hsp : splitNl r with _ | ⟨l0, ls0⟩
        · exact absurd hsp (splitNl_ne_nil r)
        · rw [hsp] at hl'
          exact ih hr l (by rw [hsp]; exact List.mem_cons_of_mem l0 (by simpa using hl'))

theorem map_id_of_forall {α : Type _} {f : α → α} {xs : List α}
    (h : ∀ x ∈ xs, f x = x) : xs.map f = xs := by
  induction xs with
  | nil => rfl
  | cons x r ih =>
    rw [List.map_cons, h x (by simp), ih (fun y hy => h y (by simp [hy]))]

theorem fencedPassF_id : ∀ {fuel : Nat} {s : Str}, noBS s → fencedPassF fuel s = s := by
  intro fuel
  induction fuel with
  | zero => intro s _; rfl
  | succ f ih =>
    intro s h
    rw [fencedPassF]
    rcases h1 : splitSub ['`', '`', '`'] s with _ | ⟨pre, rest⟩
    · rfl
    · dsimp only
      rcases h2 : splitSub ['\n'] rest with _ | ⟨lineRest, afterNl⟩
      · rfl
      · dsimp only
        rcases h3 : splitSub ['`', '`', '`'] afterNl with _ | ⟨mid, rest2⟩
        · rfl
        · dsimp only
          have hx := splitSub_eq h1
          have hr := splitSub_eq h2
          have ha := splitSub_eq h3
          rw [hx] at h
          have hrest : noBS rest := noBS_of_append_right h
          rw [hr] at hrest
          have hafter : noBS afterNl := noBS_of_append_right hrest
          rw [ha] at hafter
          have hmid : noBS mid := noBS_of_append_left (noBS_of_append_left hafter)
          have hrest2 : noBS rest2 := noBS_of_append_right hafter
          rw [removeEscStar_id hmid, ih hrest2, hx, hr, ha]
          simp

theorem fencedPass_id {s : Str} (h : noBS s) : fencedPass s = s := fencedPassF_id h

theorem inlinePassF_id : ∀ {fuel : Nat} {s : Str}, noBS s → inlinePassF fuel s = s := by
  intro fuel
  induction fuel with
  | zero => intro s _; rfl
  | succ f ih =>
    intro s h
    rw [inlinePassF]
    rcases h1 : splitSub ['`'] s with _ | ⟨pre, rest⟩
    · rfl
    · dsimp only
      rcases h2 : splitSub ['`'] rest with _ | ⟨sp, rest2⟩
      · rfl
      · dsimp only
        have hx := splitSub_eq h1
        have hr := splitSub_eq h2
        rw [hx] at h
        have hrest : noBS rest := noBS_of_append_right h
        rw [hr] at hrest
        have hsp : noBS sp := noBS_of_append_left (noBS_of_append_left hrest)
        have hrest2 : noBS rest2 := noBS_of_append_right hrest
        rw [removeEscStar_id hsp, ih hrest2, hx, hr]
        simp

theorem inlinePass_id {s : Str} (h : noBS s) : inlinePass s = s := inlinePassF_id h

/-- Shared identity: the escaping normalizer does not change an input that
contains no backslash at all. -/
theorem unescape_id_of_noBS {s : Str} (h : noBS s) :
    unescapeMarkdownUnderscores s = s := by
  rw [unescapeMarkdownUnderscores]
  rw [unescUnd_id h, collapseBefore_id h, collapseBefore_id h]
  have h4 : (splitNl s).map lineStep4 = splitNl s :=
    map_id_of_forall (fun l hl => lineStep4_id (noBS_preserved_splitNl h l hl))
  rw [h4, joinNl_splitNl]
  have h5 : (splitNl s).map lineStep5 = splitNl s :=
    map_id_of_forall (fun l hl => lineStep5_id (noBS_preserved_splitNl h l hl))
  rw [h5, joinNl_splitNl]
  rw [unescapeAsterisksInsideCode, fencedPass_id h, inlinePass_id h]

/-- Counterexample to claim C3 as stated. The claim says every escape
sequence inside an inline code span or fenced block is left unchanged by
`unescapeMarkdownUnderscores` and that code-region content of the output
equals that of the input. For the input consisting of the single inline
code span `` `\_` `` the normalizer's step 1 (`/\\_/g` → `_`) fires inside
the span, so the span's content changes from `\_` to `_`. -/
theorem C3_counterexample :
    inlineCodeSpans (unescapeMarkdownUnderscores ['`', '\\', '_', '`']) ≠
      inlineCodeSpans ['`', '\\', '_', '`'] := by decide

/-- Claim C3, amended: escaping inside code regions is not in general left
untouched (escaped underscores are stripped everywhere, including inside
code spans and fenced blocks, and escapes before asterisks inside code
regions are deliberately removed by `unescapeAsterisksInsideCode`); the
code-region content is preserved exactly when the input contains no
backslash escape at all, in which case the whole normalizer is the
identity. -/
theorem C3_amended_normalizer_id_on_escape_free (s : Str) (h : noBS s) :
    unescapeMarkdownUnderscores s = s := unescape_id_of_noBS h

/-- Witness for the amended claim C3 at the concrete input `` `a*b` ``. -/
theorem C3_amended_normalizer_id_on_escape_free_witness :
    noBS ['`', 'a', '*', 'b', '`'] ∧
      unescapeMarkdownUnderscores ['`', 'a', '*', 'b', '`'] = ['`', 'a', '*', 'b', '`'] :=
  ⟨by decide, C3_amended_normalizer_id_on_escape_free ['`', 'a', '*', 'b', '`'] (by decide)⟩

/-- Counterexample to claim C2 as stated. The claim says the normalizer is
idempotent on every input. On two backslashes followed by an underscore,
the first application removes one escape (step 1) leaving `\_`, and the
second application removes the remaining escape, so applying twice differs
from applying once. -/
theorem C2_counterexample :
    unescapeMarkdownUnderscores (unescapeMarkdownUnderscores ['\\', '\\', '_']) ≠
      unescapeMarkdownUnderscores ['\\', '\\', '_'] := by decide

theorem replaceFirstById_none_iff {nid : Str} {newNode : DomNode} {doc : List DomNode} :
    replaceFirstById nid newNode doc = none ↔ ∀ n ∈ doc, n.nodeId ≠ some nid := by
  induction doc with
  | nil => simp [replaceFirstById]
  | cons n rest ih =>
    by_cases hn : n.nodeId = some nid
    · simp [replaceFirstById, hn]
    · simp [replaceFirstById, hn, ih]

theorem replaceFirstById_length {nid : Str} {newNode : DomNode} {doc doc2 : List DomNode}
    (h : replaceFirstById nid newNode doc = some doc2) : doc2.length = doc.length := by
  induction doc generalizing doc2 with
  | nil => simp [replaceFirstById] at h
  | cons n rest ih =>
    by_cases hn : n.nodeId = some nid
    · rw [replaceFirstById, if_pos hn] at h
      cases h
      simp
    · rw [replaceFirstById, if_neg hn] at h
      simp only [Option.map_eq_some'] at h
      obtain ⟨d, hd, rfl⟩ := h
      simp [ih hd]

/-- What each position holds after a first-match replacement: either the
original entry, or the replaced entry, which in the pre-state bore the
requested identifier. -/
theorem replaceFirstById_get {nid : Str} {newNode : DomNode} {doc doc2 : List DomNode}
    (h : replaceFirstById nid newNode doc = some doc2) (i : Nat) :
    doc2.get? i = doc.get? i ∨
      (∃ n, doc.get? i = some n ∧ n.nodeId = some nid ∧ doc2.get? i = some newNode) := by
  induction doc generalizing doc2 i with
  | nil => simp [replaceFirstById] at h
  | cons n rest ih =>
    by_cases hn : n.nodeId = some nid
    · rw [replaceFirstById, if_pos hn] at h
      cases h
      cases i with
      | zero => exact Or.inr ⟨n, by simp, hn, by simp⟩
      | succ j => exact Or.inl (by simp)
    · rw [replaceFirstById, if_neg hn] at h
      simp only [Option.map_eq_some'] at h
      obtain ⟨d, hd, rfl⟩ := h
      cases i with
      | zero => exact Or.inl (by simp)
      | succ j =>
        rcases ih hd j with hj | ⟨m, hm1, hm2, hm3⟩
        · exact Or.inl (by simpa using hj)
        · exact Or.inr ⟨m, by simpa using hm1, hm2, by simpa using hm3⟩

/-- Nodes of the post-state of a first-match replacement come from the
pre-state or are the inserted node. -/
theorem replaceFirstById_mem {nid : Str} {newNode : DomNode} {doc doc2 : List DomNode}
    (h : replaceFirstById nid newNode doc = some doc2) :
    ∀ m ∈ doc2, m ∈ doc ∨ m = newNode := by
  induction doc generalizing doc2 with
  | nil => simp [replaceFirstById] at h
  | cons n rest ih =>
    by_cases hn : n.nodeId = some nid
    · rw [replaceFirstById, if_pos hn] at h
      cases h
      intro m hm
      rcases List.mem_cons.mp hm with rfl | hm'
      · exact Or.inr rfl
      · exact Or.inl (List.mem_cons_of_mem n hm')
    · rw [replaceFirstById, if_neg hn] at h
      simp only [Option.map_eq_some'] at h
      obtain ⟨d, hd, rfl⟩ := h
      intro m hm
      rcases List.mem_cons.mp hm with rfl | hm'
      · exact Or.inl (List.mem_cons_self m rest)
      · rcases ih hd m hm' with hmem | rfl
        · exact Or.inl (List.mem_cons_of_mem n hmem)
        · exact Or.inr rfl

/-- Workhorse invariant for the partial-update routine: with pairwise
distinct requested identifiers, if every position of `doc0` that bears a
still-pending identifier is untouched in the current document `doc`, and
every pending identifier has a bearer in `doc0`, then the run reports
nothing missing, preserves the length, and changes only positions whose
current node bears a requested identifier. -/
theorem replaceNodesById_invariant (parseFirst : Str → DomNode) :
    ∀ (repl : List (Str × Str)) (doc0 doc : List DomNode),
      (repl.map Prod.fst).Nodup →
      (∀ p ∈ repl, ∀ i n, doc0.get? i = some n → n.nodeId = some p.1 → doc.get? i = some n) →
      (∀ p ∈ repl, ∃ n ∈ doc0, n.nodeId = some p.1) →
      (replaceNodesById parseFirst repl doc).2 = [] ∧
      (replaceNodesById parseFirst repl doc).1.length = doc.length ∧
      ∀ i, (replaceNodesById parseFirst repl doc).1.get? i = doc.get? i ∨
        ∃ n k, doc.get? i = some n ∧ n.nodeId = some k ∧ k ∈ repl.map Prod.fst := by
  intro repl
  induction repl with
  | nil =>
    intro doc0 doc _ _ _
    exact ⟨rfl, rfl, fun i => Or.inl rfl⟩
  | cons p rest ih =>
    intro doc0 doc hnd hpend hpres
    obtain ⟨k, hhtml⟩ := p
    obtain ⟨n0, hn0mem, hn0id⟩ := hpres (k, hhtml) (by simp)
    obtain ⟨i0, hi0⟩ := List.get?_of_mem hn0mem
    have hbear : doc.get? i0 = some n0 := hpend (k, hhtml) (by simp) i0 n0 hi0 hn0id
    have hfound : replaceFirstById k (parseFirst hhtml) doc ≠ none := by
      intro hnone
      exact (replaceFirstById_none_iff.mp hnone) n0 (List.get?_mem hbear) hn0id
    rcases hsome : replaceFirstById k (parseFirst hhtml) doc with _ | doc2
    · exact absurd hsome hfound
    · have hnd2 : k ∉ rest.map Prod.fst ∧ (rest.map Prod.fst).Nodup := by
        rw [List.map_cons] at hnd
        exact List.nodup_cons.mp hnd
      have hndr : (rest.map Prod.fst).Nodup := hnd2.2
      have hknot : k ∉ rest.map Prod.fst := hnd2.1
      have hpend2 : ∀ q ∈ rest, ∀ i n, doc0.get? i = some n → n.nodeId = some q.1 →
          doc2.get? i = some n := by
        intro q hq i n hi hid
        have hdoc : doc.get? i = some n := hpend q (by simp [hq]) i n hi hid
        rcases replaceFirstById_get hsome i with heq | ⟨m, hm1, hm2, _⟩
        · rw [heq, hdoc]
        · exfalso
          rw [hdoc] at hm1
          injection hm1 with hm
          rw [← hm] at hm2
          rw [hid] at hm2
          injection hm2 with hk
          exact hknot (hk ▸ List.mem_map_of_mem Prod.fst hq)
      have hpres2 : ∀ q ∈ rest, ∃ n ∈ doc0, n.nodeId = some q.1 :=
        fun q hq => hpres q (by simp [hq])
      obtain ⟨hmiss, hlen, hiso⟩ := ih doc0 doc2 hndr hpend2 hpres2
      rw [replaceNodesById]
      rw [hsome]
      refine ⟨hmiss, ?_, ?_⟩
      · rw [hlen, replaceFirstById_length hsome]
      · intro i
        rcases hiso i with heq | ⟨n, k2, hget, hid, hk2⟩
        · rcases replaceFirstById_get hsome i with heq2 | ⟨m, hm1, hm2, hm3⟩
          · exact Or.inl (heq.trans heq2)
          · exact Or.inr ⟨m, k, hm1, hm2, by simp⟩
        · rcases replaceFirstById_get hsome i with heq2 | ⟨m, hm1, hm2, _⟩
          · exact Or.inr ⟨n, k2, heq2 ▸ hget, hid, by simp [hk2]⟩
          · exact Or.inr ⟨m, k, hm1, hm2, by simp⟩

/-- Claim C6 (confirmed): partial-update isolation. For every document with
identified top-level nodes and every replacement map with pairwise distinct
identifiers all of which occur in the document, `replaceNodesById` reports
nothing missing, keeps the number of top-level nodes, and leaves every
position whose node does not bear a requested identifier — including that
node's `data-node-id` — unchanged. `parseFirst` abstracts parsing of the
replacement fragment (`placeholder.firstChild`); the conclusion holds for
every such parser. -/
theorem C6_partial_update_isolation (parseFirst : Str → DomNode)
    (doc : List DomNode) (repl : List (Str × Str))
    (hnd : (repl.map Prod.fst).Nodup)
    (hkeys : ∀ p ∈ repl, ∃ n ∈ doc, n.nodeId = some p.1) :
    (replaceNodesById parseFirst repl doc).2 = [] ∧
    (replaceNodesById parseFirst repl doc).1.length = doc.length ∧
    ∀ i, (∀ n, doc.get? i = some n → ∀ k, n.nodeId = some k → k ∉ repl.map Prod.fst) →
      (replaceNodesById parseFirst repl doc).1.get? i = doc.get? i := by
  obtain ⟨hmiss, hlen, hiso⟩ :=
    replaceNodesById_invariant parseFirst repl doc doc hnd
      (fun _ _ _ _ hi _ => hi) hkeys
  refine ⟨hmiss, hlen, ?_⟩
  intro i hfree
  rcases hiso i with heq | ⟨n, k, hget, hid, hk⟩
  · exact heq
  · exact absurd hk (hfree n hget k hid)

/-- Witness for claim C6: a two-node document where only `"a"` is replaced;
node `"b"` is untouched and nothing is missing. -/
theorem C6_partial_update_isolation_witness :
    ((List.map Prod.fst [(['a'], ['x'])]).Nodup ∧
      ∀ p ∈ [((['a'], ['x']) : Str × Str)],
        ∃ n ∈ [DomNode.mk (some ['a']) ['1'], DomNode.mk (some ['b']) ['2']],
          n.nodeId = some p.1) ∧
    ((replaceNodesById (fun h => DomNode.mk none h) [(['a'], ['x'])]
        [DomNode.mk (some ['a']) ['1'], DomNode.mk (some ['b']) ['2']]).2 = [] ∧
      (replaceNodesById (fun h => DomNode.mk none h) [(['a'], ['x'])]
        [DomNode.mk (some ['a']) ['1'], DomNode.mk (some ['b']) ['2']]).1.length = 2 ∧
      ∀ i, (∀ n, ([DomNode.mk (some ['a']) ['1'], DomNode.mk (some ['b']) ['2']].get? i) = some n →
          ∀ k, n.nodeId = some k → k ∉ List.map Prod.fst [(['a'], ['x'])]) →
        (replaceNodesById (fun h => DomNode.mk none h) [(['a'], ['x'])]
          [DomNode.mk (some ['a']) ['1'], DomNode.mk (some ['b']) ['2']]).1.get? i =
          [DomNode.mk (some ['a']) ['1'], DomNode.mk (some ['b']) ['2']].get? i) :=
  ⟨⟨by decide, by decide⟩,
    C6_partial_update_isolation (fun h => DomNode.mk none h) _ _ (by decide) (by decide)⟩

/-- Absent identifiers land in `missing`: when spliced-in nodes never carry
a `data-node-id` (the converter never invents identifiers), an identifier
with no bearer in the document is reported missing, whatever else the map
contains. -/
theorem replaceNodesById_absent_mem_missing (parseFirst : Str → DomNode)
    (hpf : ∀ h, (parseFirst h).nodeId = none) :
    ∀ (repl : List (Str × Str)) (doc : List DomNode),
      ∀ p ∈ repl, (∀ n ∈ doc, n.nodeId ≠ some p.1) →
        p.1 ∈ (replaceNodesById parseFirst repl doc).2 := by
  intro repl
  induction repl with
  | nil => intro doc p hp; simp at hp
  | cons q rest ih =>
    intro doc p hp habs
    obtain ⟨k, hhtml⟩ := q
    rw [replaceNodesById]
    rcases List.mem_cons.mp hp with rfl | hp'
    · have hnone : replaceFirstById k (parseFirst hhtml) doc = none :=
        replaceFirstById_none_iff.mpr habs
      rw [hnone]
      simp
    · rcases hsome : replaceFirstById k (parseFirst hhtml) doc with _ | doc2
      · dsimp only
        exact List.mem_cons_of_mem k (ih doc p hp' habs)
      · dsimp only
        have habs2 : ∀ n ∈ doc2, n.nodeId ≠ some p.1 := by
          intro n hn
          rcases replaceFirstById_mem hsome n hn with hmem | rfl
          · exact habs n hmem
          · rw [hpf hhtml]; simp
        exact ih doc2 p hp' habs2

/-- When every requested identifier is absent, the run returns the document
unchanged and reports exactly the requested identifiers. -/
theorem replaceNodesById_all_absent (parseFirst : Str → DomNode) :
    ∀ (repl : List (Str × Str)) (doc : List DomNode),
      (∀ p ∈ repl, ∀ n ∈ doc, n.nodeId ≠ some p.1) →
      replaceNodesById parseFirst repl doc = (doc, repl.map Prod.fst) := by
  intro repl
  induction repl with
  | nil => intro doc _; rfl
  | cons q rest ih =>
    intro doc habs
    obtain ⟨k, hhtml⟩ := q
    rw [replaceNodesById]
    have hnone : replaceFirstById k (parseFirst hhtml) doc = none :=
      replaceFirstById_none_iff.mpr (habs (k, hhtml) (by simp))
    rw [hnone]
    rw [ih doc (fun p hp => habs p (by simp [hp]))]
    simp

/-- Claim C7 (confirmed): missing-identifier reporting and atomicity. The
routine is total (no error is raised on a lookup miss). Provided spliced
fragments carry no `data-node-id` — the converter never invents identifiers
— every requested identifier with no bearer in the document is returned in
`missing`; and when every requested identifier is absent, the returned
document is the input document unmodified and `missing` lists exactly the
requested identifiers. -/
theorem C7_missing_identifier_reporting (parseFirst : Str → DomNode)
    (doc : List DomNode) (repl : List (Str × Str))
    (hpf : ∀ h, (parseFirst h).nodeId = none) :
    (∀ p ∈ repl, (∀ n ∈ doc, n.nodeId ≠ some p.1) →
      p.1 ∈ (replaceNodesById parseFirst repl doc).2) ∧
    ((∀ p ∈ repl, ∀ n ∈ doc, n.nodeId ≠ some p.1) →
      replaceNodesById parseFirst repl doc = (doc, repl.map Prod.fst)) :=
  ⟨fun p hp habs => replaceNodesById_absent_mem_missing parseFirst hpf repl doc p hp habs,
   fun habs => replaceNodesById_all_absent parseFirst repl doc habs⟩

/-- Witness for claim C7: requesting the absent identifier `"z"` on a
one-node document reports it missing and leaves the document unchanged. -/
theorem C7_missing_identifier_reporting_witness :
    (∀ h, ((fun h => DomNode.mk none h) h).nodeId = none) ∧
    ((∀ p ∈ [((['z'], ['x']) : Str × Str)],
        (∀ n ∈ [DomNode.mk (some ['a']) ['1']], n.nodeId ≠ some p.1) →
        p.1 ∈ (replaceNodesById (fun h => DomNode.mk none h) [(['z'], ['x'])]
          [DomNode.mk (some ['a']) ['1']]).2) ∧
      ((∀ p ∈ [((['z'], ['x']) : Str × Str)],
          ∀ n ∈ [DomNode.mk (some ['a']) ['1']], n.nodeId ≠ some p.1) →
        replaceNodesById (fun h => DomNode.mk none h) [(['z'], ['x'])]
          [DomNode.mk (some ['a']) ['1']] =
          ([DomNode.mk (some ['a']) ['1']], [['z']]))) :=
  ⟨fun _ => rfl,
   C7_missing_identifier_reporting (fun h => DomNode.mk none h)
     [DomNode.mk (some ['a']) ['1']] [(['z'], ['x'])] (fun _ => rfl)⟩

theorem le_listMax_base (n : Nat) (xs : List Nat) : n ≤ listMax n xs := by
  induction xs generalizing n with
  | nil => exact le_refl n
  | cons x r ih => exact le_trans (Nat.le_max_left n x) (ih (max n x))

theorem le_listMax_mem {x : Nat} {xs : List Nat} (n : Nat) (h : x ∈ xs) :
    x ≤ listMax n xs := by
  induction xs generalizing n with
  | nil => simp at h
  | cons y r ih =>
    rcases List.mem_cons.mp h with rfl | h'
    · exact le_trans (Nat.le_max_right n x) (le_listMax_base (max n x) r)
    · exact ih (max n y) h'

/-- Claim C4 (confirmed): table rectangularity in both directions. Rendering
a nonempty cell matrix yields rows — header, separator and body — that all
have the maximal input row length; and the reverse parser's normalized
header and body rows all have the column count, which is the maximum cell
count over the header and body input rows. -/
theorem C4_table_rectangularity (matrix : List (List Str)) (header : Str)
    (rest : List Str) (hne : matrix ≠ []) :
    (∀ row ∈ renderTableRows matrix, row.length = listMax 0 (matrix.map List.length)) ∧
    ((consumeTableCells header rest).1.length = tableColCount header rest ∧
      ∀ r ∈ (consumeTableCells header rest).2, r.length = tableColCount header rest) := by
  constructor
  · intro row hrow
    rcases matrix with _ | ⟨first, restm⟩
    · exact absurd rfl hne
    · rw [renderTableRows] at hrow
      rcases List.mem_cons.mp hrow with rfl | hrow2
      · have hle : first.length ≤ listMax 0 ((first :: restm).map List.length) :=
          le_listMax_mem 0 (by simp)
        simp only [List.length_append, List.length_replicate]
        omega
      · rcases List.mem_cons.mp hrow2 with rfl | hrow3
        · simp
        · obtain ⟨r, hr, rfl⟩ := List.mem_map.mp hrow3
          have hle : r.length ≤ listMax 0 ((first :: restm).map List.length) :=
            le_listMax_mem 0 (by simp; exact Or.inr ⟨r, hr, rfl⟩)
          simp only [List.length_append, List.length_replicate]
          omega
  · constructor
    · rw [consumeTableCells]
      have hle : (splitRow header).length ≤ tableColCount header rest :=
        le_listMax_base _ _
      simp only [List.length_append, List.length_replicate]
      omega
    · intro r hr
      rw [consumeTableCells] at hr
      dsimp only at hr
      obtain ⟨r0, hr0, rfl⟩ := List.mem_map.mp hr
      obtain ⟨l, hl, rfl⟩ := List.mem_map.mp hr0
      have hle : (splitRow l).length ≤ tableColCount header rest :=
        le_listMax_mem _ (List.mem_map_of_mem _ hl)
      simp only [List.length_append, List.length_replicate]
      omega

/-- Witness for claim C4 at a ragged two-row matrix and a ragged two-line
table body. -/
theorem C4_table_rectangularity_witness :
    ([[['a']], [['b'], ['c']]] : List (List Str)) ≠ [] ∧
    ((∀ row ∈ renderTableRows [[['a']], [['b'], ['c']]],
        row.length = listMax 0 (([[['a']], [['b'], ['c']]] : List (List Str)).map List.length)) ∧
      ((consumeTableCells ['|', 'h', '|'] [['|', 'x', '|', 'y', '|']]).1.length =
          tableColCount ['|', 'h', '|'] [['|', 'x', '|', 'y', '|']] ∧
        ∀ r ∈ (consumeTableCells ['|', 'h', '|'] [['|', 'x', '|', 'y', '|']]).2,
          r.length = tableColCount ['|', 'h', '|'] [['|', 'x', '|', 'y', '|']])) :=
  ⟨by decide,
   C4_table_rectangularity [[['a']], [['b'], ['c']]] ['|', 'h', '|']
     [['|', 'x', '|', 'y', '|']] (by decide)⟩

theorem scanRewriteF_nil (step : Str → Option (Str × Str)) (fuel : Nat) :
    scanRewriteF step fuel [] = [] := by
  cases fuel <;> rfl

theorem scanRewriteF_congr {step : Str → Option (Str × Str)} (hc : Consuming step) :
    ∀ {f1 : Nat} {s : Str} {f2 : Nat}, s.length ≤ f1 → s.length ≤ f2 →
      scanRewriteF step f1 s = scanRewriteF step f2 s := by
  intro f1
  induction f1 with
  | zero =>
    intro s f2 h1 _
    have : s = [] := List.length_eq_zero.mp (Nat.le_zero.mp h1)
    subst this
    rw [scanRewriteF_nil, scanRewriteF_nil]
  | succ f ih =>
    intro s f2 h1 h2
    cases s with
    | nil => rw [scanRewriteF_nil, scanRewriteF_nil]
    | cons c r =>
      cases f2 with
      | zero => simp at h2
      | succ f2' =>
        rw [scanRewriteF, scanRewriteF]
        rcases hs : step (c :: r) with _ | ⟨out, rest⟩
        · dsimp only
          have hl : r.length ≤ f := by simp at h1; omega
          have hl2 : r.length ≤ f2' := by simp at h2; omega
          rw [ih hl hl2]
        · dsimp only
          have hlen := hc _ _ _ hs
          have hl : rest.length ≤ f := by simp at h1 hlen; omega
          have hl2 : rest.length ≤ f2' := by simp at h2 hlen; omega
          rw [ih hl hl2]

theorem scanRewrite_nil (step : Str → Option (Str × Str)) : scanRewrite step [] = [] := rfl

/-- One-step unfolding of `scanRewrite` on a nonempty input. -/
theorem scanRewrite_cons {step : Str → Option (Str × Str)} (hc : Consuming step)
    (c : Char) (r : Str) :
    scanRewrite step (c :: r) =
      match step (c :: r) with
      | some (out, rest) => out ++ scanRewrite step rest
      | none => c :: scanRewrite step r := by
  rw [scanRewrite, show ((c :: r : Str)).length = r.length + 1 from rfl, scanRewriteF]
  rcases hs : step (c :: r) with _ | ⟨out, rest⟩
  · dsimp only
    rw [scanRewrite]
  · dsimp only
    have hlen := hc _ _ _ hs
    rw [scanRewrite, scanRewriteF_congr hc (by simp at hlen ⊢; omega) (le_refl _)]

/-- A scanner whose matcher never fires is the identity. -/
theorem scanRewrite_id {step : Str → Option (Str × Str)} (hc : Consuming step)
    {s : Str} (h : ∀ a b : Str, s = a ++ b → step b = none) :
    scanRewrite step s = s := by
  induction s with
  | nil => rfl
  | cons c r ih =>
    rw [scanRewrite_cons hc, h [] (c :: r) rfl]
    dsimp only
    rw [ih (fun a b hab => h (c :: a) b (by simp [hab]))]

/-- Skip lemma: a scanner whose matcher only fires on strings beginning
with a gate character passes over a gate-free region unchanged. -/
theorem scanRewrite_skip {step : Str → Option (Str × Str)} (hc : Consuming step)
    {gate : Char → Prop}
    (hg : ∀ t, (step t).isSome → ∃ x, t.head? = some x ∧ gate x)
    {a s : Str} (ha : ∀ x ∈ a, ¬gate x) :
    scanRewrite step (a ++ s) = a ++ scanRewrite step s := by
  induction a with
  | nil => simp
  | cons c a2 ih =>
    rw [List.cons_append, scanRewrite_cons hc]
    rcases hs : step (c :: (a2 ++ s)) with _ | ⟨out, rest⟩
    · dsimp only
      rw [ih (fun x hx => ha x (by simp [hx]))]
      simp
    · exfalso
      obtain ⟨x, hx1, hx2⟩ := hg _ (by rw [hs]; rfl)
      simp at hx1
      exact ha c (by simp) (hx1 ▸ hx2)

set_option maxRecDepth 10000 in
/-- Claim C9 (refuted as stated): converting the portable-text table
`| A |` / `| --- |` / `| x <!-- cell:bg:red --> |` back to storage does
NOT produce a red background-colour parameter — the emitted table carries
no `bgColor` parameter at all: `cellHtml` deliberately preserves the
styling comment verbatim instead of translating it into an
`ac:parameter`. -/
theorem C9_counterexample :
    containsSub "bgColor".toList
      (markdownToStorageHtml "| A |\n| --- |\n| x <!-- cell:bg:red --> |".toList) = false ∧
    containsSub "ac:parameter".toList
      (markdownToStorageHtml "| A |\n| --- |\n| x <!-- cell:bg:red --> |".toList) = false := by
  constructor <;> decide

set_option maxRecDepth 10000 in
/-- Claim C9 (amended): what the back-conversion actually produces for the
spec's concrete table — the data cell keeps the `<!-- cell:bg:red -->`
styling comment byte-for-byte inside the cell paragraph, so the styling
round-trips as a durable comment rather than as a `bgColor` parameter. -/
theorem C9_amended_cell_comment_preserved :
    markdownToStorageHtml "| A |\n| --- |\n| x <!-- cell:bg:red --> |".toList =
      ("<table><thead><tr><th><p>A</p></th></tr></thead>" ++
       "<tbody><tr><td><p>x <!-- cell:bg:red --></p></td></tr></tbody></table>").toList := by
  decide

theorem isJsWs_eq_false_of_isLangC (c : Char) (h : isLangC c = true) : isJsWs c = false := by
  rcases hw : isJsWs c
  · rfl
  · exfalso
    simp [isJsWs] at hw
    rcases hw with ((rfl | rfl) | rfl) | rfl <;> exact absurd h (by decide)

theorem dropWhile_eq_self_of (p : α → Bool) (s : List α) (h : ∀ c ∈ s, p c = false) :
    s.dropWhile p = s := by
  cases s with
  | nil => rfl
  | cons a r => rw [List.dropWhile_cons, h a (by simp)]; simp

theorem trimL_eq_self (s : Str) (h : ∀ c ∈ s, isJsWs c = false) : trimL s = s := by
  rw [trimL, dropWhile_eq_self_of _ _ h,
    dropWhile_eq_self_of _ _ (fun c hc => h c (List.mem_reverse.mp hc)), List.reverse_reverse]

theorem takeWhile_append_of_all (p : α → Bool) (a b : List α) (h : ∀ x ∈ a, p x = true) :
    (a ++ b).takeWhile p = a ++ b.takeWhile p := by
  induction a with
  | nil => rfl
  | cons x r ih =>
    rw [List.cons_append, List.takeWhile_cons, h x (by simp)]
    simp [ih (fun y hy => h y (by simp [hy]))]

theorem dropWhile_append_of_all (p : α → Bool) (a b : List α) (h : ∀ x ∈ a, p x = true) :
    (a ++ b).dropWhile p = b.dropWhile p := by
  induction a with
  | nil => rfl
  | cons x r ih =>
    rw [List.cons_append, List.dropWhile_cons, h x (by simp)]
    simpa using ih (fun y hy => h y (by simp [hy]))

theorem takeWhile_eq_self_of (p : α → Bool) (s : List α) (h : ∀ c ∈ s, p c = true) :
    s.takeWhile p = s := by
  induction s with
  | nil => rfl
  | cons a r ih =>
    rw [List.takeWhile_cons, h a (by simp)]
    simp [ih (fun y hy => h y (by simp [hy]))]

/-- The fenced-code iteration of the line loop: a fence line with a
well-formed language tag, followed by body lines none of which is a
closing fence, then a closing fence, emits exactly the code macro for the
joined body and resumes after the closing fence. -/
theorem mdStep_fence (lang : Str) (body rest : List Str)
    (hlang : ∀ c ∈ lang, isLangC c = true)
    (hbody : ∀ l ∈ body, isCloseFence l = false) :
    mdStep ('`' :: '`' :: '`' :: lang) (body ++ "```".toList :: rest) =
      ([codeMacro lang (List.intercalate ['\n'] body)], rest) := by
  have hnw : ∀ c ∈ ('`' :: '`' :: '`' :: lang : Str), isJsWs c = false := by
    intro c hc
    rcases List.mem_cons.mp hc with rfl | hc
    · decide
    rcases List.mem_cons.mp hc with rfl | hc
    · decide
    rcases List.mem_cons.mp hc with rfl | hc
    · decide
    exact isJsWs_eq_false_of_isLangC c (hlang c hc)
  have hbt : isJsWs '`' = false := by decide
  have hblank : isBlankL ('`' :: '`' :: '`' :: lang) = false := by
    simp [isBlankL, List.all_cons, hbt]
  have htrim : trimL ('`' :: '`' :: '`' :: lang) = '`' :: '`' :: '`' :: lang :=
    trimL_eq_self _ hnw
  have hcl : ("<!--".toList : Str) = '<' :: "!--".toList := rfl
  have hbw : beginsWith "<!--".toList ('`' :: '`' :: '`' :: lang) = false := by
    rw [hcl]
    exact beginsWith_cons_ne (by decide)
  have hstatus : statusMatchL ('`' :: '`' :: '`' :: lang) = none := by
    rw [statusMatchL, htrim, stripHead, hbw]
    rfl
  have hfe : ('`' :: '`' :: '`' :: lang : Str) = ['`', '`', '`'] ++ lang := rfl
  have hs1 : stripHead ['`', '`', '`'] ('`' :: '`' :: '`' :: lang) = some lang := by
    rw [stripHead, hfe, beginsWith_append, if_pos rfl, List.drop_left]
  have hfl : fenceLang ('`' :: '`' :: '`' :: lang) = some lang := by
    simp [fenceLang, hs1, takeWhile_eq_self_of _ _ hlang, List.drop_length]
  have hclose : isCloseFence ['`', '`', '`'] = true := by decide
  have htake : (body ++ "```".toList :: rest).takeWhile (fun l => !isCloseFence l) = body := by
    rw [takeWhile_append_of_all _ _ _ (fun x hx => by simp [hbody x hx]),
      List.takeWhile_cons]
    simp [hclose]
  have hdropw : (body ++ "```".toList :: rest).dropWhile (fun l => !isCloseFence l) =
      "```".toList :: rest := by
    rw [dropWhile_append_of_all _ _ _ (fun x hx => by simp [hbody x hx]),
      List.dropWhile_cons]
    simp [hclose]
  rw [mdStep]
  simp only [hblank, Bool.false_eq_true, if_false, hstatus, hfl, htake, hdropw]
  simp

/-- Claim C8 (confirmed): fenced-code terminator switching. Parsing a
fenced block whose opening fence carries a well-formed language tag and
whose body lines contain no closing fence emits exactly one code macro for
the joined body and continues after the closing fence — the conversion
never fails; and the emitted macro embeds the body verbatim in a CDATA
section exactly when the body does not contain the CDATA terminator
sequence `]]>`, and embeds the body HTML-entity-escaped in the plain-text
body when it does. -/
theorem C8_fenced_code_terminator_switching (fuel : Nat) (lang : Str)
    (body rest : List Str)
    (hlang : ∀ c ∈ lang, isLangC c = true)
    (hbody : ∀ l ∈ body, isCloseFence l = false) :
    mdBlocksF (fuel + 1) (('`' :: '`' :: '`' :: lang) :: (body ++ "```".toList :: rest)) =
      codeMacro lang (List.intercalate ['\n'] body) :: mdBlocksF fuel rest ∧
    (containsSub "]]>".toList (List.intercalate ['\n'] body) = false →
      codeMacro lang (List.intercalate ['\n'] body) =
        "<ac:structured-macro ac:name=\"code\">".toList ++
          (if lang = [] then [] else
            "<ac:parameter ac:name=\"language\">".toList ++ escapeHtml lang ++
              "</ac:parameter>".toList) ++
          ("<ac:plain-text-body><![CDATA[".toList ++ List.intercalate ['\n'] body ++
            "]]></ac:plain-text-body>".toList) ++
          "</ac:structured-macro>".toList) ∧
    (containsSub "]]>".toList (List.intercalate ['\n'] body) = true →
      codeMacro lang (List.intercalate ['\n'] body) =
        "<ac:structured-macro ac:name=\"code\">".toList ++
          (if lang = [] then [] else
            "<ac:parameter ac:name=\"language\">".toList ++ escapeHtml lang ++
              "</ac:parameter>".toList) ++
          ("<ac:plain-text-body>".toList ++
            escapeHtml (List.intercalate ['\n'] body) ++
            "</ac:plain-text-body>".toList) ++
          "</ac:structured-macro>".toList) := by
  refine ⟨?_, ?_, ?_⟩
  · rw [mdBlocksF, mdStep_fence lang body rest hlang hbody]
    rfl
  · intro h
    simp only [codeMacro, h, Bool.false_eq_true, if_false]
  · intro h
    simp only [codeMacro, h, if_true]

/-- Witness for C8 at a concrete block: ```js / x / ``` with empty
remainder. -/
theorem C8_fenced_code_terminator_switching_witness :
    mdBlocksF (0 + 1) (('`' :: '`' :: '`' :: "js".toList) :: ([['x']] ++ "```".toList :: [])) =
      codeMacro "js".toList (List.intercalate ['\n'] [['x']]) :: mdBlocksF 0 [] ∧
    (containsSub "]]>".toList (List.intercalate ['\n'] [['x']]) = false →
      codeMacro "js".toList (List.intercalate ['\n'] [['x']]) =
        "<ac:structured-macro ac:name=\"code\">".toList ++
          (if ("js".toList : Str) = [] then [] else
            "<ac:parameter ac:name=\"language\">".toList ++ escapeHtml "js".toList ++
              "</ac:parameter>".toList) ++
          ("<ac:plain-text-body><![CDATA[".toList ++ List.intercalate ['\n'] [['x']] ++
            "]]></ac:plain-text-body>".toList) ++
          "</ac:structured-macro>".toList) ∧
    (containsSub "]]>".toList (List.intercalate ['\n'] [['x']]) = true →
      codeMacro "js".toList (List.intercalate ['\n'] [['x']]) =
        "<ac:structured-macro ac:name=\"code\">".toList ++
          (if ("js".toList : Str) = [] then [] else
            "<ac:parameter ac:name=\"language\">".toList ++ escapeHtml "js".toList ++
              "</ac:parameter>".toList) ++
          ("<ac:plain-text-body>".toList ++
            escapeHtml (List.intercalate ['\n'] [['x']]) ++
            "</ac:plain-text-body>".toList) ++
          "</ac:structured-macro>".toList) :=
  C8_fenced_code_terminator_switching 0 "js".toList [['x']] [] (by decide) (by decide)

theorem stripHead_eq_append {p s r : Str} (h : stripHead p s = some r) : s = p ++ r := by
  rw [stripHead] at h
  split at h
  · next hb =>
    obtain ⟨t, ht⟩ := beginsWith_iff.mp hb
    subst ht
    rw [List.drop_left] at h
    injection h with h
    rw [h]
  · exact absurd h (by simp)

theorem stripHead_append (p r : Str) : stripHead p (p ++ r) = some r := by
  rw [stripHead, beginsWith_append, if_pos rfl, List.drop_left]

theorem cmtStartHead_cases {s r : Str} (h : cmtStartHead s = some r) :
    s = "MD_CMT_START(".toList ++ r ∨ s = "MD\\_CMT_START(".toList ++ r := by
  rw [cmtStartHead] at h
  rcases h1 : stripHead "MD_CMT_START(".toList s with _ | r1
  · rw [h1] at h
    exact Or.inr (stripHead_eq_append h)
  · rw [h1] at h
    injection h with h
    subst h
    exact Or.inl (stripHead_eq_append h1)

theorem cmtEndHead_cases {s r : Str} (h : cmtEndHead s = some r) :
    s = "MD_CMT_END(".toList ++ r ∨ s = "MD\\_CMT_END(".toList ++ r := by
  rw [cmtEndHead] at h
  rcases h1 : stripHead "MD_CMT_END(".toList s with _ | r1
  · rw [h1] at h
    exact Or.inr (stripHead_eq_append h)
  · rw [h1] at h
    injection h with h
    subst h
    exact Or.inl (stripHead_eq_append h1)

theorem cmtStartHead_length {s r : Str} (h : cmtStartHead s = some r) : r.length < s.length := by
  rcases cmtStartHead_cases h with h2 | h2 <;> subst h2 <;> simp <;> omega

theorem cmtEndHead_length {s r : Str} (h : cmtEndHead s = some r) : r.length < s.length := by
  rcases cmtEndHead_cases h with h2 | h2 <;> subst h2 <;> simp <;> omega

theorem cmtStartHead_head {s r : Str} (h : cmtStartHead s = some r) : s.head? = some 'M' := by
  rcases cmtStartHead_cases h with h2 | h2 <;> subst h2 <;> rfl

theorem cmtEndHead_head {s r : Str} (h : cmtEndHead s = some r) : s.head? = some 'M' := by
  rcases cmtEndHead_cases h with h2 | h2 <;> subst h2 <;> rfl

theorem cmtStartHead_cons_none {c : Char} {r : Str} (h : c ≠ 'M') :
    cmtStartHead (c :: r) = none := by
  rcases hs : cmtStartHead (c :: r) with _ | q
  · rfl
  · have := cmtStartHead_head hs
    simp at this
    exact absurd this h

theorem cmtEndHead_cons_none {c : Char} {r : Str} (h : c ≠ 'M') :
    cmtEndHead (c :: r) = none := by
  rcases hs : cmtEndHead (c :: r) with _ | q
  · rfl
  · have := cmtEndHead_head hs
    simp at this
    exact absurd this h

theorem containsSub_single_eq_false {a : Char} {s : Str} (h : ∀ ch ∈ s, ch ≠ a) :
    containsSub [a] s = false := by
  induction s with
  | nil => rfl
  | cons c r ih =>
    rw [containsSub_cons]
    have h1 : beginsWith [a] (c :: r) = false :=
      beginsWith_cons_ne (fun he => h c (by simp) he)
    rw [h1, ih (fun ch hch => h ch (by simp [hch]))]
    rfl

theorem escapeHtml_eq_self {s : Str} (h : ∀ ch ∈ s, ch ≠ '&' ∧ ch ≠ '<' ∧ ch ≠ '>') :
    escapeHtml s = s := by
  rw [escapeHtml, replaceSub_id (containsSub_single_eq_false (fun ch hch => (h ch hch).1)),
    replaceSub_id (containsSub_single_eq_false (fun ch hch => (h ch hch).2.1)),
    replaceSub_id (containsSub_single_eq_false (fun ch hch => (h ch hch).2.2))]

theorem decodeURIComponentL_eq_self {s : Str} (h : ∀ ch ∈ s, ch ≠ '%') :
    decodeURIComponentL s = s := by
  induction s with
  | nil => rfl
  | cons c r ih =>
    rw [decodeURIComponentL.eq_def]
    split
    · next c1 c2 r2 heq =>
      exfalso
      have : c = '%' := by injection heq
      exact h c (by simp) this
    · next c' r' heq =>
      injection heq with h1 h2
      subst h1
      subst h2
      rw [ih (fun ch hch => h ch (by simp [hch]))]
    · next heq => exact absurd heq (by simp)

theorem findEndTok_length (id : Str) :
    ∀ (t q1 q2 : Str), findEndTok id t = some (q1, q2) → q2.length < t.length := by
  intro t
  induction t with
  | nil => intro q1 q2 h; exact absurd h (by simp [findEndTok])
  | cons c r ih =>
    intro q1 q2 h
    have hcr : (c :: r : Str).length = r.length + 1 := rfl
    rw [findEndTok] at h
    rcases h1 : cmtEndHead (c :: r) with _ | s1
    · rw [h1] at h
      dsimp only at h
      rw [Option.map_eq_some'] at h
      obtain ⟨⟨p1, p2⟩, hp, hpair⟩ := h
      have hq2 : p2 = q2 := congrArg Prod.snd hpair
      subst hq2
      have := ih p1 p2 hp
      omega
    · rw [h1] at h
      dsimp only at h
      rcases h2 : stripHead (id ++ [')']) s1 with _ | s2
      · rw [h2] at h
        dsimp only at h
        rw [Option.map_eq_some'] at h
        obtain ⟨⟨p1, p2⟩, hp, hpair⟩ := h
        have hq2 : p2 = q2 := congrArg Prod.snd hpair
        subst hq2
        have := ih p1 p2 hp
        omega
      · rw [h2] at h
        dsimp only at h
        injection h with h
        obtain ⟨hq1, hq2⟩ := Prod.mk.injEq .. |>.mp h
        subst hq2
        have l1 := cmtEndHead_length h1
        have l2 := congrArg List.length (stripHead_eq_append h2)
        simp at l2
        omega

theorem findEndTok_none {id t : Str} (h : ∀ ch ∈ t, ch ≠ 'M') : findEndTok id t = none := by
  induction t with
  | nil => rfl
  | cons c r ih =>
    rw [findEndTok, cmtEndHead_cons_none (h c (by simp))]
    dsimp only
    rw [ih (fun ch hch => h ch (by simp [hch]))]
    rfl

theorem findEndTok_skip {id b t : Str} (hb : ∀ ch ∈ b, ch ≠ 'M') :
    findEndTok id (b ++ t) = (findEndTok id t).map (fun q => (b ++ q.1, q.2)) := by
  induction b with
  | nil =>
    rcases hf : findEndTok id t with _ | ⟨p1, p2⟩ <;> simp [hf]
  | cons c b2 ih =>
    rw [List.cons_append, findEndTok, cmtEndHead_cons_none (hb c (by simp))]
    dsimp only
    rw [ih (fun ch hch => hb ch (by simp [hch]))]
    rcases hf : findEndTok id t with _ | ⟨p1, p2⟩ <;> simp [hf]

theorem findEndTok_found (id c : Str) :
    findEndTok id
      ('M' :: 'D' :: '_' :: 'C' :: 'M' :: 'T' :: '_' :: 'E' :: 'N' :: 'D' :: '(' ::
        (id ++ ')' :: c)) = some ([], c) := by
  rw [findEndTok]
  have h1 : cmtEndHead
      ('M' :: 'D' :: '_' :: 'C' :: 'M' :: 'T' :: '_' :: 'E' :: 'N' :: 'D' :: '(' ::
        (id ++ ')' :: c)) = some (id ++ ')' :: c) := by
    have hform : ('M' :: 'D' :: '_' :: 'C' :: 'M' :: 'T' :: '_' :: 'E' :: 'N' :: 'D' :: '(' ::
        (id ++ ')' :: c) : Str) = "MD_CMT_END(".toList ++ (id ++ ')' :: c) := rfl
    rw [hform, cmtEndHead, stripHead_append]
  have h2 : stripHead (id ++ [')']) (id ++ ')' :: c) = some c := by
    have hform : (id ++ (')' :: c) : Str) = (id ++ [')']) ++ c := by simp
    rw [hform, stripHead_append]
  rw [h1]
  dsimp only
  rw [h2]

theorem cmtPairStep_consuming : Consuming cmtPairStep := by
  intro t out rest h
  rw [cmtPairStep] at h
  rcases h1 : cmtStartHead t with _ | s1
  · rw [h1] at h
    exact absurd h (by simp)
  · rw [h1] at h
    dsimp only at h
    split at h
    · exact absurd h (by simp)
    · rcases h2 : stripHead [')'] (s1.drop (s1.takeWhile (fun c => c != ')')).length) with _ | s2
      · rw [h2] at h
        exact absurd h (by simp)
      · rw [h2] at h
        dsimp only at h
        rcases h3 : findEndTok (s1.takeWhile (fun c => c != ')')) s2 with _ | ⟨inner, rest2⟩
        · rw [h3] at h
          exact absurd h (by simp)
        · rw [h3] at h
          dsimp only at h
          injection h with h
          obtain ⟨hout, hrest⟩ := Prod.mk.injEq .. |>.mp h
          subst hrest
          have l3 := findEndTok_length _ _ _ _ h3
          have l2 := congrArg List.length (stripHead_eq_append h2)
          have l1 := cmtStartHead_length h1
          have ld : (s1.drop (s1.takeWhile (fun c => c != ')')).length).length ≤ s1.length := by
            simp
          simp at l2
          omega

theorem strayStartStep_consuming : Consuming strayStartStep := by
  intro t out rest h
  rw [strayStartStep] at h
  rcases h1 : cmtStartHead t with _ | s1
  · rw [h1] at h
    exact absurd h (by simp)
  · rw [h1] at h
    dsimp only at h
    split at h
    · exact absurd h (by simp)
    · rcases h2 : stripHead [')'] (s1.drop (s1.takeWhile (fun c => c != ')')).length) with _ | s2
      · rw [h2] at h
        exact absurd h (by simp)
      · rw [h2] at h
        dsimp only at h
        injection h with h
        obtain ⟨hout, hrest⟩ := Prod.mk.injEq .. |>.mp h
        subst hrest
        have l2 := congrArg List.length (stripHead_eq_append h2)
        have l1 := cmtStartHead_length h1
        have ld : (s1.drop (s1.takeWhile (fun c => c != ')')).length).length ≤ s1.length := by
          simp
        simp at l2
        omega

theorem strayEndStep_consuming : Consuming strayEndStep := by
  intro t out rest h
  rw [strayEndStep] at h
  rcases h1 : cmtEndHead t with _ | s1
  · rw [h1] at h
    exact absurd h (by simp)
  · rw [h1] at h
    dsimp only at h
    split at h
    · exact absurd h (by simp)
    · rcases h2 : stripHead [')'] (s1.drop (s1.takeWhile (fun c => c != ')')).length) with _ | s2
      · rw [h2] at h
        exact absurd h (by simp)
      · rw [h2] at h
        dsimp only at h
        injection h with h
        obtain ⟨hout, hrest⟩ := Prod.mk.injEq .. |>.mp h
        subst hrest
        have l2 := congrArg List.length (stripHead_eq_append h2)
        have l1 := cmtEndHead_length h1
        have ld : (s1.drop (s1.takeWhile (fun c => c != ')')).length).length ≤ s1.length := by
          simp
        simp at l2
        omega

theorem cmtPairStep_gate :
    ∀ t, (cmtPairStep t).isSome → ∃ x, t.head? = some x ∧ x = 'M' := by
  intro t hs
  rcases h1 : cmtStartHead t with _ | s1
  · rw [cmtPairStep, h1] at hs
    exact absurd hs (by simp)
  · exact ⟨'M', cmtStartHead_head h1, rfl⟩

theorem strayStartStep_gate :
    ∀ t, (strayStartStep t).isSome → ∃ x, t.head? = some x ∧ x = 'M' := by
  intro t hs
  rcases h1 : cmtStartHead t with _ | s1
  · rw [strayStartStep, h1] at hs
    exact absurd hs (by simp)
  · exact ⟨'M', cmtStartHead_head h1, rfl⟩

theorem strayEndStep_gate :
    ∀ t, (strayEndStep t).isSome → ∃ x, t.head? = some x ∧ x = 'M' := by
  intro t hs
  rcases h1 : cmtEndHead t with _ | s1
  · rw [strayEndStep, h1] at hs
    exact absurd hs (by simp)
  · exact ⟨'M', cmtEndHead_head h1, rfl⟩

theorem cmtPairStep_none_of_M_free {t : Str} (h : ∀ ch ∈ t, ch ≠ 'M') :
    cmtPairStep t = none := by
  cases t with
  | nil => rfl
  | cons c r =>
    rw [cmtPairStep, cmtStartHead_cons_none (h c (by simp))]

theorem strayStartStep_none_of_M_free {t : Str} (h : ∀ ch ∈ t, ch ≠ 'M') :
    strayStartStep t = none := by
  cases t with
  | nil => rfl
  | cons c r =>
    rw [strayStartStep, cmtStartHead_cons_none (h c (by simp))]

theorem strayEndStep_none_of_M_free {t : Str} (h : ∀ ch ∈ t, ch ≠ 'M') :
    strayEndStep t = none := by
  cases t with
  | nil => rfl
  | cons c r =>
    rw [strayEndStep, cmtEndHead_cons_none (h c (by simp))]

theorem scanRewrite_id_of_M_free {step : Str → Option (Str × Str)} (hc : Consuming step)
    (hnone : ∀ t : Str, (∀ ch ∈ t, ch ≠ 'M') → step t = none)
    {s : Str} (h : ∀ ch ∈ s, ch ≠ 'M') : scanRewrite step s = s :=
  scanRewrite_id hc (fun a b hab =>
    hnone b (fun ch hch => h ch (by rw [hab]; exact List.mem_append_right a hch)))

theorem cmtStartHead_start_append (r : Str) :
    cmtStartHead ("MD_CMT_START(".toList ++ r) = some r := by
  rw [cmtStartHead, stripHead_append]

theorem cmtEndHead_end_append (r : Str) :
    cmtEndHead ("MD_CMT_END(".toList ++ r) = some r := by
  rw [cmtEndHead, stripHead_append]

theorem cmtStartHead_MT_none (t : Str) : cmtStartHead ('M' :: 'T' :: t) = none := by
  rw [cmtStartHead]
  have h1 : stripHead "MD_CMT_START(".toList ('M' :: 'T' :: t) = none := by
    rw [stripHead]
    simp [beginsWith]
  have h2 : stripHead "MD\\_CMT_START(".toList ('M' :: 'T' :: t) = none := by
    rw [stripHead]
    simp [beginsWith]
  rw [h1, h2]

theorem cmtStartHead_end_none (t : Str) :
    cmtStartHead ('M' :: 'D' :: '_' :: 'C' :: 'M' :: 'T' :: '_' :: 'E' :: 'N' :: 'D' :: '(' :: t)
      = none := by
  rw [cmtStartHead]
  have h1 : stripHead "MD_CMT_START(".toList
      ('M' :: 'D' :: '_' :: 'C' :: 'M' :: 'T' :: '_' :: 'E' :: 'N' :: 'D' :: '(' :: t) = none := by
    rw [stripHead]
    simp [beginsWith]
  have h2 : stripHead "MD\\_CMT_START(".toList
      ('M' :: 'D' :: '_' :: 'C' :: 'M' :: 'T' :: '_' :: 'E' :: 'N' :: 'D' :: '(' :: t) = none := by
    rw [stripHead]
    simp [beginsWith]
  rw [h1, h2]

theorem takeWhile_encId (x : Str) (t : Str) (hxp : ∀ ch ∈ x, ch ≠ ')') :
    (x ++ ')' :: t).takeWhile (fun c => c != ')') = x := by
  rw [takeWhile_append_of_all _ _ _ (fun ch hch => by simp [hxp ch hch]), List.takeWhile_cons]
  simp

theorem cmtPairStep_pair (x b c : Str) (hx : x ≠ []) (hxp : ∀ ch ∈ x, ch ≠ ')')
    (hb : ∀ ch ∈ b, ch ≠ 'M') :
    cmtPairStep ("MD_CMT_START(".toList ++
        (x ++ (')' :: (b ++ ("MD_CMT_END(".toList ++ (x ++ ')' :: c)))))) =
      some (inlineMarker x b, c) := by
  rw [cmtPairStep, cmtStartHead_start_append]
  dsimp only
  rw [takeWhile_encId x _ hxp, if_neg hx, List.drop_left]
  rw [show (')' :: (b ++ ("MD_CMT_END(".toList ++ (x ++ ')' :: c))) : Str) =
    [')'] ++ (b ++ ("MD_CMT_END(".toList ++ (x ++ ')' :: c))) from rfl, stripHead_append]
  dsimp only
  rw [findEndTok_skip hb]
  rw [show ("MD_CMT_END(".toList ++ (x ++ ')' :: c) : Str) =
    'M' :: 'D' :: '_' :: 'C' :: 'M' :: 'T' :: '_' :: 'E' :: 'N' :: 'D' :: '(' ::
      (x ++ ')' :: c) from rfl, findEndTok_found]
  simp

theorem cmtPairStep_unmatched (x c : Str) (hx : x ≠ []) (hxp : ∀ ch ∈ x, ch ≠ ')')
    (hc : ∀ ch ∈ c, ch ≠ 'M') :
    cmtPairStep ("MD_CMT_START(".toList ++ (x ++ ')' :: c)) = none := by
  rw [cmtPairStep, cmtStartHead_start_append]
  dsimp only
  rw [takeWhile_encId x _ hxp, if_neg hx, List.drop_left]
  rw [show (')' :: c : Str) = [')'] ++ c from rfl, stripHead_append]
  dsimp only
  rw [findEndTok_none hc]

theorem strayStartStep_fires (x c : Str) (hx : x ≠ []) (hxp : ∀ ch ∈ x, ch ≠ ')') :
    strayStartStep ("MD_CMT_START(".toList ++ (x ++ ')' :: c)) = some ([], c) := by
  rw [strayStartStep, cmtStartHead_start_append]
  dsimp only
  rw [takeWhile_encId x _ hxp, if_neg hx, List.drop_left]
  rw [show (')' :: c : Str) = [')'] ++ c from rfl, stripHead_append]

theorem strayEndStep_fires (x c : Str) (hx : x ≠ []) (hxp : ∀ ch ∈ x, ch ≠ ')') :
    strayEndStep ("MD_CMT_END(".toList ++ (x ++ ')' :: c)) = some ([], c) := by
  rw [strayEndStep, cmtEndHead_end_append]
  dsimp only
  rw [takeWhile_encId x _ hxp, if_neg hx, List.drop_left]
  rw [show (')' :: c : Str) = [')'] ++ c from rfl, stripHead_append]

theorem scanRewrite_start_token_id {step : Str → Option (Str × Str)} (hcons : Consuming step)
    (hg : ∀ t, (step t).isSome → ∃ y, t.head? = some y ∧ y = 'M')
    (hnoneM : ∀ t : Str, (∀ ch ∈ t, ch ≠ 'M') → step t = none)
    (hMT : ∀ t : Str, step ('M' :: 'T' :: t) = none)
    {x c : Str} (hxm : ∀ ch ∈ x, ch ≠ 'M') (hcm : ∀ ch ∈ c, ch ≠ 'M')
    (hSTART : step ("MD_CMT_START(".toList ++ (x ++ ')' :: c)) = none) :
    scanRewrite step ("MD_CMT_START(".toList ++ (x ++ ')' :: c)) =
      "MD_CMT_START(".toList ++ (x ++ ')' :: c) := by
  have hform : ("MD_CMT_START(".toList ++ (x ++ ')' :: c) : Str) =
      'M' :: (['D', '_', 'C'] ++ ('M' :: ("T_START(".toList ++ (x ++ ')' :: c)))) := rfl
  rw [hform, scanRewrite_cons hcons]
  rw [show step ('M' :: (['D', '_', 'C'] ++ ('M' :: ("T_START(".toList ++ (x ++ ')' :: c))))) =
    step ("MD_CMT_START(".toList ++ (x ++ ')' :: c)) from rfl, hSTART]
  dsimp only
  rw [scanRewrite_skip hcons hg (by decide : ∀ y ∈ (['D', '_', 'C'] : Str), ¬(y = 'M'))]
  rw [scanRewrite_cons hcons]
  rw [show step ('M' :: ("T_START(".toList ++ (x ++ ')' :: c))) =
    step ('M' :: 'T' :: ("_START(".toList ++ (x ++ ')' :: c))) from rfl, hMT]
  dsimp only
  rw [scanRewrite_id_of_M_free hcons hnoneM (by
    intro ch hch
    simp only [List.mem_append] at hch
    rcases hch with hch | hch | hch
    · exact (by decide : ∀ y ∈ "T_START(".toList, y ≠ 'M') ch hch
    · exact hxm ch hch
    · rcases List.mem_cons.mp hch with rfl | hch
      · decide
      · exact hcm ch hch)]

theorem scanRewrite_end_token_id {step : Str → Option (Str × Str)} (hcons : Consuming step)
    (hg : ∀ t, (step t).isSome → ∃ y, t.head? = some y ∧ y = 'M')
    (hnoneM : ∀ t : Str, (∀ ch ∈ t, ch ≠ 'M') → step t = none)
    (hMT : ∀ t : Str, step ('M' :: 'T' :: t) = none)
    {x c : Str} (hxm : ∀ ch ∈ x, ch ≠ 'M') (hcm : ∀ ch ∈ c, ch ≠ 'M')
    (hEND : step ("MD_CMT_END(".toList ++ (x ++ ')' :: c)) = none) :
    scanRewrite step ("MD_CMT_END(".toList ++ (x ++ ')' :: c)) =
      "MD_CMT_END(".toList ++ (x ++ ')' :: c) := by
  have hform : ("MD_CMT_END(".toList ++ (x ++ ')' :: c) : Str) =
      'M' :: (['D', '_', 'C'] ++ ('M' :: ("T_END(".toList ++ (x ++ ')' :: c)))) := rfl
  rw [hform, scanRewrite_cons hcons]
  rw [show step ('M' :: (['D', '_', 'C'] ++ ('M' :: ("T_END(".toList ++ (x ++ ')' :: c))))) =
    step ("MD_CMT_END(".toList ++ (x ++ ')' :: c)) from rfl, hEND]
  dsimp only
  rw [scanRewrite_skip hcons hg (by decide : ∀ y ∈ (['D', '_', 'C'] : Str), ¬(y = 'M'))]
  rw [scanRewrite_cons hcons]
  rw [show step ('M' :: ("T_END(".toList ++ (x ++ ')' :: c))) =
    step ('M' :: 'T' :: ("_END(".toList ++ (x ++ ')' :: c))) from rfl, hMT]
  dsimp only
  rw [scanRewrite_id_of_M_free hcons hnoneM (by
    intro ch hch
    simp only [List.mem_append] at hch
    rcases hch with hch | hch | hch
    · exact (by decide : ∀ y ∈ "T_END(".toList, y ≠ 'M') ch hch
    · exact hxm ch hch
    · rcases List.mem_cons.mp hch with rfl | hch
      · decide
      · exact hcm ch hch)]

/-- Claim C5 (confirmed): comment-range balance on upload. Over text
regions free of the token sentinel letter `M` (the source itself warns that
collisions with literal token text break the passes), a start marker
followed by an end marker with the same identifier yields exactly one
wrapping `ac:inline-comment-marker` element around the enclosed text, and
a stray unmatched start or end marker is dropped entirely — no marker
element and no leftover literal token remains in the output. -/
theorem C5_comment_range_balance (a b c x : Str)
    (ha : ∀ ch ∈ a, ch ≠ 'M') (hb : ∀ ch ∈ b, ch ≠ 'M') (hc : ∀ ch ∈ c, ch ≠ 'M')
    (hx : x ≠ [])
    (hxc : ∀ ch ∈ x, ch ≠ ')' ∧ ch ≠ 'M' ∧ ch ≠ '%' ∧ ch ≠ '&' ∧ ch ≠ '<' ∧ ch ≠ '>') :
    wrapCommentTokenRangesToInlineMarkers
        (a ++ ("MD_CMT_START(".toList ++
          (x ++ (')' :: (b ++ ("MD_CMT_END(".toList ++ (x ++ ')' :: c))))))) =
      a ++ (inlineMarker x b ++ c) ∧
    wrapCommentTokenRangesToInlineMarkers
        (a ++ ("MD_CMT_START(".toList ++ (x ++ ')' :: c))) = a ++ c ∧
    wrapCommentTokenRangesToInlineMarkers
        (a ++ ("MD_CMT_END(".toList ++ (x ++ ')' :: c))) = a ++ c := by
  have hxp : ∀ ch ∈ x, ch ≠ ')' := fun ch hch => (hxc ch hch).1
  have hxm : ∀ ch ∈ x, ch ≠ 'M' := fun ch hch => (hxc ch hch).2.1
  have hxpct : ∀ ch ∈ x, ch ≠ '%' := fun ch hch => (hxc ch hch).2.2.1
  have hxhtml : ∀ ch ∈ x, ch ≠ '&' ∧ ch ≠ '<' ∧ ch ≠ '>' :=
    fun ch hch => (hxc ch hch).2.2.2
  have hgate : ∀ ch ∈ a, ¬(ch = 'M') := ha
  have hmark : ∀ ch ∈ inlineMarker x b, ch ≠ 'M' := by
    intro ch hch
    rw [inlineMarker, decodeURIComponentL_eq_self hxpct, escapeHtml_eq_self hxhtml] at hch
    simp only [List.mem_append] at hch
    rcases hch with ((((hch | hch) | hch) | hch) | hch)
    · exact (by decide : ∀ y ∈ "<ac:inline-comment-marker ac:ref=\"".toList, y ≠ 'M') ch hch
    · exact hxm ch hch
    · exact (by decide : ∀ y ∈ "\">".toList, y ≠ 'M') ch hch
    · exact hb ch hch
    · exact (by decide : ∀ y ∈ "</ac:inline-comment-marker>".toList, y ≠ 'M') ch hch
  refine ⟨?_, ?_, ?_⟩
  · -- balanced pair
    have hpass1 : scanRewrite cmtPairStep
        (a ++ ("MD_CMT_START(".toList ++
          (x ++ (')' :: (b ++ ("MD_CMT_END(".toList ++ (x ++ ')' :: c))))))) =
        a ++ (inlineMarker x b ++ c) := by
      rw [scanRewrite_skip cmtPairStep_consuming cmtPairStep_gate hgate]
      have hform : ("MD_CMT_START(".toList ++
          (x ++ (')' :: (b ++ ("MD_CMT_END(".toList ++ (x ++ ')' :: c))))) : Str) =
          'M' :: ("D_CMT_START(".toList ++
            (x ++ (')' :: (b ++ ("MD_CMT_END(".toList ++ (x ++ ')' :: c)))))) := rfl
      rw [hform, scanRewrite_cons cmtPairStep_consuming]
      rw [show cmtPairStep ('M' :: ("D_CMT_START(".toList ++
          (x ++ (')' :: (b ++ ("MD_CMT_END(".toList ++ (x ++ ')' :: c))))))) =
        cmtPairStep ("MD_CMT_START(".toList ++
          (x ++ (')' :: (b ++ ("MD_CMT_END(".toList ++ (x ++ ')' :: c)))))) from rfl,
        cmtPairStep_pair x b c hx hxp hb]
      dsimp only
      rw [scanRewrite_id_of_M_free cmtPairStep_consuming (fun t ht => cmtPairStep_none_of_M_free ht) hc]
    have hout : ∀ ch ∈ a ++ (inlineMarker x b ++ c), ch ≠ 'M' := by
      intro ch hch
      simp only [List.mem_append] at hch
      rcases hch with hch | hch | hch
      · exact ha ch hch
      · exact hmark ch hch
      · exact hc ch hch
    have hfix : scanRewrite cmtPairStep (a ++ (inlineMarker x b ++ c)) =
        a ++ (inlineMarker x b ++ c) :=
      scanRewrite_id_of_M_free cmtPairStep_consuming (fun t ht => cmtPairStep_none_of_M_free ht) hout
    have hne : ¬(a ++ (inlineMarker x b ++ c) =
        a ++ ("MD_CMT_START(".toList ++
          (x ++ (')' :: (b ++ ("MD_CMT_END(".toList ++ (x ++ ')' :: c))))))) := by
      intro heq
      have heq2 := List.append_cancel_left heq
      have hhd := congrArg List.head? heq2
      rw [show (inlineMarker x b ++ c).head? = some '<' from rfl,
        show ("MD_CMT_START(".toList ++
          (x ++ (')' :: (b ++ ("MD_CMT_END(".toList ++ (x ++ ')' :: c)))))).head? =
          some 'M' from rfl] at hhd
      exact absurd (Option.some.inj hhd) (by decide)
    rw [wrapCommentTokenRangesToInlineMarkers, wrapLoopF]
    rw [hpass1, if_neg hne]
    have hlen : (a ++ ("MD_CMT_START(".toList ++
        (x ++ (')' :: (b ++ ("MD_CMT_END(".toList ++ (x ++ ')' :: c))))))).length =
        ((a ++ ("MD_CMT_START(".toList ++
          (x ++ (')' :: (b ++ ("MD_CMT_END(".toList ++ (x ++ ')' :: c))))))).length - 1) + 1 := by
      simp
      omega
    rw [hlen, wrapLoopF]
    rw [hfix, if_pos rfl]
    rw [scanRewrite_id_of_M_free strayStartStep_consuming (fun t ht => strayStartStep_none_of_M_free ht) hout,
      scanRewrite_id_of_M_free strayEndStep_consuming (fun t ht => strayEndStep_none_of_M_free ht) hout]
  · -- stray start
    have hpass1 : scanRewrite cmtPairStep
        (a ++ ("MD_CMT_START(".toList ++ (x ++ ')' :: c))) =
        a ++ ("MD_CMT_START(".toList ++ (x ++ ')' :: c)) := by
      rw [scanRewrite_skip cmtPairStep_consuming cmtPairStep_gate hgate,
        scanRewrite_start_token_id cmtPairStep_consuming cmtPairStep_gate
          (fun t ht => cmtPairStep_none_of_M_free ht)
          (fun t => by rw [cmtPairStep, cmtStartHead_MT_none]) hxm hc
          (cmtPairStep_unmatched x c hx hxp hc)]
    rw [wrapCommentTokenRangesToInlineMarkers, wrapLoopF]
    rw [hpass1, if_pos rfl]
    have hpass2 : scanRewrite strayStartStep
        (a ++ ("MD_CMT_START(".toList ++ (x ++ ')' :: c))) = a ++ c := by
      rw [scanRewrite_skip strayStartStep_consuming strayStartStep_gate hgate]
      have hform : ("MD_CMT_START(".toList ++ (x ++ ')' :: c) : Str) =
          'M' :: ("D_CMT_START(".toList ++ (x ++ ')' :: c)) := rfl
      rw [hform, scanRewrite_cons strayStartStep_consuming]
      rw [show strayStartStep ('M' :: ("D_CMT_START(".toList ++ (x ++ ')' :: c))) =
        strayStartStep ("MD_CMT_START(".toList ++ (x ++ ')' :: c)) from rfl,
        strayStartStep_fires x c hx hxp]
      dsimp only
      rw [scanRewrite_id_of_M_free strayStartStep_consuming (fun t ht => strayStartStep_none_of_M_free ht) hc]
      rfl
    rw [hpass2]
    rw [scanRewrite_id_of_M_free strayEndStep_consuming (fun t ht => strayEndStep_none_of_M_free ht) (by
      intro ch hch
      rcases List.mem_append.mp hch with hch | hch
      · exact ha ch hch
      · exact hc ch hch)]
  · -- stray end
    have hMTpair : ∀ t : Str, cmtPairStep ('M' :: 'T' :: t) = none := fun t => by
      rw [cmtPairStep, cmtStartHead_MT_none]
    have hENDpair : cmtPairStep ("MD_CMT_END(".toList ++ (x ++ ')' :: c)) = none := by
      rw [show ("MD_CMT_END(".toList ++ (x ++ ')' :: c) : Str) =
        'M' :: 'D' :: '_' :: 'C' :: 'M' :: 'T' :: '_' :: 'E' :: 'N' :: 'D' :: '(' ::
          (x ++ ')' :: c) from rfl, cmtPairStep, cmtStartHead_end_none]
    have hpass1 : scanRewrite cmtPairStep
        (a ++ ("MD_CMT_END(".toList ++ (x ++ ')' :: c))) =
        a ++ ("MD_CMT_END(".toList ++ (x ++ ')' :: c)) := by
      rw [scanRewrite_skip cmtPairStep_consuming cmtPairStep_gate hgate,
        scanRewrite_end_token_id cmtPairStep_consuming cmtPairStep_gate
          (fun t ht => cmtPairStep_none_of_M_free ht) hMTpair hxm hc hENDpair]
    rw [wrapCommentTokenRangesToInlineMarkers, wrapLoopF]
    rw [hpass1, if_pos rfl]
    have hMTstray : ∀ t : Str, strayStartStep ('M' :: 'T' :: t) = none := fun t => by
      rw [strayStartStep, cmtStartHead_MT_none]
    have hENDstray : strayStartStep ("MD_CMT_END(".toList ++ (x ++ ')' :: c)) = none := by
      rw [show ("MD_CMT_END(".toList ++ (x ++ ')' :: c) : Str) =
        'M' :: 'D' :: '_' :: 'C' :: 'M' :: 'T' :: '_' :: 'E' :: 'N' :: 'D' :: '(' ::
          (x ++ ')' :: c) from rfl, strayStartStep, cmtStartHead_end_none]
    have hpass2 : scanRewrite strayStartStep
        (a ++ ("MD_CMT_END(".toList ++ (x ++ ')' :: c))) =
        a ++ ("MD_CMT_END(".toList ++ (x ++ ')' :: c)) := by
      rw [scanRewrite_skip strayStartStep_consuming strayStartStep_gate hgate,
        scanRewrite_end_token_id strayStartStep_consuming strayStartStep_gate
          (fun t ht => strayStartStep_none_of_M_free ht) hMTstray hxm hc hENDstray]
    rw [hpass2]
    have hpass3 : scanRewrite strayEndStep
        (a ++ ("MD_CMT_END(".toList ++ (x ++ ')' :: c))) = a ++ c := by
      rw [scanRewrite_skip strayEndStep_consuming strayEndStep_gate hgate]
      have hform : ("MD_CMT_END(".toList ++ (x ++ ')' :: c) : Str) =
          'M' :: ("D_CMT_END(".toList ++ (x ++ ')' :: c)) := rfl
      rw [hform, scanRewrite_cons strayEndStep_consuming]
      rw [show strayEndStep ('M' :: ("D_CMT_END(".toList ++ (x ++ ')' :: c))) =
        strayEndStep ("MD_CMT_END(".toList ++ (x ++ ')' :: c)) from rfl,
        strayEndStep_fires x c hx hxp]
      dsimp only
      rw [scanRewrite_id_of_M_free strayEndStep_consuming (fun t ht => strayEndStep_none_of_M_free ht) hc]
      rfl
    rw [hpass3]

/-- Witness for C5 at concrete texts `p`/`hi`/`q` and identifier `c1`. -/
theorem C5_comment_range_balance_witness :
    wrapCommentTokenRangesToInlineMarkers
        (['p'] ++ ("MD_CMT_START(".toList ++
          ("c1".toList ++ (')' :: ("hi".toList ++
            ("MD_CMT_END(".toList ++ ("c1".toList ++ ')' :: ['q']))))))) =
      ['p'] ++ (inlineMarker "c1".toList "hi".toList ++ ['q']) ∧
    wrapCommentTokenRangesToInlineMarkers
        (['p'] ++ ("MD_CMT_START(".toList ++ ("c1".toList ++ ')' :: ['q']))) =
      ['p'] ++ ['q'] ∧
    wrapCommentTokenRangesToInlineMarkers
        (['p'] ++ ("MD_CMT_END(".toList ++ ("c1".toList ++ ')' :: ['q']))) =
      ['p'] ++ ['q'] :=
  C5_comment_range_balance ['p'] "hi".toList ['q'] "c1".toList
    (by decide) (by decide) (by decide) (by decide) (by decide)

set_option maxRecDepth 100000 in
/-- Claim C1 (refuted — code bug): the storage→text→storage round trip of
the spec's six-construct fragment. The mention account id, table cell text
and cell styling comment, status colour and title, code language and body,
and image reference and caption all come back semantically equivalent —
but the downloaded text for the info panel is
`> <!-- panel:info:info --> > Note this`: the spacing normalization
`-->\s*(\S) → --> $1` of `decodeMdCommentTokens` eats the newline after
the panel marker comment and glues the first body line onto it, so the
re-uploaded panel body is the corrupted text `&gt; Note this` instead
of a paragraph with payload `Note this`. -/
theorem C1_roundtrip_panel_corruption :
    ((storageToMarkdownBlocks storageC1).map (fun b => b.2) =
      ["Hi <!-- mention:5f0a2b 5f0a2b -->".toList,
       "| A |\n| --- |\n| x <!-- cell:bg:red --> |".toList,
       "<!-- status:green:Done -->".toList,
       "Alpha".toList,
       "```js\nlet x = 1;\n```".toList,
       "Beta".toList,
       "> <!-- panel:info:info --> > Note this".toList,
       "Gamma".toList,
       "![Fig 1](https://ex.com/p.png)".toList]) ∧
    containsSub "<ac:link><ri:user ri:account-id=\"5f0a2b\"/></ac:link>".toList
      roundTripC1 = true ∧
    containsSub "<td><p>x <!-- cell:bg:red --></p></td>".toList roundTripC1 = true ∧
    containsSub ("<ac:structured-macro ac:name=\"status\"><ac:parameter ac:name=\"title\">" ++
      "Done</ac:parameter><ac:parameter ac:name=\"colour\">green</ac:parameter>" ++
      "</ac:structured-macro>").toList roundTripC1 = true ∧
    containsSub "<ac:parameter ac:name=\"language\">js</ac:parameter>".toList
      roundTripC1 = true ∧
    containsSub "<![CDATA[let x = 1;]]>".toList roundTripC1 = true ∧
    containsSub ("<ri:url ri:value=\"https://ex.com/p.png\"/>" ++
      "<ac:caption>Fig 1</ac:caption>").toList roundTripC1 = true ∧
    containsSub "<ac:rich-text-body>&gt; Note this</ac:rich-text-body>".toList
      roundTripC1 = true ∧
    containsSub "<ac:rich-text-body>Note this</ac:rich-text-body>".toList
      roundTripC1 = false := by
  refine ⟨?_, ?_, ?_, ?_, ?_, ?_, ?_, ?_, ?_⟩ <;> decide

/-- Claim C10 (confirmed): the block list is never empty — when the
per-node walk produces no block, the fallback returns exactly one block
with the page-wide conversion. -/
theorem C10_blocks_nonempty (storageHtml : Str) :
    storageToMarkdownBlocks storageHtml ≠ [] := by
  rw [storageToMarkdownBlocks]
  split
  · simp
  · next h => exact h

theorem beginsWith_mono {p s b : Str} (h : beginsWith p s = true) :
    beginsWith p (s ++ b) = true := by
  obtain ⟨t, rfl⟩ := beginsWith_iff.mp h
  rw [List.append_assoc]
  exact beginsWith_append p (t ++ b)

theorem containsSub_append_pre {p a s : Str} (h : containsSub p s = true) :
    containsSub p (a ++ s) = true := by
  induction a with
  | nil => exact h
  | cons c r ih =>
    rw [List.cons_append, containsSub_cons, ih]
    simp

theorem containsSub_append_post {p s b : Str} (h : containsSub p s = true) :
    containsSub p (s ++ b) = true := by
  induction s with
  | nil =>
    rw [containsSub_nil_iff] at h
    subst h
    cases b with
    | nil => simpa using containsSub_nil_iff []
    | cons c r =>
      rw [List.nil_append, containsSub_cons]
      simp [beginsWith]
  | cons c r ih =>
    rw [containsSub_cons] at h
    rw [List.cons_append, containsSub_cons]
    simp only [Bool.or_eq_true] at h
    rcases h with h1 | h1
    · have h2 : beginsWith p (c :: (r ++ b)) = true := beginsWith_mono h1
      rw [h2]
      simp
    · rw [ih h1]
      simp

theorem splitNl_infix {s : Str} : ∀ l ∈ splitNl s, ∃ a b, s = a ++ l ++ b := by
  induction s with
  | nil =>
    intro l hl
    simp [splitNl] at hl
    subst hl
    exact ⟨[], [], rfl⟩
  | cons c r ih =>
    intro l hl
    by_cases hc : c = '\n'
    · subst hc
      rw [show splitNl ('\n' :: r) = [] :: splitNl r from rfl] at hl
      rcases List.mem_cons.mp hl with rfl | hl2
      · exact ⟨[], '\n' :: r, rfl⟩
      · obtain ⟨a, b, rfl⟩ := ih l hl2
        exact ⟨'\n' :: a, b, rfl⟩
    · rw [splitNl_cons_ne hc] at hl
      rcases hsp : splitNl r with _ | ⟨l0, ls⟩
      · exact absurd hsp (splitNl_ne_nil r)
      · rw [hsp] at hl
        simp only [List.headI, List.tail] at hl
        rcases List.mem_cons.mp hl with rfl | hl2
        · have hj := joinNl_splitNl r
          rw [hsp] at hj
          rcases ls with _ | ⟨l1, ls2⟩
          · rw [show joinNl [l0] = l0 from rfl] at hj
            exact ⟨[], [], by simp [← hj]⟩
          · rw [joinNl_cons (by simp)] at hj
            exact ⟨[], '\n' :: joinNl (l1 :: ls2), by simp [← hj]⟩
        · have hmem : l ∈ splitNl r := by rw [hsp]; exact List.mem_cons_of_mem l0 hl2
          obtain ⟨a, b, rfl⟩ := ih l hmem
          exact ⟨c :: a, b, rfl⟩

theorem containsSub_splitNl_false {pat s : Str} (h : containsSub pat s = false) :
    ∀ l ∈ splitNl s, containsSub pat l = false := by
  intro l hl
  rcases hc : containsSub pat l
  · rfl
  · exfalso
    obtain ⟨a, b, rfl⟩ := splitNl_infix l hl
    have := containsSub_append_pre (a := a) (containsSub_append_post (b := b) hc)
    rw [← List.append_assoc] at this
    rw [this] at h
    cases h

theorem splitSub_none_of_not_mem {p1 : Char} {pr s : Str} (h : p1 ∉ s) :
    splitSub (p1 :: pr) s = none := by
  induction s with
  | nil => rfl
  | cons c r ih =>
    rw [splitSub,
      beginsWith_cons_ne (fun he => h (by rw [← he]; exact List.mem_cons_self c r)),
      if_neg (by simp), ih (fun hm => h (List.mem_cons_of_mem c hm))]
    rfl

theorem fencedPass_id_of_bt_free {s : Str} (h : ('`' : Char) ∉ s) : fencedPass s = s := by
  rw [fencedPass]
  cases hl : s.length with
  | zero => rfl
  | succ n =>
    rw [fencedPassF, splitSub_none_of_not_mem h]

theorem inlinePass_id_of_bt_free {s : Str} (h : ('`' : Char) ∉ s) : inlinePass s = s := by
  rw [inlinePass]
  cases hl : s.length with
  | zero => rfl
  | succ n =>
    rw [inlinePassF, splitSub_none_of_not_mem h]

theorem collapseStep_bs (mark : Char) (go : Str → Str) (r : Str) :
    collapseStep mark go ('\\' :: r) =
      (match r.dropWhile (fun c => c == '\\') with
       | [] => '\\' :: r.takeWhile (fun c => c == '\\')
       | c :: r3 =>
         if 2 ≤ (r.takeWhile (fun c => c == '\\')).length + 1 ∧ c = mark then
           '\\' :: mark :: go r3
         else ('\\' :: r.takeWhile (fun c => c == '\\')) ++ c :: go r3) := by
  rw [collapseStep.eq_def]
  split
  · next heq => exact absurd heq (by simp)
  · next r' heq =>
    injection heq with h1 h2
    subst h2
    rfl
  · next c r' hne heq =>
    injection heq with h1 h2
    exact absurd h1.symm hne

theorem collapseBeforeF_id_of_noDouble {mark : Char} :
    ∀ (fuel : Nat) (s : Str), s.length ≤ fuel →
      containsSub ['\\', '\\'] s = false → collapseBeforeF mark fuel s = s := by
  intro fuel
  induction fuel with
  | zero =>
    intro s hlen _
    rfl
  | succ f ih =>
    intro s hlen h
    cases s with
    | nil => rfl
    | cons c r =>
      rw [containsSub_cons] at h
      simp only [Bool.or_eq_false_iff] at h
      by_cases hc : c = '\\'
      · subst hc
        rw [collapseBeforeF, collapseStep_bs]
        have hrh : ∀ t : Str, r = '\\' :: t → False := by
          intro t ht
          subst ht
          have hbw : beginsWith ['\\', '\\'] ('\\' :: '\\' :: t) = true := by
            simp [beginsWith]
          rw [hbw] at h
          exact absurd h.1 (by simp)
        have hrun : r.takeWhile (fun c => c == '\\') = [] := by
          cases r with
          | nil => rfl
          | cons c2 r2 =>
            have hc2 : (c2 == '\\') = false := by
              rcases hx : (c2 == '\\')
              · rfl
              · exact absurd (hrh r2 (by rw [(beq_iff_eq ..).mp hx])) (fun q => q)
            rw [List.takeWhile_cons, hc2]
            simp
        have hdrop : r.dropWhile (fun c => c == '\\') = r := by
          cases r with
          | nil => rfl
          | cons c2 r2 =>
            have hc2 : (c2 == '\\') = false := by
              rcases hx : (c2 == '\\')
              · rfl
              · exact absurd (hrh r2 (by rw [(beq_iff_eq ..).mp hx])) (fun q => q)
            rw [List.dropWhile_cons, hc2]
            simp
        rw [hrun, hdrop]
        cases r with
        | nil => rfl
        | cons c2 r2 =>
          have hc2 : c2 ≠ mark ∨ True := Or.inr trivial
          dsimp only
          rw [if_neg (by simp)]
          have hlen2 : r2.length ≤ f := by
            simp at hlen
            omega
          have h2 : containsSub ['\\', '\\'] r2 = false := by
            have hr := h.2
            rw [containsSub_cons] at hr
            simp only [Bool.or_eq_false_iff] at hr
            exact hr.2
          rw [ih r2 hlen2 h2]
          simp
      · rw [collapseBeforeF, collapseStep_cons_ne hc]
        have hlen2 : r.length ≤ f := by
          simp at hlen
          omega
        rw [ih r hlen2 h.2]

theorem collapseBefore_id_of_noDouble {mark : Char} {s : Str}
    (h : containsSub ['\\', '\\'] s = false) : collapseBefore mark s = s :=
  collapseBeforeF_id_of_noDouble s.length s (le_refl _) h

theorem containsSub_pair_cons_false {p q c : Char} {r : Str}
    (h : containsSub [p, q] (c :: r) = false) :
    beginsWith [p, q] (c :: r) = false ∧ containsSub [p, q] r = false := by
  rw [containsSub_cons] at h
  simpa only [Bool.or_eq_false_iff] using h

theorem unescUndF_clean :
    ∀ (fuel : Nat) (s : Str), s.length ≤ fuel →
      containsSub ['\\', '\\'] s = false → containsSub ['\\', '.'] s = false →
      containsSub ['\\', '_'] (replaceSubF ['\\', '_'] ['_'] fuel s) = false ∧
      containsSub ['\\', '\\'] (replaceSubF ['\\', '_'] ['_'] fuel s) = false ∧
      containsSub ['\\', '.'] (replaceSubF ['\\', '_'] ['_'] fuel s) = false := by
  intro fuel
  induction fuel with
  | zero =>
    intro s hlen _ _
    have : s = [] := List.length_eq_zero.mp (Nat.le_zero.mp hlen)
    subst this
    refine ⟨?_, ?_, ?_⟩ <;> decide
  | succ f ih =>
    intro s hlen h2 h3
    cases s with
    | nil =>
      rw [replaceSubF_nil]
      refine ⟨?_, ?_, ?_⟩ <;> decide
    | cons c r =>
      rw [replaceSubF]
      by_cases hfire : beginsWith ['\\', '_'] (c :: r) = true ∧ (['\\', '_'] : Str) ≠ []
      · rw [if_pos hfire]
        obtain ⟨t, ht⟩ := beginsWith_iff.mp hfire.1
        have hcr : c :: r = '\\' :: '_' :: t := ht
        injection hcr with hc hr
        subst hc
        rw [hr]
        have hlen2 : t.length ≤ f := by
          have hlr := congrArg List.length hr
          simp at hlr hlen
          omega
        have h2t : containsSub ['\\', '\\'] t = false := by
          rw [hr] at h2
          exact (containsSub_pair_cons_false (containsSub_pair_cons_false h2).2).2
        have h3t : containsSub ['\\', '.'] t = false := by
          rw [hr] at h3
          exact (containsSub_pair_cons_false (containsSub_pair_cons_false h3).2).2
        obtain ⟨i1, i2, i3⟩ := ih t hlen2 h2t h3t
        have hdrop : (('\\' : Char) :: '_' :: t).drop (['\\', '_'] : Str).length = t := rfl
        rw [hdrop]
        have hcons : ((['_'] : Str) ++ replaceSubF ['\\', '_'] ['_'] f t) =
            '_' :: replaceSubF ['\\', '_'] ['_'] f t := rfl
        refine ⟨?_, ?_, ?_⟩
        · rw [hcons, containsSub_cons, beginsWith_cons_ne (by decide), i1]
          rfl
        · rw [hcons, containsSub_cons, beginsWith_cons_ne (by decide), i2]
          rfl
        · rw [hcons, containsSub_cons, beginsWith_cons_ne (by decide), i3]
          rfl
      · rw [if_neg hfire]
        have hlen2 : r.length ≤ f := by
          simp at hlen
          omega
        obtain ⟨i1, i2, i3⟩ := ih r hlen2 (containsSub_pair_cons_false h2).2
          (containsSub_pair_cons_false h3).2
        have hbw : ∀ q : Char,
            beginsWith ['\\', q] (c :: replaceSubF ['\\', '_'] ['_'] f r) = true →
            (replaceSubF ['\\', '_'] ['_'] f r).head? = some q := by
          intro q hq
          obtain ⟨t, ht⟩ := beginsWith_iff.mp hq
          injection ht with hc hr2
          rw [hr2]
          rfl
        by_cases hc : c = '\\'
        · subst hc
          have hhead : ∀ q : Char, q = '\\' ∨ q = '_' ∨ q = '.' →
              (replaceSubF ['\\', '_'] ['_'] f r).head? ≠ some q := by
            intro q hqk hsome
            cases r with
            | nil =>
              rw [replaceSubF_nil] at hsome
              cases hsome
            | cons d r2 =>
              have hd2 : d ≠ '\\' := by
                intro hd
                subst hd
                have hbt : beginsWith ['\\', '\\'] ('\\' :: '\\' :: r2) = true := by
                  simp [beginsWith]
                have hbf := (containsSub_pair_cons_false h2).1
                rw [hbt] at hbf
                cases hbf
              have hdot : d ≠ '.' := by
                intro hd
                subst hd
                have hbt : beginsWith ['\\', '.'] ('\\' :: '.' :: r2) = true := by
                  simp [beginsWith]
                have hbf := (containsSub_pair_cons_false h3).1
                rw [hbt] at hbf
                cases hbf
              have hund : d ≠ '_' := by
                intro hd
                subst hd
                exact hfire ⟨by simp [beginsWith], by simp⟩
              cases f with
              | zero => simp at hlen
              | succ f2 =>
                have hnofire : ¬(beginsWith ['\\', '_'] (d :: r2) = true ∧
                    (['\\', '_'] : Str) ≠ []) := by
                  intro hcon
                  obtain ⟨t, ht⟩ := beginsWith_iff.mp hcon.1
                  have ht2 : d :: r2 = '\\' :: '_' :: t := ht
                  injection ht2 with hx hr
                  exact hd2 hx
                rw [replaceSubF, if_neg hnofire] at hsome
                injection hsome with hsome
                rcases hqk with rfl | rfl | rfl
                · exact hd2 hsome
                · exact hund hsome
                · exact hdot hsome
          refine ⟨?_, ?_, ?_⟩
          · rw [containsSub_cons, i1]
            rcases hb : beginsWith ['\\', '_'] ('\\' :: replaceSubF ['\\', '_'] ['_'] f r)
            · rfl
            · exact absurd (hbw _ hb) (hhead '_' (by simp))
          · rw [containsSub_cons, i2]
            rcases hb : beginsWith ['\\', '\\'] ('\\' :: replaceSubF ['\\', '_'] ['_'] f r)
            · rfl
            · exact absurd (hbw _ hb) (hhead '\\' (by simp))
          · rw [containsSub_cons, i3]
            rcases hb : beginsWith ['\\', '.'] ('\\' :: replaceSubF ['\\', '_'] ['_'] f r)
            · rfl
            · exact absurd (hbw _ hb) (hhead '.' (by simp))
        · refine ⟨?_, ?_, ?_⟩
          · rw [containsSub_cons, beginsWith_cons_ne (fun he => hc he), i1]
            rfl
          · rw [containsSub_cons, beginsWith_cons_ne (fun he => hc he), i2]
            rfl
          · rw [containsSub_cons, beginsWith_cons_ne (fun he => hc he), i3]
            rfl

theorem containsSub_dropWhile {pat : Str} {p : Char → Bool} {l : Str}
    (h : containsSub pat (l.dropWhile p) = true) : containsSub pat l = true := by
  have hdec := List.takeWhile_append_dropWhile (p := p) (l := l)
  have h2 := containsSub_append_pre (a := l.takeWhile p) h
  rw [hdec] at h2
  exact h2

theorem lineStep4_id_of_noEscDot {l : Str} (h : containsSub ['\\', '.'] l = false) :
    lineStep4 l = l := by
  rw [lineStep4]
  split
  · next rest heq =>
    exfalso
    have h1 : containsSub ['\\', '.'] ((l.dropWhile isWsC).dropWhile isDigitC) = true := by
      rw [heq, containsSub_cons]
      simp [beginsWith]
    have h3 := containsSub_dropWhile (containsSub_dropWhile h1)
    rw [h3] at h
    cases h
  · rfl

theorem lineStep5_id_of_noEscDot {l : Str} (h : containsSub ['\\', '.'] l = false) :
    lineStep5 l = l := by
  rw [lineStep5]
  split
  · rfl
  · dsimp only
    split
    · rfl
    · split
      · rfl
      · split
        · next rest heq =>
          exfalso
          have h1 : containsSub ['\\', '.']
              (((l.dropWhile (· == '#')).dropWhile isWsC).dropWhile isDigitC) = true := by
            rw [heq, containsSub_cons]
            simp [beginsWith]
          have h3 := containsSub_dropWhile (containsSub_dropWhile (containsSub_dropWhile h1))
          rw [h3] at h
          cases h
        · rfl

theorem normalizer_eq_unescUnd {s : Str}
    (h2 : containsSub ['\\', '\\'] s = false) (h3 : containsSub ['\\', '.'] s = false)
    (hbt : ('`' : Char) ∉ s) :
    unescapeMarkdownUnderscores s = unescUnd s := by
  obtain ⟨u1, u2, u3⟩ := unescUndF_clean s.length s (le_refl _) h2 h3
  have u2' : containsSub ['\\', '\\'] (unescUnd s) = false := u2
  have u3' : containsSub ['\\', '.'] (unescUnd s) = false := u3
  have hbtu : ('`' : Char) ∉ unescUnd s := by
    intro hm
    rcases replaceSub_mem hm with hin | hin
    · exact hbt hin
    · simp at hin
  rw [unescapeMarkdownUnderscores]
  rw [collapseBefore_id_of_noDouble u2', collapseBefore_id_of_noDouble u2',
    map_id_of_forall (fun l hl => lineStep4_id_of_noEscDot (containsSub_splitNl_false u3' l hl)),
    joinNl_splitNl,
    map_id_of_forall (fun l hl => lineStep5_id_of_noEscDot (containsSub_splitNl_false u3' l hl)),
    joinNl_splitNl, unescapeAsterisksInsideCode, fencedPass_id_of_bt_free hbtu,
    inlinePass_id_of_bt_free hbtu]

/-- Claim C2 (amended): the escaping normalizer is idempotent on inputs
free of backticks, doubled backslashes and escaped dots — the escape
classes its steps 2-5 rewrite non-trivially. (The unrestricted claim is
refuted by `C2_counterexample`: step 2 turns `\_` into `\_`, which step 1
of a second application removes.) -/
theorem C2_amended_idempotent_on_clean_input (s : Str)
    (h2 : containsSub ['\\', '\\'] s = false) (h3 : containsSub ['\\', '.'] s = false)
    (hbt : ('`' : Char) ∉ s) :
    unescapeMarkdownUnderscores (unescapeMarkdownUnderscores s) =
      unescapeMarkdownUnderscores s := by
  have hkey : unescapeMarkdownUnderscores s = unescUnd s := normalizer_eq_unescUnd h2 h3 hbt
  obtain ⟨u1, u2, u3⟩ := unescUndF_clean s.length s (le_refl _) h2 h3
  have u1' : containsSub ['\\', '_'] (unescUnd s) = false := u1
  have u2' : containsSub ['\\', '\\'] (unescUnd s) = false := u2
  have u3' : containsSub ['\\', '.'] (unescUnd s) = false := u3
  have hbtu : ('`' : Char) ∉ unescUnd s := by
    intro hm
    rcases replaceSub_mem hm with hin | hin
    · exact hbt hin
    · simp at hin
  have hkey2 : unescapeMarkdownUnderscores (unescUnd s) = unescUnd (unescUnd s) :=
    normalizer_eq_unescUnd u2' u3' hbtu
  have hid : unescUnd (unescUnd s) = unescUnd s := replaceSub_id u1'
  rw [hkey, hkey2, hid]

/-- Witness for the amended C2 at the concrete input `a\_b`. -/
theorem C2_amended_idempotent_on_clean_input_witness :
    containsSub ['\\', '\\'] ['a', '\\', '_', 'b'] = false ∧
    unescapeMarkdownUnderscores (unescapeMarkdownUnderscores ['a', '\\', '_', 'b']) =
      unescapeMarkdownUnderscores ['a', '\\', '_', 'b'] :=
  ⟨by decide,
    C2_amended_idempotent_on_clean_input ['a', '\\', '_', 'b']
      (by decide) (by decide) (by decide)⟩

end StorageDom
